import Mathlib

/-!
# libYafaRay: Monte Carlo light-transport core

A shallow embedding over exact rational arithmetic of the pieces of
`include/geometry/bound.h`, `src/integrator/surface/integrator_montecarlo.cc`,
`src/integrators/photonintegr.cc`, `src/integrators/pathtracer.cc`,
`include/math/random.h`, `src/image/image_layers.cc`,
`src/volume/volume_grid.cc` and `src/image_handlers/hdrHandler.cc` that the
specification talks about, followed by the theorems that settle the
specification's claims.

Conventions: C++ `float` values are rationals; the definitions compute in
exact arithmetic, and where a claim depends on the rounding of the source a
second definition rounds every operation to binary32 (`toFloat32`). Unsigned
32-bit integers are naturals reduced modulo `2^32` where the source can wrap,
results of virtual calls into lights, materials and the accelerator are
parameters of the definitions. Signed `int` values are integers with the
truncating division of C++; loops without an evident bound take fuel, and the
theorems about them show that enough fuel gives the result.
-/

namespace YafaRay

/-! ## Geometry: `Point3`, `Ray`, `Bound` (include/geometry/bound.h) -/

/-- Three rational coordinates; stands for both `Point3` and `Vec3`. -/
structure Point3 where
  x : ℚ
  y : ℚ
  z : ℚ
deriving DecidableEq

/-- Componentwise difference, `Point3 - Point3`. -/
def Point3.sub (p q : Point3) : Point3 := ⟨p.x - q.x, p.y - q.y, p.z - q.z⟩

/-- The part of `Ray` that `Bound::cross` reads. -/
structure Ray where
  from_ : Point3
  dir_ : Point3
deriving DecidableEq

/-- The point `from_ + t * dir_` of a ray. -/
def Ray.pointAt (ray : Ray) (t : ℚ) : Point3 :=
  ⟨ray.from_.x + t * ray.dir_.x, ray.from_.y + t * ray.dir_.y, ray.from_.z + t * ray.dir_.z⟩

/-- The struct `Bound::Cross`; `Cross.none` is the value of `return {}`. -/
structure Cross where
  crossed_ : Bool
  enter_ : ℚ
  leave_ : ℚ
deriving DecidableEq

/-- Value-initialised `Cross`, what `return {}` yields: not crossed. -/
def Cross.none : Cross := ⟨false, 0, 0⟩

/-- The class `Bound`: low corner `a_`, up corner `g_`. -/
structure Bound where
  a_ : Point3
  g_ : Point3
deriving DecidableEq

/-- The method `Bound::includes`. -/
def Bound.includes (b : Bound) (pn : Point3) : Bool :=
  decide (pn.x ≥ b.a_.x) && decide (pn.x ≤ b.g_.x) &&
  decide (pn.y ≥ b.a_.y) && decide (pn.y ≤ b.g_.y) &&
  decide (pn.z ≥ b.a_.z) && decide (pn.z ≤ b.g_.z)

/-- The constant `1e38f` that `Bound::cross` uses as its "infinity check"
initial value. -/
def infinityCheck : ℚ := 10 ^ 38

/-- The method `Bound::cross` (Smits' method) in exact arithmetic, in
single-assignment form: `lmin1/lmax1` are `lmin/lmax` after the x block,
`lmin2/lmax2` after the y block, `lmin3/lmax3` after the z block; each early
`return {}` is a `Cross.none` branch. The binary32 computation of the source
is `Bound.crossRounded toFloat32`. -/
def Bound.cross (b : Bound) (ray : Ray) (t_max : ℚ) : Cross :=
  let a_0 := b.a_
  let a_1 := b.g_
  let p := ray.from_.sub a_0
  let lmin0 : ℚ := -infinityCheck
  let lmax0 : ℚ := infinityCheck
  -- x
  let invrx := 1 / ray.dir_.x
  let lmin1 := if ray.dir_.x ≠ 0 then
      (if invrx > 0 then -p.x * invrx else ((a_1.x - a_0.x) - p.x) * invrx) else lmin0
  let lmax1 := if ray.dir_.x ≠ 0 then
      (if invrx > 0 then ((a_1.x - a_0.x) - p.x) * invrx else -p.x * invrx) else lmax0
  if ray.dir_.x ≠ 0 ∧ (lmax1 < 0 ∨ lmin1 > t_max) then Cross.none else
  -- y
  let invry := 1 / ray.dir_.y
  let ltminy := if invry > 0 then -p.y * invry else ((a_1.y - a_0.y) - p.y) * invry
  let ltmaxy := if invry > 0 then ((a_1.y - a_0.y) - p.y) * invry else -p.y * invry
  let lmin2 := if ray.dir_.y ≠ 0 then max ltminy lmin1 else lmin1
  let lmax2 := if ray.dir_.y ≠ 0 then min ltmaxy lmax1 else lmax1
  if ray.dir_.y ≠ 0 ∧ (lmax2 < 0 ∨ lmin2 > t_max) then Cross.none else
  -- z
  let invrz := 1 / ray.dir_.z
  let ltminz := if invrz > 0 then -p.z * invrz else ((a_1.z - a_0.z) - p.z) * invrz
  let ltmaxz := if invrz > 0 then ((a_1.z - a_0.z) - p.z) * invrz else -p.z * invrz
  let lmin3 := if ray.dir_.z ≠ 0 then max ltminz lmin2 else lmin2
  let lmax3 := if ray.dir_.z ≠ 0 then min ltmaxz lmax2 else lmax2
  if ray.dir_.z ≠ 0 ∧ (lmax3 < 0 ∨ lmin3 > t_max) then Cross.none else
  if lmin3 ≤ lmax3 ∧ lmax3 ≥ 0 ∧ lmin3 ≤ t_max then ⟨true, lmin3, lmax3⟩ else Cross.none

/-- The box `[(0,0,0),(1,1,1)]` of the specification's examples. -/
def unitBox : Bound := ⟨⟨0, 0, 0⟩, ⟨1, 1, 1⟩⟩

/-- Entry candidate of one axis, as each block of `Bound::cross` computes it:
`d` is the direction component, `p` the origin minus the low corner, `e` the
box extent `a_1 - a_0` on that axis. -/
def slabMin (d p e : ℚ) : ℚ := if 1 / d > 0 then -p * (1 / d) else (e - p) * (1 / d)

/-- Exit candidate of one axis, as each block of `Bound::cross` computes it. -/
def slabMax (d p e : ℚ) : ℚ := if 1 / d > 0 then (e - p) * (1 / d) else -p * (1 / d)

/-- Value of `lmin` after the x block of `Bound::cross`. -/
def crossLmin1 (b : Bound) (ray : Ray) : ℚ :=
  if ray.dir_.x ≠ 0 then slabMin ray.dir_.x (ray.from_.x - b.a_.x) (b.g_.x - b.a_.x)
  else -infinityCheck

/-- Value of `lmax` after the x block of `Bound::cross`. -/
def crossLmax1 (b : Bound) (ray : Ray) : ℚ :=
  if ray.dir_.x ≠ 0 then slabMax ray.dir_.x (ray.from_.x - b.a_.x) (b.g_.x - b.a_.x)
  else infinityCheck

/-- Value of `lmin` after the y block of `Bound::cross`. -/
def crossLmin2 (b : Bound) (ray : Ray) : ℚ :=
  if ray.dir_.y ≠ 0 then
    max (slabMin ray.dir_.y (ray.from_.y - b.a_.y) (b.g_.y - b.a_.y)) (crossLmin1 b ray)
  else crossLmin1 b ray

/-- Value of `lmax` after the y block of `Bound::cross`. -/
def crossLmax2 (b : Bound) (ray : Ray) : ℚ :=
  if ray.dir_.y ≠ 0 then
    min (slabMax ray.dir_.y (ray.from_.y - b.a_.y) (b.g_.y - b.a_.y)) (crossLmax1 b ray)
  else crossLmax1 b ray

/-- Value of `lmin` after the z block of `Bound::cross`. -/
def crossLmin3 (b : Bound) (ray : Ray) : ℚ :=
  if ray.dir_.z ≠ 0 then
    max (slabMin ray.dir_.z (ray.from_.z - b.a_.z) (b.g_.z - b.a_.z)) (crossLmin2 b ray)
  else crossLmin2 b ray

/-- Value of `lmax` after the z block of `Bound::cross`. -/
def crossLmax3 (b : Bound) (ray : Ray) : ℚ :=
  if ray.dir_.z ≠ 0 then
    min (slabMax ray.dir_.z (ray.from_.z - b.a_.z) (b.g_.z - b.a_.z)) (crossLmax2 b ray)
  else crossLmax2 b ray

/-- The ray of the specification's hit example: origin `(-1, 0.5, 0.5)`,
direction `(1, 0, 0)`. -/
def specHitRay : Ray := ⟨⟨-1, 1 / 2, 1 / 2⟩, ⟨1, 0, 0⟩⟩

/-- The ray of the specification's miss example: origin `(-1, 0.5, 0.5)`,
direction `(0, 1, 0)`. -/
def specMissRay : Ray := ⟨⟨-1, 1 / 2, 1 / 2⟩, ⟨0, 1, 0⟩⟩

/-- A ray parallel to the y axis that starts `2e38` below the unit box. -/
def farRay : Ray := ⟨⟨1 / 2, -(2 * 10 ^ 38), 1 / 2⟩, ⟨0, 1, 0⟩⟩

/-- A ray that starts inside the unit box, all direction components nonzero. -/
def diagonalRay : Ray := ⟨⟨1 / 2, 1 / 2, 1 / 2⟩, ⟨1, 1, 1⟩⟩

/-- A ray that points away from the unit box along the x axis. -/
def awayRay : Ray := ⟨⟨-1, 1 / 2, 1 / 2⟩, ⟨-1, 0, 0⟩⟩

/-! ## Colours and colour layers -/

/-- The class `Rgb` with exact channels. -/
structure Rgb where
  r_ : ℚ
  g_ : ℚ
  b_ : ℚ
deriving DecidableEq

/-- The colour `Rgb{0.f}`. -/
def Rgb.black : Rgb := ⟨0, 0, 0⟩

/-- The colour `Rgb(1.f)`. -/
def Rgb.white : Rgb := ⟨1, 1, 1⟩

/-- Channelwise sum, `Rgb + Rgb`. -/
def Rgb.add (c d : Rgb) : Rgb := ⟨c.r_ + d.r_, c.g_ + d.g_, c.b_ + d.b_⟩

/-- Channelwise product, `Rgb * Rgb`. -/
def Rgb.mul (c d : Rgb) : Rgb := ⟨c.r_ * d.r_, c.g_ * d.g_, c.b_ * d.b_⟩

/-- Product with a scalar, `Rgb * float`. -/
def Rgb.scale (c : Rgb) (f : ℚ) : Rgb := ⟨c.r_ * f, c.g_ * f, c.b_ * f⟩

/-- Quotient by a scalar, `Rgb / float`. -/
def Rgb.divide (c : Rgb) (f : ℚ) : Rgb := ⟨c.r_ / f, c.g_ / f, c.b_ / f⟩

/-- The method `Rgb::isBlack`. -/
def Rgb.isBlack (c : Rgb) : Bool := decide (c.r_ = 0) && decide (c.g_ = 0) && decide (c.b_ = 0)

/-- The layer types that the direct-light estimators look up. -/
inductive Layer where
  | Diffuse
  | DiffuseNoShadow
  | Glossy
  | Shadow
  | MatIndexMaskShadow
  | ObjIndexMaskShadow
  | DebugLightEstimationLightSampling
  | DebugLightEstimationMatSampling
deriving DecidableEq

/-- What the estimators read of a `ColorLayers` object: the four groups of
`getFlags().hasAny(...)` and whether `find(layer)` returns a layer. -/
structure ColorLayers where
  hasIndexLayers : Bool
  hasDiffuseLayers : Bool
  hasBasicLayers : Bool
  hasDebugLayers : Bool
  find : Layer → Bool

/-- The epsilon `1e-6f` of the pdf guards. -/
def pdfEpsilon : ℚ := 1 / 1000000

/-! ## Direct lighting by an area light (integrator_montecarlo.cc) -/

/-- The members of the integrator, the light and the material that the two
area-light sampling loops read, constant over one call. -/
structure AreaLightSettings where
  tr_shad_ : Bool
  cast_shadows : Bool
  vol_integrator_ : Bool
  is_flat : Bool
  can_intersect : Bool
  mask_mat_index_ : ℚ
  mask_obj_index_ : ℚ

/-- The primitive returned by `isShadowed`: the absolute indices of its object
and material, `none` where the pointer is null. -/
structure ShadowPrimitive where
  object_index : Option ℚ
  material_index : Option ℚ

/-- Everything the calls made for one light sample return:
`illumSample` (`illum_ok`, `ls_pdf`, `ls_col`), `isShadowed` (`shadowed`,
`scol`, `shadow_casting_primitive`), `transmittance`, the three `eval` calls,
`std::abs(sp.n_ * light_ray.dir_)` and `material->pdf`. -/
structure LightSampleInputs where
  illum_ok : Bool
  ls_pdf : ℚ
  ls_col : Rgb
  shadowed : Bool
  scol : Rgb
  shadow_casting_primitive : Option ShadowPrimitive
  transmit_col : Rgb
  surf_col : Rgb
  eval_diffuse : Rgb
  eval_glossy : Rgb
  abs_cos : ℚ
  m_pdf : ℚ

/-- The accumulators of `areaLightSampleLight`, with two ghost logs: the
weights `w` multiplied into the contributions added to `col`, and the values
used as divisor in `/ ls.pdf_`, in order of execution. -/
structure LightAccum where
  col : Rgb
  col_shadow : Rgb
  col_shadow_obj_mask : Rgb
  col_shadow_mat_mask : Rgb
  col_diff_dir : Rgb
  col_diff_no_shadow : Rgb
  col_glossy_dir : Rgb
  col_weights : List ℚ
  pdf_divisors : List ℚ

/-- All accumulators black, both logs empty. -/
def LightAccum.init : LightAccum :=
  ⟨Rgb.black, Rgb.black, Rgb.black, Rgb.black, Rgb.black, Rgb.black, Rgb.black, [], []⟩

/-- The pointers `color_layer_*` after the lookup block that opens
`areaLightSampleLight`: `true` for a non-null pointer. -/
structure LightLayerPtrs where
  color_layers : Bool
  mat_index_mask_shadow : Bool
  obj_index_mask_shadow : Bool
  diffuse : Bool
  diffuse_no_shadow : Bool
  shadow : Bool
  glossy : Bool
  index_flags : Bool

/-- The lookup block of `areaLightSampleLight` (source lines 171-188). -/
def lightLayerPtrs (color_layers : Option ColorLayers) : LightLayerPtrs :=
  match color_layers with
  | none => ⟨false, false, false, false, false, false, false, false⟩
  | some cl =>
    { color_layers := true
      mat_index_mask_shadow := cl.hasIndexLayers && cl.find Layer.MatIndexMaskShadow
      obj_index_mask_shadow := cl.hasIndexLayers && cl.find Layer.ObjIndexMaskShadow
      diffuse := cl.hasDiffuseLayers && cl.find Layer.Diffuse
      diffuse_no_shadow := cl.hasDiffuseLayers && cl.find Layer.DiffuseNoShadow
      shadow := cl.hasBasicLayers && cl.find Layer.Shadow
      glossy := cl.hasBasicLayers && cl.find Layer.Glossy
      index_flags := cl.hasIndexLayers }

/-- The weight `w` of a light sample (source lines 219-229): the power
heuristic with exponent 2 when the light can be intersected and the material
pdf exceeds `1e-6`, and 1 otherwise. -/
def lightSampleWeight (can_intersect : Bool) (ls_pdf m_pdf : ℚ) : ℚ :=
  if can_intersect then
    if m_pdf > pdfEpsilon then
      let l_2 := ls_pdf * ls_pdf
      let m_2 := m_pdf * m_pdf
      l_2 / (l_2 + m_2)
    else 1
  else 1

/-- The block of source lines 207-245 in the sample loop of
`areaLightSampleLight`, entered when the sample is lit (unshadowed, pdf above
`1e-6`) or the `DiffuseNoShadow` layer is defined. -/
def lightSampleShade (cfg : AreaLightSettings) (ptr : LightLayerPtrs) (acc : LightAccum)
    (inp : LightSampleInputs) (shadowed : Bool) : LightAccum :=
  let lit : Bool := !shadowed && decide (inp.ls_pdf > pdfEpsilon)
  if lit || ptr.diffuse_no_shadow then
    let ls_col_no_shadow := inp.ls_col
    let ls_col1 := if cfg.tr_shad_ && cfg.cast_shadows then inp.ls_col.mul inp.scol
      else inp.ls_col
    let ls_col2 := if cfg.vol_integrator_ then ls_col1.mul inp.transmit_col else ls_col1
    let surf_col := inp.surf_col
    let col_shadow := if ptr.shadow && lit then acc.col_shadow.add Rgb.white
      else acc.col_shadow
    let angle_light_normal : ℚ := if cfg.is_flat then 1 else inp.abs_cos
    let w := lightSampleWeight cfg.can_intersect inp.ls_pdf inp.m_pdf
    -- if(color_layer_diffuse || color_layer_diffuse_no_shadow)
    let diff_block : Bool := ptr.color_layers && (ptr.diffuse || ptr.diffuse_no_shadow)
    let tmp_col_no_light_color :=
      ((inp.eval_diffuse.scale angle_light_normal).scale w).divide inp.ls_pdf
    let divs1 := if diff_block then acc.pdf_divisors ++ [inp.ls_pdf] else acc.pdf_divisors
    let col_diff_no_shadow := if diff_block && ptr.diffuse_no_shadow then
        acc.col_diff_no_shadow.add (tmp_col_no_light_color.mul ls_col_no_shadow)
      else acc.col_diff_no_shadow
    let col_diff_dir := if diff_block && (ptr.diffuse && lit) then
        acc.col_diff_dir.add (tmp_col_no_light_color.mul ls_col2)
      else acc.col_diff_dir
    -- if(color_layer_glossy)
    let glossy_block : Bool := ptr.color_layers && ptr.glossy
    let tmp_col :=
      (((inp.eval_glossy.mul ls_col2).scale angle_light_normal).scale w).divide inp.ls_pdf
    let divs2 := if glossy_block then divs1 ++ [inp.ls_pdf] else divs1
    let col_glossy_dir := if glossy_block && lit then acc.col_glossy_dir.add tmp_col
      else acc.col_glossy_dir
    -- if(!shadowed && ls.pdf_ > 1e-6f) col += ...
    let col := if lit then
        acc.col.add
          ((((surf_col.mul ls_col2).scale angle_light_normal).scale w).divide inp.ls_pdf)
      else acc.col
    let divs3 := if lit then divs2 ++ [inp.ls_pdf] else divs2
    let weights := if lit then acc.col_weights ++ [w] else acc.col_weights
    { acc with col := col, col_shadow := col_shadow, col_diff_dir := col_diff_dir,
               col_diff_no_shadow := col_diff_no_shadow, col_glossy_dir := col_glossy_dir,
               col_weights := weights, pdf_divisors := divs3 }
  else acc

/-- The block of source lines 246-253: the index masks of the primitive that
casts the shadow. -/
def lightSampleIndexMask (cfg : AreaLightSettings) (ptr : LightLayerPtrs) (acc : LightAccum)
    (inp : LightSampleInputs) (shadowed : Bool)
    (shadow_casting_primitive : Option ShadowPrimitive) : LightAccum :=
  match shadow_casting_primitive with
  | some prim =>
    if ptr.color_layers && (shadowed || decide (inp.ls_pdf ≤ pdfEpsilon)) && ptr.index_flags
    then
      let mask_obj_index : ℚ := prim.object_index.getD 0
      let mask_mat_index : ℚ := prim.material_index.getD 0
      let mat_mask :=
        if ptr.mat_index_mask_shadow && decide (mask_mat_index = cfg.mask_mat_index_) then
          acc.col_shadow_mat_mask.add Rgb.white else acc.col_shadow_mat_mask
      let obj_mask :=
        if ptr.obj_index_mask_shadow && decide (mask_obj_index = cfg.mask_obj_index_) then
          acc.col_shadow_obj_mask.add Rgb.white else acc.col_shadow_obj_mask
      { acc with col_shadow_mat_mask := mat_mask, col_shadow_obj_mask := obj_mask }
    else acc
  | none => acc

/-- The body of the sample loop of `areaLightSampleLight` (source lines
194-254) for one sample: nothing happens unless `illumSample` succeeds;
`shadowed` stays `false` and `shadow_casting_primitive` null unless shadows
are cast. -/
def lightSampleStep (cfg : AreaLightSettings) (ptr : LightLayerPtrs) (acc : LightAccum)
    (inp : LightSampleInputs) : LightAccum :=
  if inp.illum_ok then
    let shadowed := cfg.cast_shadows && inp.shadowed
    let shadow_casting_primitive :=
      if cfg.cast_shadows then inp.shadow_casting_primitive else none
    lightSampleIndexMask cfg ptr (lightSampleShade cfg ptr acc inp shadowed) inp shadowed
      shadow_casting_primitive
  else acc

/-- What `areaLightSampleLight` leaves behind: the returned `col_result`, the
accumulators (each is added, times `inv_num_samples`, to its layer) and the two
ghost logs. -/
structure LightSamplingResult where
  col_result : Rgb
  acc : LightAccum

/-- The method `MonteCarloIntegrator::areaLightSampleLight`: `inputs i` is what
the calls of iteration `i` return. -/
def areaLightSampleLight (cfg : AreaLightSettings) (color_layers : Option ColorLayers)
    (num_samples : ℕ) (inv_num_samples : ℚ) (inputs : ℕ → LightSampleInputs) :
    LightSamplingResult :=
  let ptr := lightLayerPtrs color_layers
  let acc := (List.range num_samples).foldl
    (fun a i => lightSampleStep cfg ptr a (inputs i)) LightAccum.init
  ⟨acc.col.scale inv_num_samples, acc⟩

/-- Everything the calls made for one BSDF sample return: `material->sample`
(`surf_col`, the weight `W`, `s_pdf`, the sampled lobes), `light->intersect`
(`intersect_ok`, `lcol`, the inverse pdf `light_pdf`), `isShadowed` and
`transmittance`. `material->sample` is taken to be a function of its
arguments: the repeated calls of source lines 346 and 352 return what the first
one did. -/
structure MaterialSampleInputs where
  surf_col : Rgb
  W : ℚ
  s_pdf : ℚ
  sampled_diffuse : Bool
  sampled_glossy : Bool
  intersect_ok : Bool
  lcol : Rgb
  light_pdf : ℚ
  shadowed : Bool
  scol : Rgb
  transmit_col : Rgb

/-- The accumulators of `areaLightSampleMaterial`, with two ghost logs: the
weights `w` multiplied into the contributions added to `col`, and the values
used as divisor in `1.f / light_pdf`, in order of execution. -/
structure MaterialAccum where
  col : Rgb
  col_diff_dir : Rgb
  col_diff_no_shadow : Rgb
  col_glossy_dir : Rgb
  col_weights : List ℚ
  pdf_divisors : List ℚ

/-- All accumulators black, both logs empty. -/
def MaterialAccum.init : MaterialAccum := ⟨Rgb.black, Rgb.black, Rgb.black, Rgb.black, [], []⟩

/-- The pointers `color_layer_*` after the lookup block that opens
`areaLightSampleMaterial` (source lines 292-303). -/
structure MaterialLayerPtrs where
  color_layers : Bool
  diffuse : Bool
  diffuse_no_shadow : Bool
  glossy : Bool

/-- The lookup block of `areaLightSampleMaterial`. -/
def materialLayerPtrs (color_layers : Option ColorLayers) : MaterialLayerPtrs :=
  match color_layers with
  | none => ⟨false, false, false, false⟩
  | some cl =>
    { color_layers := true
      diffuse := cl.hasDiffuseLayers && cl.find Layer.Diffuse
      diffuse_no_shadow := cl.hasDiffuseLayers && cl.find Layer.DiffuseNoShadow
      glossy := cl.hasBasicLayers && cl.find Layer.Glossy }

/-- The weight `w` of a BSDF sample (source lines 338-341): `light_pdf` is the
inverse pdf that `light->intersect` returns. -/
def materialSampleWeight (light_pdf s_pdf : ℚ) : ℚ :=
  let l_pdf := 1 / light_pdf
  let l_2 := l_pdf * l_pdf
  let m_2 := s_pdf * s_pdf
  m_2 / (l_2 + m_2)

/-- The body of the sample loop of `areaLightSampleMaterial` (source lines
311-358) for one sample. -/
def materialSampleStep (cfg : AreaLightSettings) (ptr : MaterialLayerPtrs)
    (acc : MaterialAccum) (inp : MaterialSampleInputs) : MaterialAccum :=
  if decide (inp.s_pdf > pdfEpsilon) && inp.intersect_ok then
    let shadowed := cfg.cast_shadows && inp.shadowed
    let lit : Bool := !shadowed && decide (inp.light_pdf > pdfEpsilon)
    if lit || ptr.diffuse_no_shadow then
      let lcol1 := if cfg.tr_shad_ && cfg.cast_shadows then inp.lcol.mul inp.scol else inp.lcol
      let lcol2 := if cfg.vol_integrator_ then lcol1.mul inp.transmit_col else lcol1
      let w := materialSampleWeight inp.light_pdf inp.s_pdf
      let divs := acc.pdf_divisors ++ [inp.light_pdf]
      -- if(color_layer_diffuse || color_layer_diffuse_no_shadow)
      let diff_block : Bool := ptr.color_layers && (ptr.diffuse || ptr.diffuse_no_shadow)
      let tmp_col := ((inp.surf_col.mul lcol2).scale w).scale inp.W
      let col_diff_no_shadow := if diff_block && ptr.diffuse_no_shadow then
          acc.col_diff_no_shadow.add tmp_col else acc.col_diff_no_shadow
      let col_diff_dir := if diff_block && (ptr.diffuse && lit && inp.sampled_diffuse) then
          acc.col_diff_dir.add tmp_col else acc.col_diff_dir
      -- if(color_layer_glossy)
      let glossy_block : Bool := ptr.color_layers && ptr.glossy
      let col_glossy_dir := if glossy_block && (lit && inp.sampled_glossy) then
          acc.col_glossy_dir.add tmp_col else acc.col_glossy_dir
      -- if(!shadowed && light_pdf > 1e-6f) col += surf_col * lcol * w * W
      let col := if lit then acc.col.add (((inp.surf_col.mul lcol2).scale w).scale inp.W)
        else acc.col
      let weights := if lit then acc.col_weights ++ [w] else acc.col_weights
      { col := col, col_diff_dir := col_diff_dir, col_diff_no_shadow := col_diff_no_shadow,
        col_glossy_dir := col_glossy_dir, col_weights := weights, pdf_divisors := divs }
    else acc
  else acc

/-- What `areaLightSampleMaterial` leaves behind: the returned `col_result`,
the accumulators and the two ghost logs. -/
structure MaterialSamplingResult where
  col_result : Rgb
  acc : MaterialAccum

/-- The method `MonteCarloIntegrator::areaLightSampleMaterial`: `inputs i` is
what the calls of iteration `i` return. -/
def areaLightSampleMaterial (cfg : AreaLightSettings) (color_layers : Option ColorLayers)
    (num_samples : ℕ) (inv_num_samples : ℚ) (inputs : ℕ → MaterialSampleInputs) :
    MaterialSamplingResult :=
  if cfg.can_intersect then
    let ptr := materialLayerPtrs color_layers
    let acc := (List.range num_samples).foldl
      (fun a i => materialSampleStep cfg ptr a (inputs i)) MaterialAccum.init
    ⟨acc.col.scale inv_num_samples, acc⟩
  else ⟨Rgb.black, MaterialAccum.init⟩

/-- A configuration for the examples: opaque shadows are cast, no volume
integrator, the light can be intersected. -/
def exampleSettings : AreaLightSettings :=
  { tr_shad_ := false, cast_shadows := true, vol_integrator_ := false, is_flat := false,
    can_intersect := true, mask_mat_index_ := 0, mask_obj_index_ := 0 }

/-- An unshadowed light sample with white colours, light pdf `ls_pdf` and
material pdf `m_pdf`. -/
def exampleLightInputs (ls_pdf m_pdf : ℚ) : LightSampleInputs :=
  { illum_ok := true, ls_pdf := ls_pdf, ls_col := Rgb.white, shadowed := false,
    scol := Rgb.black, shadow_casting_primitive := none, transmit_col := Rgb.white,
    surf_col := Rgb.white, eval_diffuse := Rgb.white, eval_glossy := Rgb.white,
    abs_cos := 1, m_pdf := m_pdf }

/-- An unshadowed BSDF sample with white colours that hits the light, with
material pdf `s_pdf` and inverse light pdf `light_pdf`. -/
def exampleMaterialInputs (light_pdf s_pdf : ℚ) : MaterialSampleInputs :=
  { surf_col := Rgb.white, W := 1, s_pdf := s_pdf, sampled_diffuse := true,
    sampled_glossy := false, intersect_ok := true, lcol := Rgb.white,
    light_pdf := light_pdf, shadowed := false, scol := Rgb.black,
    transmit_col := Rgb.white }

/-- The light sample of the examples with both pdfs equal to 1. -/
def unitLightInputs : LightSampleInputs := exampleLightInputs 1 1

/-- The BSDF sample of the examples with both pdfs equal to 1. -/
def unitMaterialInputs : MaterialSampleInputs := exampleMaterialInputs 1 1

/-- Colour layers in which only `DiffuseNoShadow` is defined. -/
def noShadowLayers : ColorLayers :=
  { hasIndexLayers := false, hasDiffuseLayers := true, hasBasicLayers := false,
    hasDebugLayers := false, find := fun l => decide (l = Layer.DiffuseNoShadow) }

/-! ## Recursive ray tracing (integrator_montecarlo.cc, `recursiveRaytrace`) -/

/-- The lobes of `BsdfFlags` that the integrator tests. -/
inductive Bsdf where
  | Specular
  | Glossy
  | Diffuse
  | Dispersive
  | Reflect
  | Transmit
  | Filter
  | Emit
  | Volumetric
deriving DecidableEq

/-- A value of `BsdfFlags`: the lobes that are set. -/
abbrev BsdfFlags := List Bsdf

/-- The method `BsdfFlags::hasAny`: some lobe of `mask` is set in `flags`. -/
def hasAny (flags : BsdfFlags) (mask : List Bsdf) : Bool := mask.any (fun f => decide (f ∈ flags))

/-- The struct `DirectionColor` of a perfect specular direction. -/
structure DirectionColor where
  dir_ : Point3
  col_ : Rgb

/-- The struct `Specular` returned by `material->getSpecular`: the optional
reflection and refraction data. -/
structure Specular where
  reflect_ : Option DirectionColor
  refract_ : Option DirectionColor

/-- The continuation functions that `recursiveRaytrace` can call; each of them
recurses into `integrate`. -/
inductive Continuation where
  | dispersive
  | glossy
  | specularReflect
  | specularRefract
deriving DecidableEq

/-- What the callees of `recursiveRaytrace` return for the arguments of the
call at hand: the pairs (colour, alpha) of `dispersive`, `glossy`,
`specularReflect` and `specularRefract`, and the `Specular` of the material. -/
structure RaytraceCallees where
  dispersive : Rgb × ℚ
  glossy : Rgb × ℚ
  getSpecular : Specular
  specularReflect : DirectionColor → Rgb × ℚ
  specularRefract : DirectionColor → Rgb × ℚ

/-- The locals `col`, `alpha`, `alpha_count` of `recursiveRaytrace`, with the
ghost log of the continuation functions called so far. -/
structure RaytraceState where
  col : Rgb
  alpha : ℚ
  alpha_count : ℤ
  calls : List Continuation

/-- The three statements `col += result.first; alpha += result.second;
++alpha_count;` after the call of continuation `c`. -/
def RaytraceState.accumulate (st : RaytraceState) (c : Continuation) (result : Rgb × ℚ) :
    RaytraceState :=
  ⟨st.col.add result.1, st.alpha + result.2, st.alpha_count + 1, st.calls ++ [c]⟩

/-- The pair returned by `recursiveRaytrace`, with the log of the continuation
functions it called. -/
structure RaytraceResult where
  col : Rgb
  alpha : ℚ
  calls : List Continuation
deriving DecidableEq

/-- The method `MonteCarloIntegrator::recursiveRaytrace`. The integers are
mathematical: `r_depth_ + additional_depth` is assumed not to overflow. -/
def recursiveRaytrace (r_depth_ : ℤ) (ray_level : ℤ) (chromatic_enabled : Bool)
    (bsdfs : BsdfFlags) (additional_depth : ℤ) (callees : RaytraceCallees) : RaytraceResult :=
  let st0 : RaytraceState := ⟨Rgb.black, 0, 0, []⟩
  let st3 : RaytraceState :=
    if ray_level ≤ r_depth_ + additional_depth then
      -- dispersive effects with recursive raytracing
      let st1 := if hasAny bsdfs [Bsdf.Dispersive] && chromatic_enabled then
          st0.accumulate Continuation.dispersive callees.dispersive
        else st0
      if decide (ray_level < 20) && hasAny bsdfs [Bsdf.Glossy, Bsdf.Specular, Bsdf.Filter] then
        -- glossy reflection with recursive raytracing
        let st2 := if hasAny bsdfs [Bsdf.Glossy] then
            st1.accumulate Continuation.glossy callees.glossy
          else st1
        -- perfect specular reflection/refraction with recursive raytracing
        if hasAny bsdfs [Bsdf.Specular, Bsdf.Filter] then
          let specular := callees.getSpecular
          let st2a := match specular.reflect_ with
            | some reflect_data =>
              st2.accumulate Continuation.specularReflect (callees.specularReflect reflect_data)
            | none => st2
          match specular.refract_ with
          | some refract_data =>
            st2a.accumulate Continuation.specularRefract (callees.specularRefract refract_data)
          | none => st2a
        else st2
      else st1
    else st0
  ⟨st3.col, if st3.alpha_count > 0 then st3.alpha / st3.alpha_count else 1, st3.calls⟩

/-- Callees for the examples: every continuation returns a grey colour with
alpha `1/2`, the material has a reflection and a refraction direction. -/
def exampleCallees : RaytraceCallees :=
  { dispersive := (⟨1 / 4, 1 / 4, 1 / 4⟩, 1 / 2)
    glossy := (⟨1 / 8, 1 / 8, 1 / 8⟩, 1 / 2)
    getSpecular := ⟨some ⟨⟨0, 0, 1⟩, Rgb.white⟩, some ⟨⟨0, 0, -1⟩, Rgb.white⟩⟩
    specularReflect := fun d => (d.col_, 1 / 2)
    specularRefract := fun d => (d.col_, 1 / 2) }

/-! ## Caustic photon shooting (`createCausticMap`, `causticWorker`) -/

/-- The statement `n_caus_photons_ = std::max((unsigned int) num_threads_photons_,
(n_caus_photons_ / num_threads_photons_) * num_threads_photons_)` of
`createCausticMap` (source line 610; the same statement adjusts
`nDiffusePhotons` and `nCausPhotons` in photonintegr.cc), in unsigned 32-bit
arithmetic. -/
def adjustedPhotonCount (n_caus_photons_ num_threads_photons_ : ℕ) : ℕ :=
  max num_threads_photons_
    ((n_caus_photons_ / num_threads_photons_) * num_threads_photons_ % 2 ^ 32)

/-- The local `n_caus_photons_thread = 1 + ((n_caus_photons_ - 1) /
num_threads_photons_)` of `causticWorker`, in unsigned 32-bit arithmetic. -/
def photonsPerThread (n_caus_photons_ num_threads_photons_ : ℕ) : ℕ :=
  (1 + ((n_caus_photons_ + 2 ^ 32 - 1) % 2 ^ 32) / num_threads_photons_) % 2 ^ 32

/-- The local `haltoncurr = curr + n_caus_photons_thread * thread_id` of
`causticWorker`, in unsigned 32-bit arithmetic. -/
def haltoncurr (curr n_caus_photons_thread thread_id : ℕ) : ℕ :=
  (curr + (n_caus_photons_thread * thread_id) % 2 ^ 32) % 2 ^ 32

/-- The light-selection sample `s_l = float(haltoncurr) / float(n_caus_photons_)`
of `causticWorker` in exact arithmetic: the quotient without the rounding of
the conversions and of the division. The binary32 values of the two sources
are `lightSelectionSampleFloat` and `lightSelectionSampleInv`. -/
def lightSelectionSample (haltoncurr n_caus_photons_ : ℕ) : ℚ :=
  (haltoncurr : ℚ) / (n_caus_photons_ : ℚ)

/-- The class `Photon`: incoming direction, position, colour. -/
structure Photon where
  dir_ : Point3
  pos_ : Point3
  c_ : Rgb
deriving DecidableEq

/-- What happens to the photon of one sample index in `causticWorker`:
`lightError` is `light_num >= num_lights` (the worker returns), `black` a
black `pcol`, `nan` a NaN channel in `pcol`, and `traced deposited` the run of
the bounce loop, which leaves the photons `deposited` in the local buffer. -/
inductive PhotonOutcome where
  | lightError
  | black
  | nan
  | traced (deposited : List Photon)

/-- The outcomes after which `causticWorker` increments `curr`: a black photon
and a traced one. -/
def PhotonOutcome.processed : PhotonOutcome → Bool
  | PhotonOutcome.black => true
  | PhotonOutcome.traced _ => true
  | _ => false

/-- How `causticWorker` ends: `aborted` is a `return` from inside the loop
(light-index error or cancellation; nothing is appended), `finished` the
normal exit, with the arguments of `appendVector(local_caustic_photons, curr)`;
`curr` is also what is added to `total_photons_shot`. -/
inductive WorkerExit where
  | aborted
  | finished (local_caustic_photons : List Photon) (curr : ℕ)

/-- The loop `while(!done)` of `causticWorker`, entered with `done = false`.
`shoot` gives the outcome of the photon of a sample index, `canceled` the
answer of `render_control_.canceled()` when asked at a value of `curr`. One
unit of fuel is one iteration; `none` means the fuel ran out. -/
def causticWorkerLoop (n_caus_photons_thread thread_id pb_step : ℕ)
    (shoot : ℕ → PhotonOutcome) (canceled : ℕ → Bool) :
    ℕ → ℕ → List Photon → Option WorkerExit
  | 0, _, _ => none
  | fuel + 1, curr, local_caustic_photons =>
    match shoot (haltoncurr curr n_caus_photons_thread thread_id) with
    | PhotonOutcome.lightError => some WorkerExit.aborted
    | PhotonOutcome.black =>
      -- ++curr; done = (curr >= n_caus_photons_thread); continue;
      if curr + 1 ≥ n_caus_photons_thread then
        some (WorkerExit.finished local_caustic_photons (curr + 1))
      else
        causticWorkerLoop n_caus_photons_thread thread_id pb_step shoot canceled fuel (curr + 1)
          local_caustic_photons
    | PhotonOutcome.nan =>
      -- continue; with curr and done unchanged
      causticWorkerLoop n_caus_photons_thread thread_id pb_step shoot canceled fuel curr
        local_caustic_photons
    | PhotonOutcome.traced deposited =>
      -- ++curr; if(curr % pb_step == 0) { ...; if(canceled()) return; }
      if (curr + 1) % pb_step = 0 ∧ canceled (curr + 1) = true then some WorkerExit.aborted
      else if curr + 1 ≥ n_caus_photons_thread then
        some (WorkerExit.finished (local_caustic_photons ++ deposited) (curr + 1))
      else
        causticWorkerLoop n_caus_photons_thread thread_id pb_step shoot canceled fuel (curr + 1)
          (local_caustic_photons ++ deposited)

/-- The method `MonteCarloIntegrator::causticWorker`: `n_caus_photons_` is the
member as the worker finds it (already adjusted by `createCausticMap`). -/
def causticWorker (n_caus_photons_ num_threads_photons_ thread_id pb_step : ℕ)
    (shoot : ℕ → PhotonOutcome) (canceled : ℕ → Bool) (fuel : ℕ) : Option WorkerExit :=
  causticWorkerLoop (photonsPerThread n_caus_photons_ num_threads_photons_) thread_id pb_step
    shoot canceled fuel 0 []

/-- The shared state that the workers update under `caustic_map_->mutx_`: the
calls of `appendVector` made so far (buffer and path contribution) and the
counter `total_photons_shot`. -/
structure ShootState where
  append_calls : List (List Photon × ℕ)
  total_photons_shot : ℕ

/-- The critical section that ends `causticWorker` (source lines 537-540);
a worker that returned early does not reach it. -/
def ShootState.join (st : ShootState) : WorkerExit → ShootState
  | WorkerExit.aborted => st
  | WorkerExit.finished local_caustic_photons curr =>
    ⟨st.append_calls ++ [(local_caustic_photons, curr)],
      (st.total_photons_shot + curr) % 2 ^ 32⟩

/-- Workers `0 .. k-1` run to their end and joined, in the order of their
thread ids (the critical sections commute, so the order does not matter for
the counter); `none` when one of them runs out of fuel. -/
def joinWorkers (n_caus_photons_ num_threads_photons_ pb_step : ℕ)
    (shoot : ℕ → PhotonOutcome) (canceled : ℕ → ℕ → Bool) (fuel : ℕ) :
    ℕ → Option ShootState
  | 0 => some ⟨[], 0⟩
  | k + 1 =>
    match joinWorkers n_caus_photons_ num_threads_photons_ pb_step shoot canceled fuel k with
    | none => none
    | some st =>
      match causticWorker n_caus_photons_ num_threads_photons_ k pb_step shoot (canceled k)
          fuel with
      | none => none
      | some e => some (st.join e)

/-- The shooting phase of `createCausticMap` (source lines 604-616):
`pb_step` from the requested count, the adjustment of `n_caus_photons_`, then
one `causticWorker` per thread, all joined. Returns the adjusted count and the
shared state after the join. -/
def shootCausticPhotons (n_caus_photons_ num_threads_photons_ : ℕ)
    (shoot : ℕ → PhotonOutcome) (canceled : ℕ → ℕ → Bool) (fuel : ℕ) :
    Option (ℕ × ShootState) :=
  let pb_step := max 1 (n_caus_photons_ / 128)
  let adjusted := adjustedPhotonCount n_caus_photons_ num_threads_photons_
  match joinWorkers adjusted num_threads_photons_ pb_step shoot canceled fuel
      num_threads_photons_ with
  | none => none
  | some st => some (adjusted, st)

/-- The photon deposited in the examples. -/
def examplePhoton : Photon := ⟨⟨0, 0, -1⟩, ⟨0, 0, 0⟩, Rgb.white⟩

/-- Outcomes for the examples: the photons of even sample indices are black,
those of odd indices are traced and deposit one photon. -/
def exampleShoot (i : ℕ) : PhotonOutcome :=
  if i % 2 = 0 then PhotonOutcome.black else PhotonOutcome.traced [examplePhoton]

/-! ## The caustic map pipeline (`createCausticMap`) -/

/-- The enum of photon map processing modes. -/
inductive PhotonMapProcessing where
  | PhotonsGenerateOnly
  | PhotonsGenerateAndSave
  | PhotonsLoad
  | PhotonsReuse
deriving DecidableEq

/-- Modelled from the spec: the class `PhotonMap` (its header photon/photon.h
is not among the sources), "a growable collection of Photons plus a path
counter ... and a spatial index built from the collection"; `tree_built` says
that the index stands for the current collection. -/
structure PhotonMap where
  photons_ : List Photon
  paths_ : ℕ
  tree_built : Bool
deriving DecidableEq

/-- Modelled from the spec: `photonCount()`, called `nPhotons()` in the code. -/
def PhotonMap.nPhotons (m : PhotonMap) : ℕ := m.photons_.length

/-- Modelled from the spec: `pathCount()`, called `nPaths()` in the code. -/
def PhotonMap.nPaths (m : PhotonMap) : ℕ := m.paths_

/-- Modelled from the spec: `isBuilt()`, called `ready()` in the code. -/
def PhotonMap.ready (m : PhotonMap) : Bool := m.tree_built

/-- Modelled from the spec: `clear()` empties the collection and drops the
index; the path counter is reset by the separate `setNumPaths(0)`. -/
def PhotonMap.clear (m : PhotonMap) : PhotonMap := { m with photons_ := [], tree_built := false }

/-- Modelled from the spec: `setPathCount(n)`, called `setNumPaths` in the
code. -/
def PhotonMap.setNumPaths (m : PhotonMap) (n : ℕ) : PhotonMap := { m with paths_ := n }

/-- Modelled from the spec: `appendBatch(photons, pathsContributed)`, called
`appendVector` in the code, "merges a worker-local batch ...;
`pathsContributed` accumulates into the path counter". -/
def PhotonMap.appendVector (m : PhotonMap) (vec : List Photon) (curr : ℕ) : PhotonMap :=
  { photons_ := m.photons_ ++ vec, paths_ := m.paths_ + curr, tree_built := false }

/-- Modelled from the spec: `build()`, called `updateTree()` in the code,
"freezes the photon set into a queryable spatial index". -/
def PhotonMap.updateTree (m : PhotonMap) : PhotonMap := { m with tree_built := true }

/-- What a call of `createCausticMap` leaves behind: the returned `bool`, the
members `photon_map_processing_`, `caustic_map_` and `n_caus_photons_`, the
counter `curr` that the workers add to, and a ghost record of what was done
(the map was cleared, how many worker threads were started, the map was
saved). -/
structure CausticMapRun where
  success : Bool
  photon_map_processing_ : PhotonMapProcessing
  caustic_map_ : PhotonMap
  n_caus_photons_ : ℕ
  total_photons_shot : ℕ
  cleared : Bool
  workers_started : ℕ
  saved : Bool

/-- The part of `createCausticMap` after the load and reuse blocks (source
lines 573-640): clear the map, and when there is a caustic light shoot the
photons, merge the workers' buffers, build the tree and save on request.
`num_lights` is the number of lights with `shootsCausticP()`. The result is
`none` when a worker runs out of fuel. -/
def generateCausticMap (photon_map_processing_ : PhotonMapProcessing) (caustic_map_ : PhotonMap)
    (n_caus_photons_ num_threads_photons_ num_lights : ℕ)
    (shoot : ℕ → PhotonOutcome) (canceled : ℕ → ℕ → Bool) (fuel : ℕ) : Option CausticMapRun :=
  let map0 := (caustic_map_.clear).setNumPaths 0
  if num_lights > 0 then
    match shootCausticPhotons n_caus_photons_ num_threads_photons_ shoot canceled fuel with
    | none => none
    | some (adjusted, st) =>
      let map1 := st.append_calls.foldl (fun m call => m.appendVector call.1 call.2) map0
      let map2 := if map1.nPhotons > 0 then map1.updateTree else map1
      some { success := true
             photon_map_processing_ := photon_map_processing_
             caustic_map_ := map2
             n_caus_photons_ := adjusted
             total_photons_shot := st.total_photons_shot
             cleared := true
             workers_started := num_threads_photons_
             saved := decide (photon_map_processing_ =
               PhotonMapProcessing.PhotonsGenerateAndSave) }
  else
    some { success := true
           photon_map_processing_ := photon_map_processing_
           caustic_map_ := map0
           n_caus_photons_ := n_caus_photons_
           total_photons_shot := 0
           cleared := true
           workers_started := 0
           saved := false }

/-- The method `MonteCarloIntegrator::createCausticMap`. `load` is the outcome
of `caustic_map_->load(filename)`: the map read from the file, or `none` when
loading fails. -/
def createCausticMap (photon_map_processing_ : PhotonMapProcessing) (caustic_map_ : PhotonMap)
    (n_caus_photons_ num_threads_photons_ : ℕ) (load : Option PhotonMap) (num_lights : ℕ)
    (shoot : ℕ → PhotonOutcome) (canceled : ℕ → ℕ → Bool) (fuel : ℕ) : Option CausticMapRun :=
  -- if(photon_map_processing_ == PhotonsLoad)
  match (if photon_map_processing_ = PhotonMapProcessing.PhotonsLoad then load else none) with
  | some loaded =>
    some { success := true
           photon_map_processing_ := photon_map_processing_
           caustic_map_ := loaded
           n_caus_photons_ := n_caus_photons_
           total_photons_shot := 0
           cleared := false
           workers_started := 0
           saved := false }
  | none =>
    let mode1 := if photon_map_processing_ = PhotonMapProcessing.PhotonsLoad then
        PhotonMapProcessing.PhotonsGenerateAndSave else photon_map_processing_
    -- if(photon_map_processing_ == PhotonsReuse)
    if mode1 = PhotonMapProcessing.PhotonsReuse ∧ caustic_map_.nPhotons ≠ 0 then
      some { success := true
             photon_map_processing_ := mode1
             caustic_map_ := caustic_map_
             n_caus_photons_ := n_caus_photons_
             total_photons_shot := 0
             cleared := false
             workers_started := 0
             saved := false }
    else
      let mode2 := if mode1 = PhotonMapProcessing.PhotonsReuse then
          PhotonMapProcessing.PhotonsGenerateOnly else mode1
      generateCausticMap mode2 caustic_map_ n_caus_photons_ num_threads_photons_ num_lights
        shoot canceled fuel

/-- The load block of `photonIntegrator_t::preprocess` (photonintegr.cc, source
lines 454-492), entered in mode `PHOTONS_LOAD`: each enabled map is loaded, and
the mode becomes `PHOTONS_GENERATE_AND_SAVE` when one of them fails. The
arguments say which maps are enabled and whether their `load` succeeds. -/
def preprocessLoadMode (usePhotonCaustics usePhotonDiffuse finalGather : Bool)
    (caustic_loads diffuse_loads radiance_loads : Bool) : PhotonMapProcessing :=
  let causticMapFailedLoad := usePhotonCaustics && !caustic_loads
  let diffuseMapFailedLoad := usePhotonDiffuse && !diffuse_loads
  let fgRadianceMapFailedLoad := (usePhotonDiffuse && finalGather) && !radiance_loads
  if causticMapFailedLoad || diffuseMapFailedLoad || fgRadianceMapFailedLoad then
    PhotonMapProcessing.PhotonsGenerateAndSave
  else PhotonMapProcessing.PhotonsLoad

/-- Outcomes for the examples: the photon of sample index 0 has a NaN colour,
all others are black. -/
def nanFirstShoot (i : ℕ) : PhotonOutcome :=
  if i = 0 then PhotonOutcome.nan else PhotonOutcome.black

/-- Outcomes for the examples: every sampled light index is out of range. -/
def lightErrorShoot (_i : ℕ) : PhotonOutcome := PhotonOutcome.lightError

/-- Outcomes for the examples: every photon is traced and deposits one photon. -/
def tracedShoot (_i : ℕ) : PhotonOutcome := PhotonOutcome.traced [examplePhoton]

/-- The empty photon map. -/
def emptyPhotonMap : PhotonMap := ⟨[], 0, false⟩

/-- A built photon map with one photon from one path. -/
def onePhotonMap : PhotonMap := ⟨[examplePhoton], 1, true⟩

/-! ## The bounce loop of `causticWorker` -/

/-- What the calls at one hit of a photon path return: the hit point and the
incoming direction `wi = -ray.dir_`, the lobes `mat_bsdfs` of the surface, and
the result of `material->scatterPhoton` (`scattered`, the sampled lobes, the
new colour `sample.color_`). -/
structure PhotonHit where
  p_ : Point3
  wi : Point3
  mat_bsdfs : BsdfFlags
  scattered : Bool
  sampled_flags : BsdfFlags
  color_ : Rgb

/-- The locals of the bounce loop (`pcol`, `n_bounces`, `caustic_photon`,
`direct_photon`, `chromatic_enabled`) and the worker's buffer, with two ghost
logs: `sampled`, the lobes sampled at the scattered bounces so far, and
`deposit_log`, the value of `sampled` at the time of each deposit. -/
structure TraceState where
  pcol : Rgb
  n_bounces : ℕ
  caustic_photon : Bool
  direct_photon : Bool
  chromatic_enabled : Bool
  local_caustic_photons : List Photon
  sampled : List BsdfFlags
  deposit_log : List (List BsdfFlags)

/-- The state before the first hit: `n_bounces = 0`, `caustic_photon = false`,
`direct_photon = true`, `chromatic_enabled = true`. -/
def TraceState.start (pcol : Rgb) : TraceState :=
  ⟨pcol, 0, false, true, true, [], [], []⟩

/-- The two assignments of source lines 508-511: the new values of
`caustic_photon` and `direct_photon` after a bounce that sampled the lobes
`sampled_flags`. -/
def causticFlagUpdate (sampled_flags : BsdfFlags) (caustic_photon direct_photon : Bool) :
    Bool × Bool :=
  ((hasAny sampled_flags [Bsdf.Glossy, Bsdf.Specular, Bsdf.Dispersive] && direct_photon) ||
    (hasAny sampled_flags [Bsdf.Glossy, Bsdf.Specular, Bsdf.Filter, Bsdf.Dispersive] &&
      caustic_photon),
   hasAny sampled_flags [Bsdf.Filter] && direct_photon)

/-- The deposit of source lines 483-491: on a surface with a diffuse or glossy
lobe, a caustic photon is stored. -/
def depositStep (h : PhotonHit) (st : TraceState) : TraceState :=
  if hasAny h.mat_bsdfs [Bsdf.Diffuse, Bsdf.Glossy] && st.caustic_photon then
    { st with local_caustic_photons := st.local_caustic_photons ++ [⟨h.wi, h.p_, st.pcol⟩]
              deposit_log := st.deposit_log ++ [st.sampled] }
  else st

/-- Source lines 506-511 after a successful `scatterPhoton`: the new colour and
the new flags. -/
def scatterStep (h : PhotonHit) (st : TraceState) : TraceState :=
  { st with pcol := h.color_
            caustic_photon :=
              (causticFlagUpdate h.sampled_flags st.caustic_photon st.direct_photon).1
            direct_photon :=
              (causticFlagUpdate h.sampled_flags st.caustic_photon st.direct_photon).2
            sampled := st.sampled ++ [h.sampled_flags] }

/-- Source lines 515-527: the switch to a single wavelength at the first
dispersive bounce (`wl_rgb` is `spectrum::wl2Rgb(wavelength)`) and
`++n_bounces`. -/
def advanceStep (wl_rgb : Rgb) (h : PhotonHit) (st : TraceState) : TraceState :=
  if st.chromatic_enabled && hasAny h.sampled_flags [Bsdf.Dispersive] then
    { st with chromatic_enabled := false, pcol := st.pcol.mul wl_rgb,
              n_bounces := st.n_bounces + 1 }
  else { st with n_bounces := st.n_bounces + 1 }

/-- The loop `while(true)` of `causticWorker` (source lines 467-528) along a
path whose successive hits are `hits`; the end of the list is the miss of
`accelerator_->intersect`. -/
def tracePhoton (caus_depth_ : ℤ) (wl_rgb : Rgb) : List PhotonHit → TraceState → TraceState
  | [], st => st
  | h :: rest, st =>
    let st1 := depositStep h st
    -- if(n_bounces == caus_depth_) break; ... if(!scattered) break;
    if (st1.n_bounces : ℤ) = caus_depth_ ∨ h.scattered = false then st1
    else
      let st2 := scatterStep h st1
      -- if(!(caustic_photon || direct_photon)) break;
      if (st2.caustic_photon || st2.direct_photon) = false then st2
      else tracePhoton caus_depth_ wl_rgb rest (advanceStep wl_rgb h st2)

/-- The flags `(caustic_photon, direct_photon)` after bounces that sampled the
lobes `bs`, in order, starting from `(false, true)`. -/
def flagsAfter (bs : List BsdfFlags) : Bool × Bool :=
  bs.foldl (fun s f => causticFlagUpdate f s.1 s.2) (false, true)

/-- The characterisation of a caustic path: some bounce `j` sampled a glossy,
specular or dispersive lobe, every bounce before it a filter lobe, and every
bounce after it a glossy, specular, filter or dispersive lobe. -/
def CausticPath (bs : List BsdfFlags) : Prop :=
  ∃ j : ℕ, j < bs.length ∧
    (∀ i : ℕ, i < j → hasAny (bs.getD i []) [Bsdf.Filter] = true) ∧
    hasAny (bs.getD j []) [Bsdf.Glossy, Bsdf.Specular, Bsdf.Dispersive] = true ∧
    (∀ i : ℕ, i < bs.length → j < i →
      hasAny (bs.getD i []) [Bsdf.Glossy, Bsdf.Specular, Bsdf.Filter, Bsdf.Dispersive] = true)

/-- The invariant of the bounce loop: the two flags are those that the lobes
sampled so far give, every deposit was made while the flag `caustic_photon` of
the lobes sampled until then was true, and every stored photon has its entry in
the deposit log. -/
def TraceInv (st : TraceState) : Prop :=
  st.caustic_photon = (flagsAfter st.sampled).1 ∧
  st.direct_photon = (flagsAfter st.sampled).2 ∧
  (∀ d ∈ st.deposit_log, (flagsAfter d).1 = true) ∧
  st.local_caustic_photons.length = st.deposit_log.length

/-! ## Caustic photon gathering (`estimateCausticPhotons`) -/

/-- The struct `FoundPhoton` that `gather` fills in: a photon of the map and
its squared distance to the query point. -/
structure FoundPhoton where
  photon_ : Photon
  dist_square_ : ℚ

/-- The loop of source lines 654-660: `sum += surf_col * k * photon->color()`
over the gathered photons; `eval dir` is `material->eval(..., sp, wo, dir,
BsdfFlags::All)`, `kernel` is `sample::kernel` and `g_radius_square` is the
inverse squared radius of source line 649. -/
def photonSum (eval : Point3 → Rgb) (kernel : ℚ → ℚ → ℚ) (g_radius_square : ℚ)
    (gathered : List FoundPhoton) : Rgb :=
  gathered.foldl (fun sum fp =>
    sum.add (((eval fp.photon_.dir_).scale (kernel fp.dist_square_ g_radius_square)).mul
      fp.photon_.c_)) Rgb.black

/-- The method `MonteCarloIntegrator::estimateCausticPhotons`. The call
`caustic_map->gather(sp.p_, gathered, n_caus_search, g_radius_square)` is the
parameter `gather`: given the squared radius it returns the photons found
(`n_gathered` is their number) and the squared radius it leaves in
`g_radius_square`, which it receives by reference and may shrink. -/
def estimateCausticPhotons (caustic_map : PhotonMap) (caustic_radius : ℚ)
    (gather : ℚ → List FoundPhoton × ℚ) (eval : Point3 → Rgb) (kernel : ℚ → ℚ → ℚ) : Rgb :=
  if !caustic_map.ready then Rgb.black
  else
    let g_radius_square0 := caustic_radius * caustic_radius
    let gathered := (gather g_radius_square0).1
    let g_radius_square := 1 / (gather g_radius_square0).2
    if gathered.length > 0 then
      (photonSum eval kernel g_radius_square gathered).scale (1 / (caustic_map.nPaths : ℚ))
    else Rgb.black

/-- A kernel for the examples: `3 * ir * (1 - d * ir)^2`. -/
def exampleKernel (r_photon_2 ir_gather_2 : ℚ) : ℚ :=
  3 * ir_gather_2 * ((1 - r_photon_2 * ir_gather_2) * (1 - r_photon_2 * ir_gather_2))

/-- A gather for the examples: `n` copies of the example photon at the query
point, the radius left as it was. -/
def exampleGather (n : ℕ) (g_radius_square : ℚ) : List FoundPhoton × ℚ :=
  (List.replicate n ⟨examplePhoton, 0⟩, g_radius_square)

/-- A built map for the examples with 3 photons that came from 2 paths. -/
def threePhotonMap : PhotonMap := ⟨[examplePhoton, examplePhoton, examplePhoton], 2, true⟩

/-! ## Light selection and sample streams (`estimateOneDirectLight`, `doLightEstimation`) -/

/-- Modelled from the spec: the stateful cursor `Halton` (its header
sampler/halton.h is not among the sources), "a stateful cursor variant
additionally exposes `getNext()` advancing an internal index, and
`setStart(i)` to rewind/resume": a base and the current index. -/
structure Halton where
  base_ : ℕ
  index_ : ℕ
deriving DecidableEq

/-- Modelled from the spec: `setStart(i)` rewinds the cursor to index `i`. -/
def Halton.setStart (h : Halton) (i : ℕ) : Halton := { h with index_ := i }

/-- Modelled from the spec: `getNext()` advances the index (an unsigned 32-bit
value) and returns the value of the sequence there; `lds base index` is
`Halton::lowDiscrepancySampling`, "purely a function of its two integer
inputs". -/
def Halton.getNext (lds : ℕ → ℕ → ℚ) (h : Halton) : ℚ × Halton :=
  (lds h.base_ ((h.index_ + 1) % 2 ^ 32), { h with index_ := (h.index_ + 1) % 2 ^ 32 })

/-- The `getNext` calls of a sample loop of `num_samples` iterations that
draws `s_1 = hal_2.getNext()` and `s_2 = hal_3.getNext()` first thing in every
iteration (source lines 194-195 and 314-315): the pairs drawn, and the cursors
as the loop leaves them. -/
def drawPairs (lds : ℕ → ℕ → ℚ) : ℕ → Halton → Halton → List (ℚ × ℚ) × Halton × Halton
  | 0, hal_2, hal_3 => ([], hal_2, hal_3)
  | n + 1, hal_2, hal_3 =>
    let s_1 := hal_2.getNext lds
    let s_2 := hal_3.getNext lds
    let rest := drawPairs lds n s_1.2 s_2.2
    ((s_1.1, s_2.1) :: rest.1, rest.2)

/-- The pixel sampling data and the light's sample count that
`doLightEstimation` reads: `light->nSamples()`, `aa_light_sample_multiplier_`,
`ray_division.division_`, `pixel_sampling_data.sample_` and `.offset_`, the
light's index `loffs` and the constant `loffs_delta_` (declared in a header
that is not among the sources). -/
structure LightEstimationParams where
  n_samples : ℤ
  aa_light_sample_multiplier_ : ℚ
  division_ : ℤ
  sample_ : ℕ
  offset_ : ℕ
  loffs : ℕ
  loffs_delta_ : ℕ

/-- The local `num_samples` of `doLightEstimation` (source lines 393-394), an
`int`. -/
def LightEstimationParams.numSamples (p : LightEstimationParams) : ℤ :=
  let num_samples : ℤ := ⌈(p.n_samples : ℚ) * p.aa_light_sample_multiplier_⌉
  if p.division_ > 1 then max 1 (num_samples.tdiv p.division_) else num_samples

/-- The value of `num_samples` as the `unsigned int` parameter of the two
sampling methods. -/
def LightEstimationParams.numSamplesUnsigned (p : LightEstimationParams) : ℕ :=
  (p.numSamples % 2 ^ 32).toNat

/-- The local `offs = num_samples * pixel_sampling_data.sample_ +
pixel_sampling_data.offset_ + l_offs` of `doLightEstimation`, with `l_offs =
loffs * loffs_delta_`, in unsigned 32-bit arithmetic. -/
def LightEstimationParams.offs (p : LightEstimationParams) : ℕ :=
  (p.numSamplesUnsigned * p.sample_ + p.offset_ + (p.loffs * p.loffs_delta_) % 2 ^ 32) % 2 ^ 32

/-- The start index `offs - 1` of the cursors, in unsigned 32-bit arithmetic. -/
def LightEstimationParams.start (p : LightEstimationParams) : ℕ :=
  (p.offs + 2 ^ 32 - 1) % 2 ^ 32

/-- What the area-light branch of `doLightEstimation` does: the returned
colour, the cursors `(hal_2, hal_3)` as handed to `areaLightSampleLight` and to
`areaLightSampleMaterial`, and the pairs `(s_1, s_2)` drawn by each of the two
passes. -/
structure LightEstimationRun where
  col : Rgb
  light_cursors : Halton × Halton
  material_cursors : Halton × Halton
  light_draws : List (ℚ × ℚ)
  material_draws : List (ℚ × ℚ)

/-- The method `MonteCarloIntegrator::doLightEstimation` for a light that is
not a delta light (source lines 390-403). `illum s` and `bsdf s` are what the
calls of one iteration of the light pass and of the BSDF pass return when the
pair `s = (s_1, s_2)` was drawn. The cursors are passed by reference: the BSDF
pass gets the cursors that the light pass advanced, after `setStart(offs - 1)`. -/
def doLightEstimation (lds : ℕ → ℕ → ℚ) (cfg : AreaLightSettings)
    (color_layers : Option ColorLayers) (p : LightEstimationParams)
    (illum : ℚ × ℚ → LightSampleInputs) (bsdf : ℚ × ℚ → MaterialSampleInputs) :
    LightEstimationRun :=
  let num_samples := p.numSamplesUnsigned
  let inv_num_samples : ℚ := 1 / (p.numSamples : ℚ)
  let hal_2 : Halton := ⟨2, p.start⟩
  let hal_3 : Halton := ⟨3, p.start⟩
  -- col += areaLightSampleLight(..., hal_2, hal_3, ...)
  let light_pass := drawPairs lds num_samples hal_2 hal_3
  let col1 := (areaLightSampleLight cfg color_layers num_samples inv_num_samples
    (fun i => illum (light_pass.1.getD i (0, 0)))).col_result
  -- hal_2.setStart(offs - 1); hal_3.setStart(offs - 1);
  let hal_2b := light_pass.2.1.setStart p.start
  let hal_3b := light_pass.2.2.setStart p.start
  -- col += areaLightSampleMaterial(..., hal_2, hal_3, ...)
  let material_pass :=
    if cfg.can_intersect then drawPairs lds num_samples hal_2b hal_3b else ([], hal_2b, hal_3b)
  let col2 := (areaLightSampleMaterial cfg color_layers num_samples inv_num_samples
    (fun i => bsdf (material_pass.1.getD i (0, 0)))).col_result
  ⟨(Rgb.black.add col1).add col2, (hal_2, hal_3), (hal_2b, hal_3b), light_pass.1,
    material_pass.1⟩

/-- The sequence of the examples: `index / (base^10)`, a function of base and
index. -/
def exampleLds (base index : ℕ) : ℚ := (index : ℚ) / ((base : ℚ) ^ 10)

/-- Parameters for the examples: 4 samples, light number 1 with
`loffs_delta_ = 4567`, pixel sample 2, sampling offset 10. -/
def exampleEstimationParams : LightEstimationParams :=
  { n_samples := 4, aa_light_sample_multiplier_ := 1, division_ := 1, sample_ := 2,
    offset_ := 10, loffs := 1, loffs_delta_ := 4567 }

/-! ## Final gathering (photonintegr.cc, `finalGathering`) -/

/-- The members that `finalGathering` reads for one path: `gatherDist`,
`gatherBounces`, whether the background may add caustic light (`background &&
background->hasIBL() && background->shootsCaustic()`), and the value of a
default-constructed `color_t` (its header is not among the sources). -/
structure FgConfig where
  gatherDist : ℚ
  gatherBounces : ℤ
  background_caustic : Bool
  default_color : Rgb

/-- What the calls of the "zero'th" bounce return (source lines 1147-1161):
`p_mat->sample` (`scol`, `W`), `scene->intersect` (`did_hit`, `pRay.tmax`). -/
structure FgStart where
  scol : Rgb
  W : ℚ
  did_hit : Bool
  tmax : ℚ

/-- What the calls made at one hit of a final-gather path return:
`getFlags()`, `initBSDF`, the volume transmittance (`some vcol` when there is a
handler and `transmittance` succeeds), `estimateOneDirectLight`, the colour of
the photon found by `radianceMap->findNearest` (`none` for a null pointer),
`emit`, the BSDF sample (`sb.pdf`, `scol`, `W`, `sb.sampledFlags`), the next
`scene->intersect` (`next_did_hit`, `pRay.tmax`) and the background colour. -/
structure FgHit where
  flags : BsdfFlags
  init_bsdfs : BsdfFlags
  vol_transmittance : Option Rgb
  direct_light : Rgb
  nearest : Option Rgb
  emit : Rgb
  sb_pdf : ℚ
  scol : Rgb
  W : ℚ
  sampled_flags : BsdfFlags
  next_did_hit : Bool
  next_tmax : ℚ
  background_col : Rgb

/-- The locals of one path of `finalGathering` (`throughput`, `length`, `lcol`,
`caustic`, `close`, `do_bounce`, `did_hit`) and its contribution to `pathCol`,
with the number of the hit the path stands on and, as a ghost, the amount that
the path end added to `pathCol` (`none` when it added nothing). -/
structure FgState where
  throughput : Rgb
  length : ℚ
  lcol : Rgb
  caustic : Bool
  close : Bool
  do_bounce : Bool
  did_hit : Bool
  pathCol : Rgb
  hit_index : ℕ
  end_added : Option Rgb

/-- One iteration of the bounce loop of `finalGathering` (source lines
1171-1239) at the hit `h`; after a `break` the state has `did_hit = false`. -/
def fgBounce (cfg : FgConfig) (h : FgHit) (depth : ℕ) (st : FgState) : FgState :=
  let throughput1 :=
    if hasAny h.init_bsdfs [Bsdf.Volumetric] then
      match h.vol_transmittance with
      | some vcol => st.throughput.mul vcol
      | none => st.throughput
    else st.throughput
  -- if(matBSDFs & (BSDF_DIFFUSE))
  let diffuse := hasAny h.init_bsdfs [Bsdf.Diffuse]
  let lcol1 :=
    if diffuse then
      if st.close then h.direct_light
      else if st.caustic then (match h.nearest with | some c => c | none => st.lcol)
      else st.lcol
    else st.lcol
  let lcol2 := if diffuse && (st.close || st.caustic) && hasAny h.init_bsdfs [Bsdf.Emit] then
      lcol1.add h.emit else lcol1
  let pathCol1 := if diffuse && (st.close || st.caustic) then
      st.pathCol.add (lcol2.mul throughput1) else st.pathCol
  if h.sb_pdf ≤ pdfEpsilon then
    { st with throughput := throughput1, lcol := lcol2, pathCol := pathCol1, did_hit := false }
  else
    let scol := h.scol.scale h.W
    let throughput2 := throughput1.mul scol
    if !h.next_did_hit then
      let pathCol2 := if st.caustic && cfg.background_caustic then
          pathCol1.add (throughput2.mul h.background_col) else pathCol1
      { st with throughput := throughput2, lcol := lcol2, pathCol := pathCol2, did_hit := false }
    else
      let length := st.length + h.next_tmax
      let caustic := (st.caustic || decide (depth = 0)) &&
        hasAny h.sampled_flags [Bsdf.Specular, Bsdf.Filter]
      let close := decide (length < cfg.gatherDist)
      { throughput := throughput2, length := length, lcol := lcol2, caustic := caustic,
        close := close, do_bounce := caustic || close, did_hit := true, pathCol := pathCol1,
        hit_index := st.hit_index + 1, end_added := st.end_added }

/-- The loop `for(int depth=0; depth<gatherBounces && do_bounce; ++depth)`:
the first argument counts the iterations that `depth < gatherBounces` still
allows, `hits k` are the calls at hit number `k`. -/
def fgBounceLoop (cfg : FgConfig) (hits : ℕ → FgHit) : ℕ → ℕ → FgState → FgState
  | 0, _, st => st
  | remaining + 1, depth, st =>
    if !st.do_bounce then st
    else
      let st1 := fgBounce cfg (hits depth) depth st
      if !st1.did_hit then st1 else fgBounceLoop cfg hits remaining (depth + 1) st1

/-- The path end of `finalGathering` (source lines 1242-1253) at the hit `h`
the path stands on. -/
def fgPathEnd (h : FgHit) (st : FgState) : FgState :=
  if st.did_hit && hasAny h.init_bsdfs [Bsdf.Diffuse, Bsdf.Glossy] then
    -- if(nearest) lcol = nearest->color();
    let lcol1 := match h.nearest with
      | some c => c
      | none => st.lcol
    let lcol2 := if hasAny h.init_bsdfs [Bsdf.Emit] then lcol1.add h.emit else lcol1
    { st with lcol := lcol2, pathCol := st.pathCol.add (lcol2.mul st.throughput),
              end_added := some (lcol2.mul st.throughput) }
  else st

/-- The body of the loop over the paths of `finalGathering` (source lines
1128-1254) for one path: its final state, whose `pathCol` is what the path
adds to `pathCol`. -/
def fgPath (cfg : FgConfig) (start : FgStart) (hits : ℕ → FgHit) : FgState :=
  let scol := start.scol.scale start.W
  let st0 : FgState :=
    { throughput := Rgb.white, length := 0, lcol := cfg.default_color, caustic := false,
      close := false, do_bounce := false, did_hit := false, pathCol := Rgb.black,
      hit_index := 0, end_added := none }
  -- if(scol.isBlack()) continue; ... if(!(did_hit = scene->intersect(pRay, hit))) continue;
  if scol.isBlack || !start.did_hit then st0
  else
    let length := start.tmax
    let has_spec := hasAny (hits 0).flags [Bsdf.Specular]
    let close := decide (length < cfg.gatherDist)
    let st1 : FgState :=
      { st0 with throughput := scol, length := length, close := close,
                 do_bounce := close || has_spec, did_hit := true }
    let st2 := fgBounceLoop cfg hits cfg.gatherBounces.toNat 0 st1
    fgPathEnd (hits st2.hit_index) st2

/-- The method `photonIntegrator_t::finalGathering`: the average of the
contributions of `nSampl` paths; `paths i` are the calls of path `i`. -/
def finalGathering (cfg : FgConfig) (nSampl : ℕ) (paths : ℕ → FgStart × (ℕ → FgHit)) : Rgb :=
  ((List.range nSampl).foldl
    (fun pathCol i => pathCol.add (fgPath cfg (paths i).1 (paths i).2).pathCol)
    Rgb.black).divide (nSampl : ℚ)

/-- Configuration of the examples: gather distance 1, up to 3 bounces. -/
def exampleFgConfig : FgConfig :=
  { gatherDist := 1, gatherBounces := 3, background_caustic := false,
    default_color := Rgb.black }

/-- Zero'th bounce of the examples: white sample, first hit at distance 1/2. -/
def exampleFgStart : FgStart := { scol := Rgb.white, W := 1, did_hit := true, tmax := 1 / 2 }

/-- A diffuse, non-emissive hit where no radiance photon is found, the direct
light estimate is `direct_light`, the BSDF sample has weight 1/2 and the next
hit lies 1 further. -/
def exampleFgHit (direct_light : Rgb) : FgHit :=
  { flags := [Bsdf.Diffuse], init_bsdfs := [Bsdf.Diffuse], vol_transmittance := none,
    direct_light := direct_light, nearest := none, emit := Rgb.black, sb_pdf := 1,
    scol := Rgb.white, W := 1 / 2, sampled_flags := [Bsdf.Diffuse], next_did_hit := true,
    next_tmax := 1, background_col := Rgb.black }

/-- A photon path for the examples: a specular bounce on glass, then a diffuse
surface that absorbs the photon. -/
def examplePhotonPath : List PhotonHit :=
  [⟨⟨0, 0, 1⟩, ⟨0, 0, 1⟩, [Bsdf.Specular, Bsdf.Transmit], true, [Bsdf.Specular], Rgb.white⟩,
   ⟨⟨0, 0, 0⟩, ⟨0, 0, 1⟩, [Bsdf.Diffuse], false, [], Rgb.white⟩]

/-! ## Russian roulette of the path tracer (`pathtracer.cc`) -/

/-- The Russian-roulette step at the end of one bounce of
`pathIntegrator_t::integrate`. `none` is the `break` that ends the path,
`some t` the throughput the path goes on with. `maximum` stands for
`color_t::maximum` and `random_value` for the value drawn from `prng()`. -/
def russianRoulette (maximum : Rgb → ℚ) (depth russianRouletteMinBounces : ℤ)
    (random_value : ℚ) (throughput : Rgb) : Option Rgb :=
  if depth > russianRouletteMinBounces then
    if maximum throughput ≤ 0 ∨ maximum throughput < random_value then none
    else some (throughput.scale (1 / maximum throughput))
  else some throughput

/-- The largest of the three channels, the usual reading of `maximum()`. -/
def channelMaximum (c : Rgb) : ℚ := max c.r_ (max c.g_ c.b_)

/-! ## Wavelength sub-samples of `MonteCarloIntegrator::dispersive` -/

/-- The local `ray_samples_dispersive` of `MonteCarloIntegrator::dispersive`. -/
def raySamplesDispersive (division_ initial_ray_samples_dispersive_ : ℤ) : ℤ :=
  if division_ > 1 then max 1 (Int.tdiv initial_ray_samples_dispersive_ division_)
  else initial_ray_samples_dispersive_

/-- The value of `wavelength_dispersive` in iteration `ns` of the sub-sample
loop of `MonteCarloIntegrator::dispersive` in exact arithmetic. `addMod1`
stands for `math::addMod1` and `ss_1` for the value of `sample::riS`. The
binary32 value of the source is `wavelengthDispersiveFloat`. -/
def wavelengthDispersive (addMod1 : ℚ → ℚ → ℚ) (chromatic_enabled : Bool) (division_ : ℤ)
    (decorrelation_1_ : ℚ) (initial_ray_samples_dispersive_ : ℤ) (ss_1 : ℚ) (ns : ℤ) : ℚ :=
  let d_1 : ℚ := 1 / ((raySamplesDispersive division_ initial_ray_samples_dispersive_ : ℤ) : ℚ)
  if chromatic_enabled then
    if division_ > 1 then addMod1 (((ns : ℚ) + ss_1) * d_1) decorrelation_1_
    else ((ns : ℚ) + ss_1) * d_1
  else 0

/-! ## Random number generators (`math/random.h`) -/

/-- The multiplier `y_a_` of `RandomGenerator`. -/
def y_a_ : ℕ := 1791398085

/-- The constant `y_ah_ = y_a_ >> 16`. -/
def y_ah_ : ℕ := y_a_ / 65536

/-- The constant `y_al_ = y_a_ & 65535`. -/
def y_al_ : ℕ := y_a_ % 65536

/-- The state `(x_, c_)` of a `RandomGenerator`, two `unsigned int`s. -/
structure RandomGenerator where
  x_ : ℕ
  c_ : ℕ
deriving DecidableEq, Repr

/-- The constructor `RandomGenerator(seed)`: `x_ = 30903`, `c_ = seed`. -/
def RandomGenerator.seeded (seed : ℕ) : RandomGenerator := ⟨30903, seed % 2 ^ 32⟩

/-- The value of `c_` after the assignment
`c_ = xh * y_ah_ + ((xh * y_al_) >> 16) + ((xl * y_ah_) >> 16)` of
`RandomGenerator::operator()`, in `unsigned int` arithmetic. -/
def RandomGenerator.carrySum (g : RandomGenerator) : ℕ :=
  ((g.x_ / 65536) * y_ah_ % 2 ^ 32 + (((g.x_ / 65536) * y_al_) % 2 ^ 32) / 65536
    + (((g.x_ % 65536) * y_ah_) % 2 ^ 32) / 65536) % 2 ^ 32

/-- The state after one call of `RandomGenerator::operator()`: `xh = x_ >> 16`,
`xl = x_ & 65535`, then `x_ = x_ * y_a_ + c_`, then `c_` is assigned the carry
sum and incremented when `xl * y_al_ >= ~c_ + 1`, where `c_` is already the new
value. All arithmetic is modulo `2 ^ 32`. -/
def RandomGenerator.next (g : RandomGenerator) : RandomGenerator :=
  { x_ := (g.x_ * y_a_ + g.c_) % 2 ^ 32,
    c_ := if ((g.x_ % 65536) * y_al_) % 2 ^ 32 ≥ ((2 ^ 32 - 1 - g.carrySum) + 1) % 2 ^ 32
          then (g.carrySum + 1) % 2 ^ 32 else g.carrySum }

/-- The constant `a_ = 0x000041A7` of `FastRandom`. -/
def a_ : ℤ := 16807

/-- The constant `m_ = 0x7FFFFFFF` of `FastRandom`. -/
def m_ : ℤ := 2147483647

/-- The constant `q_ = 0x0001F31D` of `FastRandom`. -/
def q_ : ℤ := 127773

/-- The constant `r_ = 0x00000B14` of `FastRandom`. -/
def r_ : ℤ := 2836

/-- Membership in the range of a signed 32-bit `int`. -/
def inInt32 (v : ℤ) : Prop := -2147483648 ≤ v ∧ v ≤ 2147483647

instance (v : ℤ) : Decidable (inInt32 v) := by unfold inInt32; infer_instance

/-- The value `a_ * (seed % q_) - r_ * (seed / q_)` both variants of
`getNextInt` assign; `/` and `%` of `int` truncate towards zero. -/
def lehmerUpdate (seed : ℤ) : ℤ := a_ * Int.tmod seed q_ - r_ * Int.tdiv seed q_

/-- All values computed on the way by `FastRandom::getNextInt()` from the
global seed `myseed_`: remainder, quotient, the two products, their
difference, and the sum `myseed_ + m_` when it is taken. -/
def getNextIntIntermediates (myseed_ : ℤ) : List ℤ :=
  [Int.tmod myseed_ q_, Int.tdiv myseed_ q_, a_ * Int.tmod myseed_ q_,
    r_ * Int.tdiv myseed_ q_, lehmerUpdate myseed_] ++
  (if lehmerUpdate myseed_ < 0 then [lehmerUpdate myseed_ + m_] else [])

/-- The function `FastRandom::getNextInt()`: the new value of the global
`myseed_`, which is also the value returned. -/
def getNextInt (myseed_ : ℤ) : ℤ :=
  if lehmerUpdate myseed_ < 0 then lehmerUpdate myseed_ + m_ else lehmerUpdate myseed_

/-- The function `FastRandom::getNextFloatNormalized()`. -/
def getNextFloatNormalized (myseed_ : ℤ) : ℚ := (getNextInt myseed_ : ℚ) / (m_ : ℚ)

/-- The result of `FastRandom::getNextInt(int &seed)`: the caller's seed after
the call (also the value returned) and the global `myseed_` after the call. -/
structure SeededStep where
  seed : ℤ
  myseed_ : ℤ
deriving DecidableEq, Repr

/-- The function `FastRandom::getNextInt(int &seed)`: `seed` is assigned the
update, then the test `myseed_ < 0` adds `m_` to the global `myseed_`. -/
def getNextIntSeeded (seed myseed_ : ℤ) : SeededStep :=
  { seed := lehmerUpdate seed,
    myseed_ := if myseed_ < 0 then myseed_ + m_ else myseed_ }

/-- The function `FastRandom::getNextFloatNormalized(int &seed)`. -/
def getNextFloatNormalizedSeeded (seed myseed_ : ℤ) : ℚ :=
  ((getNextIntSeeded seed myseed_).seed : ℚ) / (m_ : ℚ)

/-! ## Image layers (`image_layers.cc`) -/

/-- The dimensions of an `Image`. -/
structure Image where
  width : ℤ
  height : ℤ
deriving DecidableEq, Repr

/-- An `ImageLayer`: its `image_` pointer, `none` when null. -/
structure ImageLayer where
  image_ : Option Image
deriving DecidableEq, Repr

/-- The function `ImageLayer::getWidth`. -/
def ImageLayer.getWidth (l : ImageLayer) : ℤ :=
  match l.image_ with
  | none => 0
  | some i => i.width

/-- The function `ImageLayer::getHeight`. -/
def ImageLayer.getHeight (l : ImageLayer) : ℤ :=
  match l.image_ with
  | none => 0
  | some i => i.height

/-- The function `ImageLayers::getWidth` over the entries of `items_`. -/
def ImageLayers.getWidth (items_ : List ImageLayer) : ℤ :=
  items_.foldl (fun width image_layer =>
    if width < image_layer.getWidth then image_layer.getWidth else width) 0

/-- The function `ImageLayers::getHeight` over the entries of `items_`; the
local it compares with is the value of `image_layer.second.getWidth()`. -/
def ImageLayers.getHeight (items_ : List ImageLayer) : ℤ :=
  items_.foldl (fun height image_layer =>
    if height < image_layer.getWidth then image_layer.getWidth else height) 0

/-! ## Density lookup of the grid volume (`volume_grid.cc`) -/

/-- The method `Bound::longX`. -/
def Bound.longX (b : Bound) : ℚ := b.g_.x - b.a_.x

/-- The method `Bound::longY`. -/
def Bound.longY (b : Bound) : ℚ := b.g_.y - b.a_.y

/-- The method `Bound::longZ`. -/
def Bound.longZ (b : Bound) : ℚ := b.g_.z - b.a_.z

/-- The members of `GridVolumeRegion` that `density` reads: the bounding box,
the three grid sizes and the grid, `grid_ i j k` being `grid_[i][j][k]`. -/
structure GridVolumeRegion where
  b_box_ : Bound
  size_x_ : ℤ
  size_y_ : ℤ
  size_z_ : ℤ
  grid_ : ℤ → ℤ → ℤ → ℚ

/-- The locals `x`, `y`, `z`, the six indices and `xd`, `yd`, `zd` of
`GridVolumeRegion::density`. -/
structure DensityLocals where
  x : ℚ
  y : ℚ
  z : ℚ
  x_0 : ℤ
  y_0 : ℤ
  z_0 : ℤ
  x_1 : ℤ
  y_1 : ℤ
  z_1 : ℤ
  xd : ℚ
  yd : ℚ
  zd : ℚ

/-- The first half of `GridVolumeRegion::density`: the grid coordinates of the
point, the clamped indices `max(0, floor(x))` and `min(size - 1, ceil(x))`, and
the offsets `x - x_0`. -/
def GridVolumeRegion.locals (v : GridVolumeRegion) (p : Point3) : DensityLocals :=
  let x : ℚ := (p.x - v.b_box_.a_.x) / v.b_box_.longX * (v.size_x_ : ℚ) - 1 / 2
  let y : ℚ := (p.y - v.b_box_.a_.y) / v.b_box_.longY * (v.size_y_ : ℚ) - 1 / 2
  let z : ℚ := (p.z - v.b_box_.a_.z) / v.b_box_.longZ * (v.size_z_ : ℚ) - 1 / 2
  let x_0 : ℤ := max 0 ⌊x⌋
  let y_0 : ℤ := max 0 ⌊y⌋
  let z_0 : ℤ := max 0 ⌊z⌋
  let x_1 : ℤ := min (v.size_x_ - 1) ⌈x⌉
  let y_1 : ℤ := min (v.size_y_ - 1) ⌈y⌉
  let z_1 : ℤ := min (v.size_z_ - 1) ⌈z⌉
  { x := x, y := y, z := z, x_0 := x_0, y_0 := y_0, z_0 := z_0,
    x_1 := x_1, y_1 := y_1, z_1 := z_1,
    xd := x - (x_0 : ℚ), yd := y - (y_0 : ℚ), zd := z - (z_0 : ℚ) }

/-- The second half of `GridVolumeRegion::density`: the seven interpolations
`i_1`, `i_2`, `j_1`, `j_2`, `w_1`, `w_2` and `dens` over the grid `g`. -/
def interpolateDensity (g : ℤ → ℤ → ℤ → ℚ) (l : DensityLocals) : ℚ :=
  let i_1 := g l.x_0 l.y_0 l.z_0 * (1 - l.zd) + g l.x_0 l.y_0 l.z_1 * l.zd
  let i_2 := g l.x_0 l.y_1 l.z_0 * (1 - l.zd) + g l.x_0 l.y_1 l.z_1 * l.zd
  let j_1 := g l.x_1 l.y_0 l.z_0 * (1 - l.zd) + g l.x_1 l.y_0 l.z_1 * l.zd
  let j_2 := g l.x_1 l.y_1 l.z_0 * (1 - l.zd) + g l.x_1 l.y_1 l.z_1 * l.zd
  let w_1 := i_1 * (1 - l.yd) + i_2 * l.yd
  let w_2 := j_1 * (1 - l.yd) + j_2 * l.yd
  w_1 * (1 - l.xd) + w_2 * l.xd

/-- The function `GridVolumeRegion::density`. -/
def GridVolumeRegion.density (v : GridVolumeRegion) (p : Point3) : ℚ :=
  interpolateDensity v.grid_ (v.locals p)

/-- The eight grid values `density` reads, in the order of the source. -/
def GridVolumeRegion.valuesRead (v : GridVolumeRegion) (p : Point3) : List ℚ :=
  [v.grid_ (v.locals p).x_0 (v.locals p).y_0 (v.locals p).z_0,
   v.grid_ (v.locals p).x_0 (v.locals p).y_0 (v.locals p).z_1,
   v.grid_ (v.locals p).x_0 (v.locals p).y_1 (v.locals p).z_0,
   v.grid_ (v.locals p).x_0 (v.locals p).y_1 (v.locals p).z_1,
   v.grid_ (v.locals p).x_1 (v.locals p).y_0 (v.locals p).z_0,
   v.grid_ (v.locals p).x_1 (v.locals p).y_0 (v.locals p).z_1,
   v.grid_ (v.locals p).x_1 (v.locals p).y_1 (v.locals p).z_0,
   v.grid_ (v.locals p).x_1 (v.locals p).y_1 (v.locals p).z_1]

/-- A grid of two cells per axis over the unit cube, with value `i + j + k` in
cell `(i, j, k)`. -/
def exampleGrid : GridVolumeRegion :=
  { b_box_ := ⟨⟨0, 0, 0⟩, ⟨1, 1, 1⟩⟩, size_x_ := 2, size_y_ := 2, size_z_ := 2,
    grid_ := fun i j k => ((i + j + k : ℤ) : ℚ) }

/-! ## Reading an HDR scanline with the old run-length encoding (`hdrHandler.cc`) -/

/-- The fields of the HDR header the scanline readers use: `min`, `max` and
`step` are the two-element arrays of the source, indexed with 0 and 1. -/
structure HdrHeader where
  min : ℕ → ℤ
  max : ℕ → ℤ
  step : ℕ → ℤ
  yFirst : Bool

/-- The end of `hdrHandler_t::readHeader` (source lines 278-302): the reading
order is stored in entry `f` for the rows and entry `s` for the columns, with
`f = 0, s = 1` when the Y size comes first and `f = 1, s = 0` otherwise. -/
def readHeaderOrder (yFirst fromLeft fromTop : Bool) (m_width m_height : ℤ) : HdrHeader :=
  let f : ℕ := if yFirst then 0 else 1
  let s : ℕ := if yFirst then 1 else 0
  { min := fun i =>
      if i = f then (if fromTop then 0 else m_height - 1)
      else if i = s then (if fromLeft then 0 else m_width - 1) else 0,
    max := fun i =>
      if i = f then (if fromTop then m_height else -1)
      else if i = s then (if fromLeft then m_width else -1) else 0,
    step := fun i =>
      if i = f then (if fromTop then 1 else -1)
      else if i = s then (if fromLeft then 1 else -1) else 0,
    yFirst := yFirst }

/-- The outcome of a reading loop: finished with a value, left with
`return false`, or still running when the fuel of the model ran out. -/
inductive ReadOutcome (α : Type) where
  | done (a : α)
  | failed
  | outOfFuel
deriving DecidableEq, Repr

/-- Continue a reading loop with the value of its remainder. -/
def ReadOutcome.map {α β : Type} (f : α → β) : ReadOutcome α → ReadOutcome β
  | ReadOutcome.done a => ReadOutcome.done (f a)
  | ReadOutcome.failed => ReadOutcome.failed
  | ReadOutcome.outOfFuel => ReadOutcome.outOfFuel

/-- The statement `while(count--) scanline[x++] = pixel;` for `count >= 0`. -/
def fillRun {Pixel : Type} (scanline : ℤ → Pixel) (x : ℤ) (count : ℕ) (pixel : Pixel) :
    ℤ → Pixel :=
  fun i => if x ≤ i ∧ i < x + (count : ℤ) then pixel else scanline i

/-- The first loop of `hdrHandler_t::readORLE`: one pixel is read from the file
per iteration until `x` reaches `scanWidth`. `isORLEDesc` and `getORLECount`
stand for the methods of `rgbePixel_t`. The result is the scanline buffer; a
failed `fread` and a run longer than the rest of the line end in `failed`, and
so does the model for a negative run count, with which the copy loop of the
source would not stop inside the buffer. -/
def orleFill {Pixel : Type} (isORLEDesc : Pixel → Bool) (getORLECount : Pixel → ℤ → ℤ)
    (scanWidth : ℤ) : List Pixel → (ℤ → Pixel) → ℤ → ℤ → ReadOutcome (ℤ → Pixel)
  | file, scanline, x, rshift =>
    if x < scanWidth then
      match file with
      | [] => ReadOutcome.failed
      | pixel :: rest =>
        if isORLEDesc pixel then
          if getORLECount pixel rshift > scanWidth - x ∨ getORLECount pixel rshift < 0 then
            ReadOutcome.failed
          else
            orleFill isORLEDesc getORLECount scanWidth rest
              (fillRun scanline x (getORLECount pixel rshift).toNat (scanline (x - 1)))
              (x + getORLECount pixel rshift) (rshift + 8)
        else
          orleFill isORLEDesc getORLECount scanWidth rest
            (fun i => if i = x then pixel else scanline i) (x + 1) 0
    else ReadOutcome.done scanline

/-- The image buffer: `img a b` is the colour stored by `image(a, b) = ...`,
`none` where nothing was stored. -/
abbrev ImageBuffer (Color : Type) := ℤ → ℤ → Option Color

/-- The second loop of `hdrHandler_t::readORLE`,
`for(int x = header.min[1]; x != header.max[1]; x += header.max[1])`, storing
`scanline[j].getRGBA()` at `(x, y)` or `(y, x)`. -/
def orleStore {Pixel Color : Type} (getRGBA : Pixel → Color) (header : HdrHeader) (y : ℤ)
    (scanline : ℤ → Pixel) : ℕ → ℤ → ℤ → ImageBuffer Color → ReadOutcome (ImageBuffer Color)
  | 0, _, _, _ => ReadOutcome.outOfFuel
  | n + 1, x, j, img =>
    if x ≠ header.max 1 then
      orleStore getRGBA header y scanline n (x + header.max 1) (j + 1)
        (if header.yFirst then
          fun a b => if a = x ∧ b = y then some (getRGBA (scanline j)) else img a b
        else
          fun a b => if a = y ∧ b = x then some (getRGBA (scanline j)) else img a b)
    else ReadOutcome.done img

/-- The function `hdrHandler_t::readORLE(fp, y, scanWidth)`: the fill loop from
`x = header.min[1]`, then the store loop. `init` is the content of the freshly
allocated scanline buffer, `img` the image before the call. -/
def readORLE {Pixel Color : Type} (isORLEDesc : Pixel → Bool) (getORLECount : Pixel → ℤ → ℤ)
    (getRGBA : Pixel → Color) (header : HdrHeader) (fuel : ℕ) (file : List Pixel)
    (y scanWidth : ℤ) (init : ℤ → Pixel) (img : ImageBuffer Color) :
    ReadOutcome (ImageBuffer Color) :=
  match orleFill isORLEDesc getORLECount scanWidth file init (header.min 1) 0 with
  | ReadOutcome.done scanline => orleStore getRGBA header y scanline fuel (header.min 1) 0 img
  | ReadOutcome.failed => ReadOutcome.failed
  | ReadOutcome.outOfFuel => ReadOutcome.outOfFuel

/-! ## Adaptive run-length encoding of HDR scanlines (`hdrHandler.cc`) -/

/-- The locals of the run search of `hdrHandler_t::writeScanline`, with a ghost
log of the indices `i` of its accesses `scanline[i]`, oldest first. -/
structure RunSearch where
  beg_run : ℕ
  run_count : ℕ
  old_run_count : ℕ
  accesses : List ℕ
deriving DecidableEq, Repr

/-- The innermost loop of `writeScanline` for one channel `s` of the scanline,
`while ((s[beg_run] == s[beg_run + run_count]) && (beg_run + run_count < m_width)
&& (run_count < 127)) run_count++;`. Every test of the condition reads
`s[beg_run]` and `s[beg_run + run_count]` before the two bounds are looked at. -/
def runCountLoop (s : ℕ → ℕ) (m_width : ℕ) : ℕ → RunSearch → Option RunSearch
  | 0, _ => none
  | n + 1, st =>
    if s st.beg_run = s (st.beg_run + st.run_count) ∧ st.beg_run + st.run_count < m_width
        ∧ st.run_count < 127 then
      runCountLoop s m_width n
        ⟨st.beg_run, st.run_count + 1, st.old_run_count,
          st.accesses ++ [st.beg_run, st.beg_run + st.run_count]⟩
    else
      some ⟨st.beg_run, st.run_count, st.old_run_count,
        st.accesses ++ [st.beg_run, st.beg_run + st.run_count]⟩

/-- The run search of `writeScanline`,
`while ((run_count < 4) && (beg_run < m_width))`, whose body moves `beg_run`
past the last run and counts the run that starts there. -/
def runSearchLoop (s : ℕ → ℕ) (m_width fuel : ℕ) : ℕ → RunSearch → Option RunSearch
  | 0, _ => none
  | n + 1, st =>
    if st.run_count < 4 ∧ st.beg_run < m_width then
      (runCountLoop s m_width fuel
        ⟨st.beg_run + st.run_count, 1, st.run_count, st.accesses⟩).bind
        (runSearchLoop s m_width fuel n)
    else some st

/-- The test `(old_run_count > 1) && (old_run_count == beg_run - cur)` of the
short run. -/
def isShortRun (r : RunSearch) (cur : ℕ) : Bool :=
  decide (r.old_run_count > 1 ∧ (r.old_run_count : ℤ) = (r.beg_run : ℤ) - (cur : ℤ))

/-- The bytes written for a short run: `runDesc = 128 + old_run_count` in a
byte, then `s[cur]`. -/
def shortRunBytes (s : ℕ → ℕ) (r : RunSearch) (cur : ℕ) : List ℕ :=
  if isShortRun r cur then [(128 + r.old_run_count) % 256, s cur] else []

/-- The value of `cur` after the short run step. -/
def shortRunCur (r : RunSearch) (cur : ℕ) : ℕ :=
  if isShortRun r cur then r.beg_run else cur

/-- The loop `while(cur < beg_run)` of `writeScanline` that writes the bytes
before the run in chunks of at most 128: the final `cur` and the bytes
written, the count byte followed by the `nonrun_count` values. -/
def nonRunLoop (s : ℕ → ℕ) (beg_run : ℕ) : ℕ → ℕ → Option (ℕ × List ℕ)
  | 0, _ => none
  | n + 1, cur =>
    if cur < beg_run then
      (nonRunLoop s beg_run n
        (cur + (if beg_run - cur > 128 then 128 else beg_run - cur))).map
        (fun r => (r.1,
          ((if beg_run - cur > 128 then 128 else beg_run - cur) % 256 ::
            (List.range (if beg_run - cur > 128 then 128 else beg_run - cur)).map
              (fun i => s (cur + i))) ++ r.2))
    else some (cur, [])

/-- The bytes written for a run of at least four: `runDesc = 128 + run_count`
in a byte, then `s[beg_run]`. -/
def longRunBytes (s : ℕ → ℕ) (r : RunSearch) : List ℕ :=
  if r.run_count ≥ 4 then [(128 + r.run_count) % 256, s r.beg_run] else []

/-- The value of `cur` after the step `if (run_count >= 4)`. -/
def longRunCur (r : RunSearch) (cur : ℕ) : ℕ :=
  if r.run_count ≥ 4 then cur + r.run_count else cur

/-- What `writeScanline` has done when it returns: its return value, the bytes
written to the file, and the ghost log of the accesses of its run searches. -/
structure WriteResult where
  ok : Bool
  bytes : List ℕ
  accesses : List ℕ
deriving DecidableEq, Repr

/-- The loop `while(cur < m_width)` of `writeScanline` for one channel `s`: run
search, short run, bytes before the run, long run, and `return false` when
`cur` has passed `m_width`. -/
def channelLoop (s : ℕ → ℕ) (m_width fuel : ℕ) : ℕ → ℕ → Option WriteResult
  | 0, _ => none
  | n + 1, cur =>
    if cur < m_width then
      (runSearchLoop s m_width fuel fuel ⟨cur, 0, 0, []⟩).bind fun r =>
      (nonRunLoop s r.beg_run fuel (shortRunCur r cur)).bind fun nr =>
      if longRunCur r nr.1 > m_width then
        some ⟨false, shortRunBytes s r cur ++ nr.2 ++ longRunBytes s r, r.accesses⟩
      else
        (channelLoop s m_width fuel n (longRunCur r nr.1)).map fun w =>
          ⟨w.ok, shortRunBytes s r cur ++ nr.2 ++ longRunBytes s r ++ w.bytes,
            r.accesses ++ w.accesses⟩
    else some ⟨true, [], []⟩

/-- The loop `for (int chan = 0; chan < 4; chan++)` of `writeScanline` over the
channels still to write; `scanline i chan` is `scanline[i][chan]`. -/
def writeChannels (scanline : ℕ → ℕ → ℕ) (m_width fuel : ℕ) : List ℕ → Option WriteResult
  | [] => some ⟨true, [], []⟩
  | chan :: chans =>
    (channelLoop (fun i => scanline i chan) m_width fuel fuel 0).bind fun w =>
    if w.ok then
      (writeChannels scanline m_width fuel chans).map fun w2 =>
        ⟨w2.ok, w.bytes ++ w2.bytes, w.accesses ++ w2.accesses⟩
    else some w

/-- The function `hdrHandler_t::writeScanline`. The scanline is a function of
all indices: the values at indices from `m_width` on are whatever lies behind
the buffer. `none` means that the fuel of the model ran out. -/
def writeScanline (scanline : ℕ → ℕ → ℕ) (m_width fuel : ℕ) : Option WriteResult :=
  writeChannels scanline m_width fuel [0, 1, 2, 3]

/-- The loop `while(j < scanWidth)` of `hdrHandler_t::readARLE` for one
channel: the values stored at `scanline[j][chan]`, `scanline[j+1][chan]`, ...
in this order, and the rest of the file. A count byte above 128 is a run of
`count & 0x7F` copies of the next byte, any other count byte is followed by
`count` raw values. -/
def readARLELoop (scanWidth : ℕ) : ℕ → ℕ → List ℕ → ReadOutcome (List ℕ × List ℕ)
  | 0, _, _ => ReadOutcome.outOfFuel
  | n + 1, j, file =>
    if j < scanWidth then
      match file with
      | [] => ReadOutcome.failed
      | count :: rest =>
        if count > 128 then
          if count % 128 + j > scanWidth then ReadOutcome.failed
          else
            match rest with
            | [] => ReadOutcome.failed
            | col :: rest2 =>
              (readARLELoop scanWidth n (j + count % 128) rest2).map
                (fun r => (List.replicate (count % 128) col ++ r.1, r.2))
        else
          if count + j > scanWidth then ReadOutcome.failed
          else if rest.length < count then ReadOutcome.failed
          else
            (readARLELoop scanWidth n (j + count) (rest.drop count)).map
              (fun r => (rest.take count ++ r.1, r.2))
    else ReadOutcome.done ([], file)

/-- The loop `for(int chan = 0; chan < 4; chan++)` of `readARLE` over the
number of channels still to read: the channels' value sequences and the rest
of the file. -/
def readARLEChannels (scanWidth fuel : ℕ) : ℕ → List ℕ → ReadOutcome (List (List ℕ) × List ℕ)
  | 0, file => ReadOutcome.done ([], file)
  | c + 1, file =>
    match readARLELoop scanWidth fuel 0 file with
    | ReadOutcome.done r =>
      (readARLEChannels scanWidth fuel c r.2).map (fun q => (r.1 :: q.1, q.2))
    | ReadOutcome.failed => ReadOutcome.failed
    | ReadOutcome.outOfFuel => ReadOutcome.outOfFuel

/-- The values `s[j], ..., s[j' - 1]` of a channel. -/
def channelSegment (s : ℕ → ℕ) (j j' : ℕ) : List ℕ :=
  (List.range (j' - j)).map (fun i => s (j + i))

/-- The bytes `out` written for the positions from `j` up to `j'` of channel
`s` are read back by `readARLELoop`: whenever the reader finishes from
position `j'` on the rest of a file, it finishes from position `j` on `out`
followed by that rest, with the values of the segment in front. -/
def Decodes (s : ℕ → ℕ) (scanWidth j : ℕ) (out : List ℕ) (j' : ℕ) : Prop :=
  ∀ (n : ℕ) (rest vals file' : List ℕ),
    readARLELoop scanWidth n j' rest = ReadOutcome.done (vals, file') →
    readARLELoop scanWidth (n + (j' - j)) j (out ++ rest)
      = ReadOutcome.done (channelSegment s j j' ++ vals, file')

/-- The invariant of the run search started at `cur`: the current run and the
run before it consist of equal values inside the scanline. -/
def SearchInv (s : ℕ → ℕ) (m_width cur : ℕ) (st : RunSearch) : Prop :=
  cur + st.old_run_count ≤ st.beg_run ∧ st.beg_run ≤ m_width ∧ st.run_count ≤ 127 ∧
  st.old_run_count ≤ 127 ∧
  (2 ≤ st.run_count → st.beg_run + st.run_count ≤ m_width) ∧
  (∀ i, i < st.run_count → s (st.beg_run + i) = s st.beg_run) ∧
  (∀ i, i < st.old_run_count →
    s (st.beg_run - st.old_run_count + i) = s (st.beg_run - st.old_run_count)) ∧
  (st.run_count = 0 → st.beg_run = cur)

/-! ## Binary32 rounding -/

/-- Rounding of a rational to the nearest integer, ties to the even one. -/
def roundNearestEven (q : ℚ) : ℤ :=
  if q - (⌊q⌋ : ℚ) < 1 / 2 then ⌊q⌋
  else if 1 / 2 < q - (⌊q⌋ : ℚ) then ⌊q⌋ + 1
  else if ⌊q⌋ % 2 = 0 then ⌊q⌋ else ⌊q⌋ + 1

/-- The binary exponent of the binary32 number nearest to `q`: the exponent of
`q`, and `-126` for the subnormal range and zero. -/
def binary32Exponent (q : ℚ) : ℤ := max (Int.log 2 |q|) (-126)

/-- The value of a C++ `float` operation whose exact result is `q`: `q` rounded
to 24 significant bits, nearest with ties to even (the default rounding of
IEEE 754 binary32). Results beyond the largest finite `float` are outside what
this function models; none occurs in the statements below. -/
def toFloat32 (q : ℚ) : ℚ :=
  (roundNearestEven (q / 2 ^ (binary32Exponent q - 23)) : ℚ) * 2 ^ (binary32Exponent q - 23)

/-- The method `Bound::cross` with the result of every arithmetic operation
passed through `rnd`, in the single-assignment form of `Bound.cross`. With
`rnd = toFloat32` this is the binary32 computation of the source (`p` is
`ray.from_ - a_0`, the constants `-1e38f` and `1e38f` are the rounded
literals); with `rnd = id` it is `Bound.cross`. -/
def Bound.crossRounded (rnd : ℚ → ℚ) (b : Bound) (ray : Ray) (t_max : ℚ) : Cross :=
  let a_0 := b.a_
  let a_1 := b.g_
  let p : Point3 :=
    ⟨rnd (ray.from_.x - a_0.x), rnd (ray.from_.y - a_0.y), rnd (ray.from_.z - a_0.z)⟩
  let lmin0 : ℚ := -rnd infinityCheck
  let lmax0 : ℚ := rnd infinityCheck
  -- x
  let invrx := rnd (1 / ray.dir_.x)
  let lmin1 := if ray.dir_.x ≠ 0 then
      (if invrx > 0 then rnd (-p.x * invrx)
        else rnd (rnd (rnd (a_1.x - a_0.x) - p.x) * invrx)) else lmin0
  let lmax1 := if ray.dir_.x ≠ 0 then
      (if invrx > 0 then rnd (rnd (rnd (a_1.x - a_0.x) - p.x) * invrx)
        else rnd (-p.x * invrx)) else lmax0
  if ray.dir_.x ≠ 0 ∧ (lmax1 < 0 ∨ lmin1 > t_max) then Cross.none else
  -- y
  let invry := rnd (1 / ray.dir_.y)
  let ltminy := if invry > 0 then rnd (-p.y * invry)
    else rnd (rnd (rnd (a_1.y - a_0.y) - p.y) * invry)
  let ltmaxy := if invry > 0 then rnd (rnd (rnd (a_1.y - a_0.y) - p.y) * invry)
    else rnd (-p.y * invry)
  let lmin2 := if ray.dir_.y ≠ 0 then max ltminy lmin1 else lmin1
  let lmax2 := if ray.dir_.y ≠ 0 then min ltmaxy lmax1 else lmax1
  if ray.dir_.y ≠ 0 ∧ (lmax2 < 0 ∨ lmin2 > t_max) then Cross.none else
  -- z
  let invrz := rnd (1 / ray.dir_.z)
  let ltminz := if invrz > 0 then rnd (-p.z * invrz)
    else rnd (rnd (rnd (a_1.z - a_0.z) - p.z) * invrz)
  let ltmaxz := if invrz > 0 then rnd (rnd (rnd (a_1.z - a_0.z) - p.z) * invrz)
    else rnd (-p.z * invrz)
  let lmin3 := if ray.dir_.z ≠ 0 then max ltminz lmin2 else lmin2
  let lmax3 := if ray.dir_.z ≠ 0 then min ltmaxz lmax2 else lmax2
  if ray.dir_.z ≠ 0 ∧ (lmax3 < 0 ∨ lmin3 > t_max) then Cross.none else
  if lmin3 ≤ lmax3 ∧ lmax3 ≥ 0 ∧ lmin3 ≤ t_max then ⟨true, lmin3, lmax3⟩ else Cross.none

/-- A box whose low corner lies `2^-30` above the plane `y = 0`; all its
coordinates are binary32 numbers. -/
def thinGapBox : Bound := ⟨⟨0, 1 / 1073741824, 0⟩, ⟨1, 1, 1⟩⟩

/-- A ray from `(0, -1, 0.5)` in direction `(1, 1, 1/1024)`: it reaches the
plane `y = 0` at `x = 1` and passes the box `thinGapBox` at a distance of
`2^-30`; all its coordinates are binary32 numbers. -/
def grazingRay : Ray := ⟨⟨0, -1, 1 / 2⟩, ⟨1, 1, 1 / 1024⟩⟩

/-- The light-selection sample
`s_l = static_cast<float>(haltoncurr) / static_cast<float>(n_caus_photons_)` of
`MonteCarloIntegrator::causticWorker` in binary32: both conversions and the
division round. -/
def lightSelectionSampleFloat (haltoncurr n_caus_photons_ : ℕ) : ℚ :=
  toFloat32 (toFloat32 (haltoncurr : ℚ) / toFloat32 (n_caus_photons_ : ℚ))

/-- The light-selection sample of `photonIntegrator_t::causticWorker` in
binary32: `invCaustPhotons = 1.f / (float)nCausPhotons` and
`sL = float(haltoncurr) * invCaustPhotons`. -/
def lightSelectionSampleInv (haltoncurr nCausPhotons : ℕ) : ℚ :=
  toFloat32 (toFloat32 (haltoncurr : ℚ) * toFloat32 (1 / toFloat32 (nCausPhotons : ℚ)))

/-- The value of `wavelength_dispersive` in iteration `ns` of the sub-sample
loop of `MonteCarloIntegrator::dispersive` in binary32:
`d_1 = 1.f / static_cast<float>(ray_samples_dispersive)`, and in
`(ns + ss_1) * d_1` the conversion of `ns`, the sum and the product round. -/
def wavelengthDispersiveFloat (addMod1 : ℚ → ℚ → ℚ) (chromatic_enabled : Bool) (division_ : ℤ)
    (decorrelation_1_ : ℚ) (initial_ray_samples_dispersive_ : ℤ) (ss_1 : ℚ) (ns : ℤ) : ℚ :=
  let d_1 : ℚ := toFloat32
    (1 / toFloat32 ((raySamplesDispersive division_ initial_ray_samples_dispersive_ : ℤ) : ℚ))
  if chromatic_enabled then
    if division_ > 1 then
      addMod1 (toFloat32 (toFloat32 (toFloat32 (ns : ℚ) + ss_1) * d_1)) decorrelation_1_
    else toFloat32 (toFloat32 (toFloat32 (ns : ℚ) + ss_1) * d_1)
  else 0

/-! # Theorems -/

/-! ### Binary32 rounding -/

/-- A rational within less than one half of an integer rounds to it. -/
theorem roundNearestEven_add_small (z : ℤ) (d : ℚ) (h1 : -(1 / 2) < d) (h2 : d < 1 / 2) :
    roundNearestEven ((z : ℚ) + d) = z := by
  unfold roundNearestEven
  by_cases hd : 0 ≤ d
  · have hf : ⌊(z : ℚ) + d⌋ = z := by
      rw [Int.floor_eq_iff]; constructor <;> linarith
    rw [hf, if_pos (by linarith)]
  · have hf : ⌊(z : ℚ) + d⌋ = z - 1 := by
      rw [Int.floor_eq_iff]; push_cast; constructor <;> linarith
    rw [hf, if_neg (by push_cast; linarith), if_pos (by push_cast; linarith)]
    ring

/-- An integer rounds to itself. -/
theorem roundNearestEven_intCast (z : ℤ) : roundNearestEven (z : ℚ) = z := by
  have := roundNearestEven_add_small z 0 (by norm_num) (by norm_num)
  rwa [add_zero] at this

/-- A tie rounds to the even neighbour. -/
theorem roundNearestEven_add_half (z : ℤ) :
    roundNearestEven ((z : ℚ) + 1 / 2) = if z % 2 = 0 then z else z + 1 := by
  unfold roundNearestEven
  have hf : ⌊(z : ℚ) + 1 / 2⌋ = z := by
    rw [Int.floor_eq_iff]; constructor <;> linarith
  rw [hf, if_neg (by linarith), if_neg (by linarith)]

/-- The exponent of a rational between two consecutive powers of two. -/
theorem binary32Exponent_eq (q : ℚ) (e : ℤ) (he : -126 ≤ e) (h1 : (2 : ℚ) ^ e ≤ |q|)
    (h2 : |q| < (2 : ℚ) ^ (e + 1)) : binary32Exponent q = e := by
  have hpos : 0 < |q| := lt_of_lt_of_le (zpow_pos (by norm_num) e) h1
  have hl1 : e ≤ Int.log 2 |q| := by
    have := (Int.zpow_le_iff_le_log (b := 2) (by norm_num) hpos (x := e)).mp
      (by exact_mod_cast h1)
    exact this
  have hl2 : Int.log 2 |q| < e + 1 := by
    have := (Int.lt_zpow_iff_log_lt (b := 2) (by norm_num) hpos (x := e + 1)).mp
      (by exact_mod_cast h2)
    exact this
  unfold binary32Exponent
  rw [max_eq_left (by omega)]
  omega

/-- The binary32 rounding of a rational between two consecutive powers of two. -/
theorem toFloat32_eq (q : ℚ) (e : ℤ) (he : -126 ≤ e) (h1 : (2 : ℚ) ^ e ≤ |q|)
    (h2 : |q| < (2 : ℚ) ^ (e + 1)) :
    toFloat32 q = (roundNearestEven (q / 2 ^ (e - 23)) : ℚ) * 2 ^ (e - 23) := by
  unfold toFloat32
  rw [binary32Exponent_eq q e he h1 h2]

/-- Zero is a binary32 number. -/
theorem toFloat32_zero : toFloat32 0 = 0 := by
  have h := roundNearestEven_intCast 0
  simp only [Int.cast_zero] at h
  simp [toFloat32, h]

/-- A rational with at most 24 significant bits and an exponent in range is a
binary32 number: rounding does not change it. -/
theorem toFloat32_exact (q : ℚ) (m e : ℤ) (hq : q = (m : ℚ) * 2 ^ e) (hm : |m| < 2 ^ 24)
    (he : -149 ≤ e) : toFloat32 q = q := by
  by_cases h0 : q = 0
  · rw [h0, toFloat32_zero]
  have hle : binary32Exponent q - 23 ≤ e := by
    unfold binary32Exponent
    have hpos : 0 < |q| := abs_pos.mpr h0
    have hlt : |q| < (2 : ℚ) ^ (e + 24) := by
      rw [hq, abs_mul, abs_of_pos (zpow_pos (by norm_num : (0 : ℚ) < 2) e), zpow_add₀
        (by norm_num : (2 : ℚ) ≠ 0), mul_comm ((2 : ℚ) ^ e)]
      apply mul_lt_mul_of_pos_right _ (zpow_pos (by norm_num) e)
      have : ((|m| : ℤ) : ℚ) < ((2 ^ 24 : ℤ) : ℚ) := by exact_mod_cast hm
      rw [Int.cast_abs] at this
      rw [show ((24 : ℤ)) = ((24 : ℕ) : ℤ) by rfl, zpow_natCast]
      exact_mod_cast this
    have hl : Int.log 2 |q| < e + 24 :=
      (Int.lt_zpow_iff_log_lt (b := 2) (by norm_num) hpos (x := e + 24)).mp
        (by exact_mod_cast hlt)
    rcases le_total (Int.log 2 |q|) (-126) with h | h
    · rw [max_eq_right h]; omega
    · rw [max_eq_left h]; omega
  unfold toFloat32
  generalize binary32Exponent q - 23 = E at hle
  obtain ⟨k, hk⟩ : ∃ k : ℕ, e = E + k := ⟨(e - E).toNat, by omega⟩
  have h2 : (2 : ℚ) ≠ 0 := by norm_num
  have hdiv : q / 2 ^ E = ((m * 2 ^ k : ℤ) : ℚ) := by
    rw [hq, hk, zpow_add₀ h2, zpow_natCast]
    push_cast
    field_simp
    ring
  rw [hdiv, roundNearestEven_intCast, hq, hk, zpow_add₀ h2, zpow_natCast]
  push_cast
  ring

/-- Rounding to the nearest integer moves a rational by at most one half. -/
theorem roundNearestEven_error (q : ℚ) :
    q - 1 / 2 ≤ (roundNearestEven q : ℚ) ∧ (roundNearestEven q : ℚ) ≤ q + 1 / 2 := by
  have h1 := Int.floor_le q
  have h2 := Int.lt_floor_add_one q
  unfold roundNearestEven
  split_ifs <;> push_cast <;> constructor <;> linarith

/-- Rounding to the nearest integer is monotone. -/
theorem roundNearestEven_mono (q1 q2 : ℚ) (h : q1 ≤ q2) :
    roundNearestEven q1 ≤ roundNearestEven q2 := by
  by_contra hcon
  have hlt : roundNearestEven q2 + 1 ≤ roundNearestEven q1 := by omega
  have hq : ((roundNearestEven q2 : ℤ) : ℚ) + 1 ≤ (roundNearestEven q1 : ℚ) := by
    exact_mod_cast hlt
  have e1 := (roundNearestEven_error q1).2
  have e2 := (roundNearestEven_error q2).1
  have heq : q1 = q2 := le_antisymm h (by linarith)
  rw [heq] at hcon
  exact hcon (le_refl _)

/-- Rounding does not pass an integer bound from below. -/
theorem roundNearestEven_le (q : ℚ) (N : ℤ) (h : q ≤ (N : ℚ)) : roundNearestEven q ≤ N := by
  have := roundNearestEven_mono q N h
  rwa [roundNearestEven_intCast] at this

/-- Rounding does not pass an integer bound from above. -/
theorem le_roundNearestEven (q : ℚ) (N : ℤ) (h : (N : ℚ) ≤ q) : N ≤ roundNearestEven q := by
  have := roundNearestEven_mono N q h
  rwa [roundNearestEven_intCast] at this

/-- The rounding of a non-negative rational is non-negative. -/
theorem toFloat32_nonneg (q : ℚ) (h : 0 ≤ q) : 0 ≤ toFloat32 q := by
  unfold toFloat32
  have hu : (0 : ℚ) < 2 ^ (binary32Exponent q - 23) := zpow_pos (by norm_num) _
  have hr : (0 : ℤ) ≤ roundNearestEven (q / 2 ^ (binary32Exponent q - 23)) :=
    le_roundNearestEven _ 0 (by simpa using div_nonneg h (le_of_lt hu))
  have hr' : (0 : ℚ) ≤ (roundNearestEven (q / 2 ^ (binary32Exponent q - 23)) : ℚ) := by
    exact_mod_cast hr
  exact mul_nonneg hr' (le_of_lt hu)

/-- The rounding of a positive rational does not exceed the next power of two
above its exponent. -/
theorem toFloat32_le_zpow (q : ℚ) (h : 0 < q) :
    toFloat32 q ≤ 2 ^ (binary32Exponent q + 1) := by
  have hlog : Int.log 2 q ≤ binary32Exponent q := by
    unfold binary32Exponent; rw [abs_of_pos h]; exact le_max_left _ _
  have hq : q < (2 : ℚ) ^ (binary32Exponent q + 1) := by
    have h1 : q < (2 : ℚ) ^ (Int.log 2 q + 1) := by
      have := Int.lt_zpow_succ_log_self (b := 2) (by norm_num) q
      exact_mod_cast this
    exact lt_of_lt_of_le h1 (zpow_le_zpow_right₀ (by norm_num) (by omega))
  unfold toFloat32
  generalize binary32Exponent q = e at hq
  have hu : (0 : ℚ) < 2 ^ (e - 23) := zpow_pos (by norm_num) _
  have h2 : (2 : ℚ) ≠ 0 := by norm_num
  have hsplit : (2 : ℚ) ^ (e + 1) = 2 ^ (24 : ℕ) * 2 ^ (e - 23) := by
    rw [← zpow_natCast, ← zpow_add₀ h2]; congr 1; omega
  have hr : roundNearestEven (q / 2 ^ (e - 23)) ≤ (2 ^ 24 : ℤ) := by
    apply roundNearestEven_le
    rw [div_le_iff₀ hu]
    have hc : (((2 ^ 24 : ℤ)) : ℚ) * 2 ^ (e - 23) = 2 ^ (e + 1) := by
      rw [hsplit]; norm_num
    rw [hc]
    exact le_of_lt hq
  have hr' : (roundNearestEven (q / 2 ^ (e - 23)) : ℚ) ≤ 2 ^ (24 : ℕ) := by
    exact_mod_cast hr
  rw [hsplit]
  exact mul_le_mul_of_nonneg_right hr' (le_of_lt hu)

/-- The rounding of a rational in the normal range is at least the power of two
of its exponent. -/
theorem zpow_le_toFloat32 (q : ℚ) (h : 0 < q) (hn : binary32Exponent q = Int.log 2 q) :
    2 ^ (binary32Exponent q) ≤ toFloat32 q := by
  have hq : (2 : ℚ) ^ (binary32Exponent q) ≤ q := by
    rw [hn]
    have := Int.zpow_log_le_self (b := 2) (r := q) (by norm_num) h
    exact_mod_cast this
  unfold toFloat32
  generalize binary32Exponent q = e at hq
  have hu : (0 : ℚ) < 2 ^ (e - 23) := zpow_pos (by norm_num) _
  have h2 : (2 : ℚ) ≠ 0 := by norm_num
  have hsplit : (2 : ℚ) ^ e = 2 ^ (23 : ℕ) * 2 ^ (e - 23) := by
    rw [← zpow_natCast, ← zpow_add₀ h2]; congr 1; omega
  have hr : (2 ^ 23 : ℤ) ≤ roundNearestEven (q / 2 ^ (e - 23)) := by
    apply le_roundNearestEven
    rw [le_div_iff₀ hu]
    have hc : (((2 ^ 23 : ℤ)) : ℚ) * 2 ^ (e - 23) = 2 ^ e := by
      rw [hsplit]; norm_num
    rw [hc]
    exact hq
  have hr' : (2 : ℚ) ^ (23 : ℕ) ≤ (roundNearestEven (q / 2 ^ (e - 23)) : ℚ) := by
    exact_mod_cast hr
  rw [hsplit]
  exact mul_le_mul_of_nonneg_right hr' (le_of_lt hu)

/-- Binary32 rounding is monotone on the non-negative rationals. -/
theorem toFloat32_mono (x y : ℚ) (hx : 0 ≤ x) (hxy : x ≤ y) : toFloat32 x ≤ toFloat32 y := by
  rcases eq_or_lt_of_le hx with h0 | hpos
  · rw [← h0, toFloat32_zero]
    exact toFloat32_nonneg y (le_trans hx hxy)
  have hy : 0 < y := lt_of_lt_of_le hpos hxy
  have hexp : binary32Exponent x ≤ binary32Exponent y := by
    unfold binary32Exponent
    rw [abs_of_pos hpos, abs_of_pos hy]
    exact max_le_max (Int.log_mono_right hpos hxy) (le_refl _)
  rcases eq_or_lt_of_le hexp with heq | hlt
  · unfold toFloat32
    rw [heq]
    have hu : (0 : ℚ) < 2 ^ (binary32Exponent y - 23) := zpow_pos (by norm_num) _
    have hr := roundNearestEven_mono (x / 2 ^ (binary32Exponent y - 23))
      (y / 2 ^ (binary32Exponent y - 23)) (div_le_div_of_nonneg_right hxy (le_of_lt hu))
    have hr' : (roundNearestEven (x / 2 ^ (binary32Exponent y - 23)) : ℚ)
        ≤ (roundNearestEven (y / 2 ^ (binary32Exponent y - 23)) : ℚ) := by exact_mod_cast hr
    exact mul_le_mul_of_nonneg_right hr' (le_of_lt hu)
  · have hn : binary32Exponent y = Int.log 2 y := by
      have h126 : -126 ≤ binary32Exponent x := by
        unfold binary32Exponent; exact le_max_right _ _
      unfold binary32Exponent at hlt ⊢
      rw [abs_of_pos hy] at hlt ⊢
      rcases le_total (Int.log 2 y) (-126) with h | h
      · rw [max_eq_right h] at hlt
        unfold binary32Exponent at h126
        omega
      · exact max_eq_left h
    calc toFloat32 x ≤ 2 ^ (binary32Exponent x + 1) := toFloat32_le_zpow x hpos
      _ ≤ 2 ^ (binary32Exponent y) := zpow_le_zpow_right₀ (by norm_num) (by omega)
      _ ≤ toFloat32 y := zpow_le_toFloat32 y hy hn

/-- One is a binary32 number. -/
theorem toFloat32_one : toFloat32 1 = 1 :=
  toFloat32_exact _ 1 0 (by norm_num) (by norm_num) (by norm_num)

/-- A rational of `[0,1]` rounds into `[0,1]`. -/
theorem toFloat32_unit (q : ℚ) (h0 : 0 ≤ q) (h1 : q ≤ 1) :
    0 ≤ toFloat32 q ∧ toFloat32 q ≤ 1 := by
  refine ⟨toFloat32_nonneg q h0, ?_⟩
  have := toFloat32_mono q 1 h0 h1
  rwa [toFloat32_one] at this

/-- The binary32 light-selection sample of `MonteCarloIntegrator::causticWorker`
lies in `[0,1]` for every index below the budget. -/
theorem lightSelectionSampleFloat_unit (h n : ℕ) (hlt : h < n) :
    0 ≤ lightSelectionSampleFloat h n ∧ lightSelectionSampleFloat h n ≤ 1 := by
  have hh : (0 : ℚ) ≤ (h : ℚ) := Nat.cast_nonneg h
  have hn1 : (1 : ℚ) ≤ (n : ℚ) := by exact_mod_cast (by omega : 1 ≤ n)
  have hle : (h : ℚ) ≤ (n : ℚ) := by exact_mod_cast le_of_lt hlt
  have ha : 0 ≤ toFloat32 (h : ℚ) := toFloat32_nonneg _ hh
  have hab : toFloat32 (h : ℚ) ≤ toFloat32 (n : ℚ) := toFloat32_mono _ _ hh hle
  have hb : 1 ≤ toFloat32 (n : ℚ) := by
    have := toFloat32_mono 1 n (by norm_num) hn1
    rwa [toFloat32_one] at this
  unfold lightSelectionSampleFloat
  exact toFloat32_unit _ (div_nonneg ha (by linarith))
    ((div_le_one (by linarith)).mpr hab)

/-- In the normal range binary32 rounding raises a positive rational by at most
the fraction `2^-24` of it. -/
theorem toFloat32_le_rel (q : ℚ) (h : 0 < q) (hn : binary32Exponent q = Int.log 2 q) :
    toFloat32 q ≤ q + q / 2 ^ (24 : ℕ) := by
  have hq : (2 : ℚ) ^ (binary32Exponent q) ≤ q := by
    rw [hn]
    have := Int.zpow_log_le_self (b := 2) (r := q) (by norm_num) h
    exact_mod_cast this
  unfold toFloat32
  generalize binary32Exponent q = e at hq
  have hu : (0 : ℚ) < 2 ^ (e - 23) := zpow_pos (by norm_num) _
  have h2 : (2 : ℚ) ≠ 0 := by norm_num
  have hsplit : (2 : ℚ) ^ e = 2 ^ (23 : ℕ) * 2 ^ (e - 23) := by
    rw [← zpow_natCast, ← zpow_add₀ h2]; congr 1; omega
  have herr := (roundNearestEven_error (q / 2 ^ (e - 23))).2
  have h1 : (roundNearestEven (q / 2 ^ (e - 23)) : ℚ) * 2 ^ (e - 23)
      ≤ (q / 2 ^ (e - 23) + 1 / 2) * 2 ^ (e - 23) :=
    mul_le_mul_of_nonneg_right herr (le_of_lt hu)
  have h3 : (q / 2 ^ (e - 23) + 1 / 2) * 2 ^ (e - 23) = q + 2 ^ (e - 23) / 2 := by
    field_simp
    ring
  have h4 : (2 : ℚ) ^ (e - 23) / 2 ≤ q / 2 ^ (24 : ℕ) := by
    rw [div_le_div_iff₀ (by norm_num) (by norm_num)]
    have : (2 : ℚ) ^ (e - 23) * 2 ^ (24 : ℕ) = 2 * 2 ^ e := by
      rw [hsplit]; ring
    rw [this]
    linarith
  linarith

/-- The rational `1 + 2^-24`, halfway between `1` and the next binary32 number,
rounds to `1`. -/
theorem toFloat32_one_add_half_ulp : toFloat32 (1 + 1 / 2 ^ (24 : ℕ)) = 1 := by
  rw [toFloat32_eq _ 0 (by norm_num) (by norm_num [abs_of_pos]) (by norm_num [abs_of_pos])]
  have h : (1 + 1 / 2 ^ (24 : ℕ) : ℚ) / 2 ^ ((0 : ℤ) - 23) = ((8388608 : ℤ) : ℚ) + 1 / 2 := by
    norm_num
  rw [h, roundNearestEven_add_half]
  norm_num

/-- The binary32 light-selection sample of `photonIntegrator_t::causticWorker`
lies in `[0,1]` for every index below a budget below `2^32`. -/
theorem lightSelectionSampleInv_unit (h n : ℕ) (hlt : h < n) (h32 : n < 2 ^ 32) :
    0 ≤ lightSelectionSampleInv h n ∧ lightSelectionSampleInv h n ≤ 1 := by
  have hh : (0 : ℚ) ≤ (h : ℚ) := Nat.cast_nonneg h
  have hn1 : (1 : ℚ) ≤ (n : ℚ) := by exact_mod_cast (by omega : 1 ≤ n)
  have hle : (h : ℚ) ≤ (n : ℚ) := by exact_mod_cast le_of_lt hlt
  have hn32 : (n : ℚ) ≤ 2 ^ (32 : ℕ) := by exact_mod_cast le_of_lt h32
  have ha : 0 ≤ toFloat32 (h : ℚ) := toFloat32_nonneg _ hh
  have hab : toFloat32 (h : ℚ) ≤ toFloat32 (n : ℚ) := toFloat32_mono _ _ hh hle
  have hb : 1 ≤ toFloat32 (n : ℚ) := by
    have := toFloat32_mono 1 n (by norm_num) hn1
    rwa [toFloat32_one] at this
  have hb32 : toFloat32 (n : ℚ) ≤ 2 ^ (32 : ℕ) := by
    have h232 : toFloat32 (2 ^ (32 : ℕ)) = 2 ^ (32 : ℕ) :=
      toFloat32_exact _ 1 32 (by norm_num) (by norm_num) (by norm_num)
    have := toFloat32_mono n (2 ^ (32 : ℕ)) (by linarith) hn32
    rwa [h232] at this
  unfold lightSelectionSampleInv
  generalize toFloat32 (h : ℚ) = a at ha hab
  generalize toFloat32 (n : ℚ) = b at hab hb hb32
  have hbpos : 0 < b := by linarith
  have hinv : 0 < 1 / b := by positivity
  have hinvlo : (2 : ℚ) ^ (-32 : ℤ) ≤ 1 / b := by
    have e32 : (2 : ℚ) ^ (-32 : ℤ) = 1 / 2 ^ (32 : ℕ) := by norm_num
    rw [e32]
    exact one_div_le_one_div_of_le hbpos hb32
  have hnorm : binary32Exponent (1 / b) = Int.log 2 (1 / b) := by
    unfold binary32Exponent
    rw [abs_of_pos hinv]
    apply max_eq_left
    have h126 : ((2 : ℕ) : ℚ) ^ (-126 : ℤ) ≤ 1 / b := by
      refine le_trans ?_ hinvlo
      push_cast
      exact zpow_le_zpow_right₀ (by norm_num) (by norm_num)
    exact (Int.zpow_le_iff_le_log (b := 2) (by norm_num) hinv).mp h126
  have hr := toFloat32_le_rel (1 / b) hinv hnorm
  have hr0 : 0 ≤ toFloat32 (1 / b) := toFloat32_nonneg _ (le_of_lt hinv)
  have hprod : a * toFloat32 (1 / b) ≤ 1 + 1 / 2 ^ (24 : ℕ) := by
    calc a * toFloat32 (1 / b) ≤ b * toFloat32 (1 / b) :=
          mul_le_mul_of_nonneg_right hab hr0
      _ ≤ b * (1 / b + 1 / b / 2 ^ (24 : ℕ)) := mul_le_mul_of_nonneg_left hr (le_of_lt hbpos)
      _ = 1 + 1 / 2 ^ (24 : ℕ) := by
        field_simp
        ring
  have hres : 0 ≤ toFloat32 (a * toFloat32 (1 / b)) ∧ toFloat32 (a * toFloat32 (1 / b)) ≤ 1 := by
    refine ⟨toFloat32_nonneg _ (mul_nonneg ha hr0), ?_⟩
    have := toFloat32_mono _ _ (mul_nonneg ha hr0) hprod
    rwa [toFloat32_one_add_half_ulp] at this
  exact hres

/-! ### Slab algebra used by the proofs about `Bound::cross` -/

theorem slab_iff (d o a g t : ℚ) (hd : d ≠ 0) :
    (slabMin d (o - a) (g - a) ≤ t ∧ t ≤ slabMax d (o - a) (g - a)) ↔
      (a ≤ o + t * d ∧ o + t * d ≤ g) := by
  unfold slabMin slabMax
  rcases lt_or_gt_of_ne hd with hneg | hpos
  · have hinv : ¬ (1 / d > 0) := by
      rw [gt_iff_lt, one_div, inv_pos]; exact not_lt.mpr hneg.le
    simp only [hinv, if_false]
    have h1 : (g - a - (o - a)) * (1 / d) = (g - o) / d := by field_simp
    have h2 : -(o - a) * (1 / d) = (a - o) / d := by field_simp
    rw [h1, h2, div_le_iff_of_neg hneg, le_div_iff_of_neg hneg]
    constructor <;> rintro ⟨h3, h4⟩ <;> constructor <;> linarith
  · have hinv : 1 / d > 0 := by
      rw [gt_iff_lt, one_div, inv_pos]; exact hpos
    simp only [hinv, if_true]
    have h1 : (g - a - (o - a)) * (1 / d) = (g - o) / d := by field_simp
    have h2 : -(o - a) * (1 / d) = (a - o) / d := by field_simp
    rw [h1, h2, div_le_iff₀ hpos, le_div_iff₀ hpos]
    constructor <;> rintro ⟨h3, h4⟩ <;> constructor <;> linarith

theorem cross_unfold (b : Bound) (ray : Ray) (t_max : ℚ) :
    b.cross ray t_max =
      if ray.dir_.x ≠ 0 ∧ (crossLmax1 b ray < 0 ∨ crossLmin1 b ray > t_max) then Cross.none
      else if ray.dir_.y ≠ 0 ∧ (crossLmax2 b ray < 0 ∨ crossLmin2 b ray > t_max) then Cross.none
      else if ray.dir_.z ≠ 0 ∧ (crossLmax3 b ray < 0 ∨ crossLmin3 b ray > t_max) then Cross.none
      else if crossLmin3 b ray ≤ crossLmax3 b ray ∧ crossLmax3 b ray ≥ 0 ∧
          crossLmin3 b ray ≤ t_max then ⟨true, crossLmin3 b ray, crossLmax3 b ray⟩
      else Cross.none := by
  rfl

theorem crossLmin1_le_2 (b : Bound) (ray : Ray) : crossLmin1 b ray ≤ crossLmin2 b ray := by
  unfold crossLmin2; split_ifs
  · exact le_max_right _ _
  · exact le_refl _

theorem crossLmin2_le_3 (b : Bound) (ray : Ray) : crossLmin2 b ray ≤ crossLmin3 b ray := by
  unfold crossLmin3; split_ifs
  · exact le_max_right _ _
  · exact le_refl _

theorem crossLmax2_le_1 (b : Bound) (ray : Ray) : crossLmax2 b ray ≤ crossLmax1 b ray := by
  unfold crossLmax2; split_ifs
  · exact min_le_right _ _
  · exact le_refl _

theorem crossLmax3_le_2 (b : Bound) (ray : Ray) : crossLmax3 b ray ≤ crossLmax2 b ray := by
  unfold crossLmax3; split_ifs
  · exact min_le_right _ _
  · exact le_refl _

/-- The early returns of `Bound::cross` never change its result: the final
test on the values after the z block already fails whenever one of them fires. -/
theorem cross_eq_final (b : Bound) (ray : Ray) (t_max : ℚ) :
    b.cross ray t_max =
      if crossLmin3 b ray ≤ crossLmax3 b ray ∧ crossLmax3 b ray ≥ 0 ∧
          crossLmin3 b ray ≤ t_max then ⟨true, crossLmin3 b ray, crossLmax3 b ray⟩
      else Cross.none := by
  rw [cross_unfold]
  have l12 := crossLmin1_le_2 b ray
  have l23 := crossLmin2_le_3 b ray
  have u21 := crossLmax2_le_1 b ray
  have u32 := crossLmax3_le_2 b ray
  by_cases hfin : crossLmin3 b ray ≤ crossLmax3 b ray ∧ crossLmax3 b ray ≥ 0 ∧
      crossLmin3 b ray ≤ t_max
  · obtain ⟨_, h2, h3⟩ := hfin
    have e1 : ¬ (ray.dir_.x ≠ 0 ∧ (crossLmax1 b ray < 0 ∨ crossLmin1 b ray > t_max)) := by
      rintro ⟨_, h | h⟩ <;> linarith
    have e2 : ¬ (ray.dir_.y ≠ 0 ∧ (crossLmax2 b ray < 0 ∨ crossLmin2 b ray > t_max)) := by
      rintro ⟨_, h | h⟩ <;> linarith
    have e3 : ¬ (ray.dir_.z ≠ 0 ∧ (crossLmax3 b ray < 0 ∨ crossLmin3 b ray > t_max)) := by
      rintro ⟨_, h | h⟩ <;> linarith
    rw [if_neg e1, if_neg e2, if_neg e3]
  · rw [if_neg hfin]
    split_ifs <;> rfl

theorem cross_crossed_iff (b : Bound) (ray : Ray) (t_max : ℚ) :
    (b.cross ray t_max).crossed_ = true ↔
      (crossLmin3 b ray ≤ crossLmax3 b ray ∧ crossLmax3 b ray ≥ 0 ∧
        crossLmin3 b ray ≤ t_max) := by
  rw [cross_eq_final]
  split_ifs with h
  · simp [h]
  · simp [Cross.none, h]

theorem includes_iff (b : Bound) (pn : Point3) :
    b.includes pn = true ↔
      (b.a_.x ≤ pn.x ∧ pn.x ≤ b.g_.x) ∧ (b.a_.y ≤ pn.y ∧ pn.y ≤ b.g_.y) ∧
        (b.a_.z ≤ pn.z ∧ pn.z ≤ b.g_.z) := by
  simp [Bound.includes, and_assoc]

/-- Any parameter inside the box on every axis lies between the entry and exit
values that `Bound::cross` has after its z block, provided the finite
"infinity" `1e38` is not in the way (it only is when the x block is skipped). -/
theorem cross_bounds_of_inside (b : Bound) (ray : Ray) (t : ℚ) (h0 : 0 ≤ t)
    (hfin : ray.dir_.x ≠ 0 ∨ t ≤ infinityCheck)
    (hin : b.includes (ray.pointAt t) = true) :
    crossLmin3 b ray ≤ t ∧ t ≤ crossLmax3 b ray := by
  rw [includes_iff] at hin
  obtain ⟨hx, hy, hz⟩ := hin
  simp only [Ray.pointAt] at hx hy hz
  have hinf : (0 : ℚ) ≤ infinityCheck := by unfold infinityCheck; positivity
  have h1 : crossLmin1 b ray ≤ t ∧ t ≤ crossLmax1 b ray := by
    unfold crossLmin1 crossLmax1
    by_cases hd : ray.dir_.x = 0
    · have ht : t ≤ infinityCheck := by
        rcases hfin with h | h
        · exact absurd hd h
        · exact h
      simp only [hd, ne_eq, not_true_eq_false, if_false]
      constructor <;> linarith
    · simp only [ne_eq, hd, not_false_eq_true, if_true]
      exact (slab_iff _ _ _ _ t hd).mpr hx
  have h2 : crossLmin2 b ray ≤ t ∧ t ≤ crossLmax2 b ray := by
    unfold crossLmin2 crossLmax2
    by_cases hd : ray.dir_.y = 0
    · simp only [hd, ne_eq, not_true_eq_false, if_false]
      exact h1
    · simp only [ne_eq, hd, not_false_eq_true, if_true]
      have hs := (slab_iff _ _ _ _ t hd).mpr hy
      exact ⟨max_le hs.1 h1.1, le_min hs.2 h1.2⟩
  unfold crossLmin3 crossLmax3
  by_cases hd : ray.dir_.z = 0
  · simp only [hd, ne_eq, not_true_eq_false, if_false]
    exact h2
  · simp only [ne_eq, hd, not_false_eq_true, if_true]
    have hs := (slab_iff _ _ _ _ t hd).mpr hz
    exact ⟨max_le hs.1 h2.1, le_min hs.2 h2.2⟩

/-- A parameter between the entry and exit values after the z block is inside
the box on every axis whose direction component is nonzero. -/
theorem inside_slabs_of_cross_bounds (b : Bound) (ray : Ray) (t : ℚ)
    (hl : crossLmin3 b ray ≤ t) (hu : t ≤ crossLmax3 b ray) :
    (ray.dir_.x ≠ 0 → b.a_.x ≤ (ray.pointAt t).x ∧ (ray.pointAt t).x ≤ b.g_.x) ∧
    (ray.dir_.y ≠ 0 → b.a_.y ≤ (ray.pointAt t).y ∧ (ray.pointAt t).y ≤ b.g_.y) ∧
    (ray.dir_.z ≠ 0 → b.a_.z ≤ (ray.pointAt t).z ∧ (ray.pointAt t).z ≤ b.g_.z) := by
  have l12 := crossLmin1_le_2 b ray
  have l23 := crossLmin2_le_3 b ray
  have u21 := crossLmax2_le_1 b ray
  have u32 := crossLmax3_le_2 b ray
  simp only [Ray.pointAt]
  refine ⟨fun hd => ?_, fun hd => ?_, fun hd => ?_⟩
  · refine (slab_iff _ _ _ _ t hd).mp ?_
    have e1 : crossLmin1 b ray =
        slabMin ray.dir_.x (ray.from_.x - b.a_.x) (b.g_.x - b.a_.x) := by
      unfold crossLmin1; rw [if_pos hd]
    have e2 : crossLmax1 b ray =
        slabMax ray.dir_.x (ray.from_.x - b.a_.x) (b.g_.x - b.a_.x) := by
      unfold crossLmax1; rw [if_pos hd]
    rw [← e1, ← e2]
    constructor <;> linarith
  · refine (slab_iff _ _ _ _ t hd).mp ?_
    have e1 : slabMin ray.dir_.y (ray.from_.y - b.a_.y) (b.g_.y - b.a_.y) ≤
        crossLmin2 b ray := by
      unfold crossLmin2; rw [if_pos hd]; exact le_max_left _ _
    have e2 : crossLmax2 b ray ≤
        slabMax ray.dir_.y (ray.from_.y - b.a_.y) (b.g_.y - b.a_.y) := by
      unfold crossLmax2; rw [if_pos hd]; exact min_le_left _ _
    constructor <;> linarith
  · refine (slab_iff _ _ _ _ t hd).mp ?_
    have e1 : slabMin ray.dir_.z (ray.from_.z - b.a_.z) (b.g_.z - b.a_.z) ≤
        crossLmin3 b ray := by
      unfold crossLmin3; rw [if_pos hd]; exact le_max_left _ _
    have e2 : crossLmax3 b ray ≤
        slabMax ray.dir_.z (ray.from_.z - b.a_.z) (b.g_.z - b.a_.z) := by
      unfold crossLmax3; rw [if_pos hd]; exact min_le_left _ _
    constructor <;> linarith

/-! ### Claims about `Bound::cross` -/

/-- C3 (amended): `Bound::cross` reports every hit whose parameter the finite
"infinity" `1e38` does not cut off. For every box with `a_ ≤ g_`, every ray and
every `t_max`, if some `t` with `0 ≤ t ≤ t_max` puts `from + t*dir` inside the
box, and `dir.x ≠ 0` or `t ≤ 1e38`, then `cross` returns `crossed_ = true`. -/
theorem cross_reports_hit (b : Bound) (ray : Ray) (t_max t : ℚ)
    (_hbox : b.a_.x ≤ b.g_.x ∧ b.a_.y ≤ b.g_.y ∧ b.a_.z ≤ b.g_.z)
    (h0 : 0 ≤ t) (ht : t ≤ t_max)
    (hfin : ray.dir_.x ≠ 0 ∨ t ≤ infinityCheck)
    (hin : b.includes (ray.pointAt t) = true) :
    (b.cross ray t_max).crossed_ = true := by
  rw [cross_crossed_iff]
  obtain ⟨hl, hu⟩ := cross_bounds_of_inside b ray t h0 hfin hin
  refine ⟨?_, ?_, ?_⟩ <;> linarith

/-- C3, the specification's example: the box `[(0,0,0),(1,1,1)]`, origin
`(-1,0.5,0.5)`, direction `(1,0,0)`: for every `t_max ≥ 1` the result is
`crossed_ = true`, `enter_ = 1`, `leave_ = 2`. -/
theorem cross_reports_hit_witness :
    (unitBox.cross specHitRay 1).crossed_ = true ∧
      ∀ t_max : ℚ, 1 ≤ t_max → unitBox.cross specHitRay t_max = ⟨true, 1, 2⟩ := by
  have hin : unitBox.includes (specHitRay.pointAt 1) = true := by
    rw [includes_iff]; norm_num [unitBox, specHitRay, Ray.pointAt]
  refine ⟨cross_reports_hit unitBox specHitRay 1 1 (by norm_num [unitBox]) (by norm_num)
    (le_refl _) (Or.inl (by norm_num [specHitRay])) hin, ?_⟩
  intro t_max h
  have e1 : crossLmin3 unitBox specHitRay = 1 := by
    norm_num [crossLmin3, crossLmin2, crossLmin1, slabMin, unitBox, specHitRay]
  have e2 : crossLmax3 unitBox specHitRay = 2 := by
    norm_num [crossLmax3, crossLmax2, crossLmax1, slabMax, unitBox, specHitRay]
  rw [cross_eq_final, e1, e2, if_pos ⟨by norm_num, by norm_num, h⟩]

/-- C3 as stated fails: a ray parallel to the y axis (`dir.x = 0`) from
`(0.5, -2e38, 0.5)` reaches the unit box at `t = 2e38 ≤ t_max = 3e38`, yet
`cross` returns `crossed_ = false`, because `lmax` starts from `1e38`. -/
theorem cross_far_hit_unreported :
    (unitBox.a_.x ≤ unitBox.g_.x ∧ unitBox.a_.y ≤ unitBox.g_.y ∧
        unitBox.a_.z ≤ unitBox.g_.z) ∧
      (0 : ℚ) ≤ 2 * 10 ^ 38 ∧ (2 * 10 ^ 38 : ℚ) ≤ 3 * 10 ^ 38 ∧
      unitBox.includes (farRay.pointAt (2 * 10 ^ 38)) = true ∧
      (unitBox.cross farRay (3 * 10 ^ 38)).crossed_ = false := by
  refine ⟨by norm_num [unitBox], by norm_num, by norm_num, ?_, ?_⟩
  · rw [includes_iff]; norm_num [unitBox, farRay, Ray.pointAt]
  · have e1 : crossLmin3 unitBox farRay = 2 * 10 ^ 38 := by
      norm_num [crossLmin3, crossLmin2, crossLmin1, slabMin, unitBox, farRay, infinityCheck]
    have e2 : crossLmax3 unitBox farRay = 10 ^ 38 := by
      norm_num [crossLmax3, crossLmax2, crossLmax1, slabMax, unitBox, farRay, infinityCheck]
    rw [cross_eq_final, e1, e2, if_neg (by norm_num)]
    rfl

/-- In exact arithmetic `Bound::cross` rejects every miss of a ray that, on
each axis where its direction component is zero (an axis `cross` skips),
starts within the box's extent: if moreover no `t ≥ 0` puts `from + t*dir`
inside the box, `cross` returns `crossed_ = false`, for every box and every
`t_max`. -/
theorem cross_rejects_miss (b : Bound) (ray : Ray) (t_max : ℚ)
    (hx : ray.dir_.x = 0 → b.a_.x ≤ ray.from_.x ∧ ray.from_.x ≤ b.g_.x)
    (hy : ray.dir_.y = 0 → b.a_.y ≤ ray.from_.y ∧ ray.from_.y ≤ b.g_.y)
    (hz : ray.dir_.z = 0 → b.a_.z ≤ ray.from_.z ∧ ray.from_.z ≤ b.g_.z)
    (hmiss : ∀ t : ℚ, 0 ≤ t → b.includes (ray.pointAt t) = false) :
    (b.cross ray t_max).crossed_ = false := by
  by_contra hc
  have hc1 : (b.cross ray t_max).crossed_ = true := by
    cases h : (b.cross ray t_max).crossed_
    · exact absurd h hc
    · rfl
  rw [cross_crossed_iff] at hc1
  obtain ⟨h1, h2, _⟩ := hc1
  have hl : crossLmin3 b ray ≤ max (crossLmin3 b ray) 0 := le_max_left _ _
  have hu : max (crossLmin3 b ray) 0 ≤ crossLmax3 b ray := max_le h1 h2
  obtain ⟨sx, sy, sz⟩ := inside_slabs_of_cross_bounds b ray _ hl hu
  have hin : b.includes (ray.pointAt (max (crossLmin3 b ray) 0)) = true := by
    rw [includes_iff]
    refine ⟨?_, ?_, ?_⟩
    · by_cases hd : ray.dir_.x = 0
      · simpa [Ray.pointAt, hd] using hx hd
      · exact sx hd
    · by_cases hd : ray.dir_.y = 0
      · simpa [Ray.pointAt, hd] using hy hd
      · exact sy hd
    · by_cases hd : ray.dir_.z = 0
      · simpa [Ray.pointAt, hd] using hz hd
      · exact sz hd
  rw [hmiss _ (le_max_right _ _)] at hin
  exact Bool.false_ne_true hin

/-- A miss that is rejected: from `(-1,0.5,0.5)` in direction `(-1,0,0)` the
ray leaves the unit box behind; the y and z axes are skipped with the origin
within the box's extent, and `cross` returns `crossed_ = false`. -/
theorem cross_rejects_miss_witness : (unitBox.cross awayRay 10).crossed_ = false := by
  refine cross_rejects_miss unitBox awayRay 10 ?_ ?_ ?_ ?_
  · intro h; norm_num [awayRay] at h
  · intro _; norm_num [unitBox, awayRay]
  · intro _; norm_num [unitBox, awayRay]
  · intro t ht
    cases h : unitBox.includes (awayRay.pointAt t)
    · rfl
    · rw [includes_iff] at h
      simp only [unitBox, awayRay, Ray.pointAt] at h
      linarith [h.1.1]

/-- The specification's example of a miss in exact arithmetic: from
`(-1,0.5,0.5)` in direction `(0,1,0)` no `t ≥ 0` puts the ray inside the unit
box, yet `cross` skips the x axis and returns `crossed_ = true` with
`enter_ = -0.5`, `leave_ = 0.5`. -/
theorem cross_parallel_miss_reported :
    (∀ t : ℚ, 0 ≤ t → unitBox.includes (specMissRay.pointAt t) = false) ∧
      unitBox.cross specMissRay 1 = ⟨true, -(1 / 2), 1 / 2⟩ := by
  constructor
  · intro t _
    cases h : unitBox.includes (specMissRay.pointAt t)
    · rfl
    · rw [includes_iff] at h
      simp only [unitBox, specMissRay, Ray.pointAt] at h
      linarith [h.1.1]
  · have e1 : crossLmin3 unitBox specMissRay = -(1 / 2) := by
      norm_num [crossLmin3, crossLmin2, crossLmin1, slabMin, unitBox, specMissRay,
        infinityCheck]
    have e2 : crossLmax3 unitBox specMissRay = 1 / 2 := by
      norm_num [crossLmax3, crossLmax2, crossLmax1, slabMax, unitBox, specMissRay,
        infinityCheck]
    rw [cross_eq_final, e1, e2, if_pos (by norm_num)]

/-- C5 (amended): in exact arithmetic, whenever `Bound::cross` returns
`crossed_ = true` for a box with `a_ ≤ g_` and a ray whose three direction
components are all nonzero, the parameters `t` for which `from + t*dir` is
inside the box are exactly those of the closed interval `[enter_, leave_]`. -/
theorem cross_interval (b : Bound) (ray : Ray) (t_max : ℚ)
    (_hbox : b.a_.x ≤ b.g_.x ∧ b.a_.y ≤ b.g_.y ∧ b.a_.z ≤ b.g_.z)
    (hx : ray.dir_.x ≠ 0) (hy : ray.dir_.y ≠ 0) (hz : ray.dir_.z ≠ 0)
    (hc : (b.cross ray t_max).crossed_ = true) (t : ℚ) :
    b.includes (ray.pointAt t) = true ↔
      ((b.cross ray t_max).enter_ ≤ t ∧ t ≤ (b.cross ray t_max).leave_) := by
  have hfinal := (cross_crossed_iff b ray t_max).mp hc
  rw [cross_eq_final, if_pos hfinal]
  simp only []
  constructor
  · intro hin
    rw [includes_iff] at hin
    obtain ⟨ix, iy, iz⟩ := hin
    simp only [Ray.pointAt] at ix iy iz
    have sx := (slab_iff _ _ _ _ t hx).mpr ix
    have sy := (slab_iff _ _ _ _ t hy).mpr iy
    have sz := (slab_iff _ _ _ _ t hz).mpr iz
    unfold crossLmin3 crossLmax3 crossLmin2 crossLmax2 crossLmin1 crossLmax1
    rw [if_pos hx, if_pos hy, if_pos hz, if_pos hx, if_pos hy, if_pos hz]
    exact ⟨max_le sz.1 (max_le sy.1 sx.1), le_min sz.2 (le_min sy.2 sx.2)⟩
  · rintro ⟨hl, hu⟩
    obtain ⟨sx, sy, sz⟩ := inside_slabs_of_cross_bounds b ray t hl hu
    rw [includes_iff]
    exact ⟨sx hx, sy hy, sz hz⟩

/-- C5 (amended) at a ray that starts inside the unit box: `enter_ = -0.5` is
negative (not clamped to 0), `leave_ = 0.5`, and the parameters inside the box
are those of `[-0.5, 0.5]`. -/
theorem cross_interval_witness :
    unitBox.cross diagonalRay 1 = ⟨true, -(1 / 2), 1 / 2⟩ ∧
      ∀ t : ℚ, unitBox.includes (diagonalRay.pointAt t) = true ↔
        ((unitBox.cross diagonalRay 1).enter_ ≤ t ∧
          t ≤ (unitBox.cross diagonalRay 1).leave_) := by
  have e1 : crossLmin3 unitBox diagonalRay = -(1 / 2) := by
    norm_num [crossLmin3, crossLmin2, crossLmin1, slabMin, unitBox, diagonalRay]
  have e2 : crossLmax3 unitBox diagonalRay = 1 / 2 := by
    norm_num [crossLmax3, crossLmax2, crossLmax1, slabMax, unitBox, diagonalRay]
  have hc : unitBox.cross diagonalRay 1 = ⟨true, -(1 / 2), 1 / 2⟩ := by
    rw [cross_eq_final, e1, e2, if_pos (by norm_num)]
  refine ⟨hc, fun t => ?_⟩
  exact cross_interval unitBox diagonalRay 1 (by norm_num [unitBox])
    (by norm_num [diagonalRay]) (by norm_num [diagonalRay]) (by norm_num [diagonalRay])
    (by rw [hc]) t

/-! ### Claims about the MIS weights and the pdf guards -/

theorem lightSampleIndexMask_logs (cfg : AreaLightSettings) (ptr : LightLayerPtrs)
    (acc : LightAccum) (inp : LightSampleInputs) (shadowed : Bool)
    (prim : Option ShadowPrimitive) :
    (lightSampleIndexMask cfg ptr acc inp shadowed prim).col_weights = acc.col_weights ∧
    (lightSampleIndexMask cfg ptr acc inp shadowed prim).pdf_divisors = acc.pdf_divisors := by
  unfold lightSampleIndexMask
  cases prim with
  | none => exact ⟨rfl, rfl⟩
  | some p =>
    simp only []
    split_ifs <;> exact ⟨rfl, rfl⟩

/-- The weight log after the shading block: the weight is logged exactly when
the sample is unshadowed and its pdf exceeds `1e-6`. -/
theorem lightSampleShade_col_weights (cfg : AreaLightSettings) (ptr : LightLayerPtrs)
    (acc : LightAccum) (inp : LightSampleInputs) (shadowed : Bool) :
    (lightSampleShade cfg ptr acc inp shadowed).col_weights =
      if (!shadowed && decide (inp.ls_pdf > pdfEpsilon)) = true then
        acc.col_weights ++ [lightSampleWeight cfg.can_intersect inp.ls_pdf inp.m_pdf]
      else acc.col_weights := by
  unfold lightSampleShade
  by_cases hlit : (!shadowed && decide (inp.ls_pdf > pdfEpsilon)) = true
  · simp only [hlit, Bool.true_or, if_true]
  · by_cases hd : ptr.diffuse_no_shadow = true
    · simp only [hlit, hd, Bool.or_true, if_true]
    · simp only [hlit, hd, Bool.or_false]
      rfl

/-- The weight log after one light sample: the weight is logged exactly when
the sample is generated, unshadowed and its pdf exceeds `1e-6`. -/
theorem lightSampleStep_col_weights (cfg : AreaLightSettings) (ptr : LightLayerPtrs)
    (acc : LightAccum) (inp : LightSampleInputs) :
    (lightSampleStep cfg ptr acc inp).col_weights =
      if inp.illum_ok = true ∧
          (!(cfg.cast_shadows && inp.shadowed) && decide (inp.ls_pdf > pdfEpsilon)) = true then
        acc.col_weights ++ [lightSampleWeight cfg.can_intersect inp.ls_pdf inp.m_pdf]
      else acc.col_weights := by
  unfold lightSampleStep
  by_cases hi : inp.illum_ok = true
  · simp only [hi, if_true, true_and]
    rw [(lightSampleIndexMask_logs _ _ _ _ _ _).1, lightSampleShade_col_weights]
  · simp only [hi, false_and, if_false]
    rfl

/-- The weight log after one BSDF sample: the weight is logged exactly when the
sample's pdf exceeds `1e-6`, the sampled ray hits the light, is unshadowed and
the inverse light pdf exceeds `1e-6`. -/
theorem materialSampleStep_col_weights (cfg : AreaLightSettings) (ptr : MaterialLayerPtrs)
    (acc : MaterialAccum) (inp : MaterialSampleInputs) :
    (materialSampleStep cfg ptr acc inp).col_weights =
      if (decide (inp.s_pdf > pdfEpsilon) && inp.intersect_ok) = true ∧
          (!(cfg.cast_shadows && inp.shadowed) && decide (inp.light_pdf > pdfEpsilon)) = true
      then acc.col_weights ++ [materialSampleWeight inp.light_pdf inp.s_pdf]
      else acc.col_weights := by
  unfold materialSampleStep
  by_cases hi : (decide (inp.s_pdf > pdfEpsilon) && inp.intersect_ok) = true
  · by_cases hlit :
        (!(cfg.cast_shadows && inp.shadowed) && decide (inp.light_pdf > pdfEpsilon)) = true
    · simp only [hi, hlit, Bool.true_or, if_true, and_self]
    · by_cases hd : ptr.diffuse_no_shadow = true
      · simp only [hi, hlit, hd, Bool.or_true, if_true, and_false, if_false]
        rfl
      · simp only [hi, hlit, hd, Bool.or_false, if_true, and_false, if_false]
        rfl
  · simp only [hi, false_and, if_false]
    rfl

theorem power_heuristic_sum (l m : ℚ) (hm : 0 < m) :
    l * l / (l * l + m * m) + m * m / (1 / (1 / l) * (1 / (1 / l)) + m * m) = 1 := by
  have h1 : 1 / (1 / l) = l := by simp
  rw [h1]
  have h2 : l * l + m * m ≠ 0 := by nlinarith [mul_self_nonneg l, mul_pos hm hm]
  field_simp

/-- C1 (amended): MIS weight normalisation above the pdf guards. For every
`lightPdf` with `1e-6 < lightPdf < 1e6` and every `bsdfPdf > 1e-6` (exact
arithmetic, unshadowed samples, light can be intersected), `areaLightSampleLight`
applies to a light sample (`ls.pdf_ = lightPdf`, material pdf `bsdfPdf`) one
weight `wl`, `areaLightSampleMaterial` applies to a BSDF sample (`s.pdf_ =
bsdfPdf`, `intersect` returning the inverse pdf `1/lightPdf`) one weight `wm`,
and `wl + wm = 1`. -/
theorem mis_weights_sum_one (cfg : AreaLightSettings) (color_layers : Option ColorLayers)
    (li : LightSampleInputs) (mi : MaterialSampleInputs) (lightPdf bsdfPdf : ℚ)
    (hcan : cfg.can_intersect = true)
    (hl : lightPdf > pdfEpsilon) (hl2 : lightPdf < 1000000) (hm : bsdfPdf > pdfEpsilon) :
    ∃ wl wm : ℚ,
      (areaLightSampleLight cfg color_layers 1 1 (fun _ =>
          { li with illum_ok := true, shadowed := false, ls_pdf := lightPdf,
                    m_pdf := bsdfPdf })).acc.col_weights = [wl] ∧
      (areaLightSampleMaterial cfg color_layers 1 1 (fun _ =>
          { mi with intersect_ok := true, shadowed := false, s_pdf := bsdfPdf,
                    light_pdf := 1 / lightPdf })).acc.col_weights = [wm] ∧
      wl = lightSampleWeight true lightPdf bsdfPdf ∧
      wm = materialSampleWeight (1 / lightPdf) bsdfPdf ∧
      wl + wm = 1 := by
  have heps : (0 : ℚ) < pdfEpsilon := by unfold pdfEpsilon; norm_num
  have hlpos : 0 < lightPdf := lt_trans heps hl
  have hinv : 1 / lightPdf > pdfEpsilon := by
    unfold pdfEpsilon
    rw [gt_iff_lt, div_lt_div_iff₀ (by norm_num) hlpos]
    linarith
  have hinv2 : pdfEpsilon < lightPdf⁻¹ := by rw [← one_div]; exact hinv
  refine ⟨lightSampleWeight true lightPdf bsdfPdf,
    materialSampleWeight (1 / lightPdf) bsdfPdf, ?_, ?_, rfl, rfl, ?_⟩
  · simp only [areaLightSampleLight, List.range_succ, List.range_zero, List.nil_append,
      List.foldl_cons, List.foldl_nil]
    rw [lightSampleStep_col_weights]
    simp [hl, hcan, LightAccum.init]
  · simp only [areaLightSampleMaterial, hcan, if_true, List.range_succ, List.range_zero,
      List.nil_append, List.foldl_cons, List.foldl_nil]
    rw [materialSampleStep_col_weights]
    simp [hm, hinv2, MaterialAccum.init]
  · simp only [lightSampleWeight, materialSampleWeight, if_true, hm]
    exact power_heuristic_sum lightPdf bsdfPdf (lt_trans heps hm)

/-- C1 at `lightPdf = 1`, `bsdfPdf = 1`: both weights are `1/2`. -/
theorem mis_weights_sum_one_witness :
    ∃ wl wm : ℚ,
      (areaLightSampleLight exampleSettings none 1 1 (fun _ =>
          { unitLightInputs with
              illum_ok := true, shadowed := false, ls_pdf := 1, m_pdf := 1 })).acc.col_weights
        = [wl] ∧
      (areaLightSampleMaterial exampleSettings none 1 1 (fun _ =>
          { unitMaterialInputs with
              intersect_ok := true, shadowed := false, s_pdf := 1,
              light_pdf := 1 / 1 })).acc.col_weights = [wm] ∧
      wl = lightSampleWeight true 1 1 ∧
      wm = materialSampleWeight (1 / 1) 1 ∧
      wl + wm = 1 :=
  mis_weights_sum_one exampleSettings none unitLightInputs unitMaterialInputs 1 1 rfl (by norm_num [pdfEpsilon]) (by norm_num) (by norm_num [pdfEpsilon])

/-- C1 as stated fails at `lightPdf = bsdfPdf = 1e-6`, both positive: neither
sampling loop applies a weight (both samples are dropped by the `> 1e-6`
guards), and the weight expressions themselves evaluate to `1` and `1/2`. -/
theorem mis_weights_at_epsilon :
    (0 : ℚ) < 1 / 1000000 ∧
    (areaLightSampleLight exampleSettings none 1 1 (fun _ =>
        exampleLightInputs (1 / 1000000) (1 / 1000000))).acc.col_weights = [] ∧
    (areaLightSampleMaterial exampleSettings none 1 1 (fun _ =>
        exampleMaterialInputs (1 / (1 / 1000000)) (1 / 1000000))).acc.col_weights = [] ∧
    lightSampleWeight true (1 / 1000000) (1 / 1000000) = 1 ∧
    materialSampleWeight (1 / (1 / 1000000)) (1 / 1000000) = 1 / 2 := by
  refine ⟨by norm_num, ?_, ?_, ?_, ?_⟩
  · simp only [areaLightSampleLight, List.range_succ, List.range_zero, List.nil_append,
      List.foldl_cons, List.foldl_nil]
    rw [lightSampleStep_col_weights]
    norm_num [exampleSettings, exampleLightInputs, pdfEpsilon, LightAccum.init]
  · simp only [areaLightSampleMaterial, exampleSettings, if_true, List.range_succ,
      List.range_zero, List.nil_append, List.foldl_cons, List.foldl_nil]
    rw [materialSampleStep_col_weights]
    norm_num [exampleMaterialInputs, pdfEpsilon, MaterialAccum.init]
  · norm_num [lightSampleWeight, pdfEpsilon]
  · norm_num [materialSampleWeight]

/-- C2, the code at a failing input: with the `DiffuseNoShadow` layer defined,
an unshadowed light sample whose `ls.pdf_` is `1e-7` is divided by that pdf
(source line 234), and a BSDF sample for which `intersect` returns
`light_pdf = 1e-7` has `1.f / light_pdf` computed (source line 338): the value
`1e-7`, which is `≤ 1e-6`, is in both divisor logs. -/
theorem pdf_guard_bypassed_by_no_shadow_layer :
    (areaLightSampleLight exampleSettings (some noShadowLayers) 1 1 (fun _ =>
        exampleLightInputs (1 / 10000000) 1)).acc.pdf_divisors = [1 / 10000000] ∧
    (areaLightSampleMaterial exampleSettings (some noShadowLayers) 1 1 (fun _ =>
        exampleMaterialInputs (1 / 10000000) 1)).acc.pdf_divisors = [1 / 10000000] ∧
    (1 / 10000000 : ℚ) ≤ pdfEpsilon := by
  refine ⟨?_, ?_, by norm_num [pdfEpsilon]⟩
  · norm_num [areaLightSampleLight, lightSampleStep, lightSampleShade, lightSampleIndexMask,
      LightAccum.init, List.range_succ, exampleSettings, exampleLightInputs, lightLayerPtrs,
      noShadowLayers, pdfEpsilon]
  · norm_num [areaLightSampleMaterial, materialSampleStep, MaterialAccum.init,
      List.range_succ, exampleSettings, exampleMaterialInputs, materialLayerPtrs,
      noShadowLayers, pdfEpsilon]

/-! ### Claims about the depth caps of `recursiveRaytrace` -/

/-- C6: depth budget. For every `ray_level > r_depth_ + additional_depth`,
whatever the BSDF flags and the callees are, `recursiveRaytrace` returns colour
`(0,0,0)` with alpha 1 and calls no dispersive, glossy or specular
continuation. -/
theorem recursiveRaytrace_depth_budget (r_depth_ ray_level additional_depth : ℤ)
    (chromatic_enabled : Bool) (bsdfs : BsdfFlags) (callees : RaytraceCallees)
    (h : ray_level > r_depth_ + additional_depth) :
    recursiveRaytrace r_depth_ ray_level chromatic_enabled bsdfs additional_depth callees =
      ⟨Rgb.black, 1, []⟩ := by
  have hn : ¬ (ray_level ≤ r_depth_ + additional_depth) := not_le.mpr h
  simp [recursiveRaytrace, hn]

/-- C6 at `r_depth_ = 5`, `additional_depth = 2`, `ray_level = 8`, all lobes
set. -/
theorem recursiveRaytrace_depth_budget_witness :
    recursiveRaytrace 5 8 true [Bsdf.Dispersive, Bsdf.Glossy, Bsdf.Specular] 2 exampleCallees =
      ⟨Rgb.black, 1, []⟩ :=
  recursiveRaytrace_depth_budget 5 8 2 true [Bsdf.Dispersive, Bsdf.Glossy, Bsdf.Specular]
    exampleCallees (by decide)

/-- C7: independent cap. For every `ray_level ≥ 20`, whatever `r_depth_` and
`additional_depth` are, no glossy and no perfect-specular continuation is
called; the result is that of the dispersive branch alone when that branch is
taken (level within the depth budget, dispersive lobe, chromatic), and colour
0 with alpha 1 otherwise. -/
theorem recursiveRaytrace_level_cap (r_depth_ ray_level additional_depth : ℤ)
    (chromatic_enabled : Bool) (bsdfs : BsdfFlags) (callees : RaytraceCallees)
    (h : ray_level ≥ 20) :
    recursiveRaytrace r_depth_ ray_level chromatic_enabled bsdfs additional_depth callees =
      if ray_level ≤ r_depth_ + additional_depth ∧
          (hasAny bsdfs [Bsdf.Dispersive] && chromatic_enabled) = true then
        ⟨callees.dispersive.1, callees.dispersive.2, [Continuation.dispersive]⟩
      else ⟨Rgb.black, 1, []⟩ := by
  have hn : ¬ (ray_level < 20) := not_lt.mpr h
  by_cases hd : ray_level ≤ r_depth_ + additional_depth
  · by_cases hc : (hasAny bsdfs [Bsdf.Dispersive] && chromatic_enabled) = true
    · simp [recursiveRaytrace, hn, hd, hc, RaytraceState.accumulate, Rgb.add, Rgb.black]
    · simp [recursiveRaytrace, hn, hd, hc]
  · simp [recursiveRaytrace, hd]

/-- C7 at `ray_level = 20` with a depth budget of 30 and all lobes set: only
the dispersive continuation is called and its result is returned. -/
theorem recursiveRaytrace_level_cap_witness :
    recursiveRaytrace 30 20 true [Bsdf.Dispersive, Bsdf.Glossy, Bsdf.Specular] 0
        exampleCallees = ⟨⟨1 / 4, 1 / 4, 1 / 4⟩, 1 / 2, [Continuation.dispersive]⟩ := by
  rw [recursiveRaytrace_level_cap 30 20 0 true [Bsdf.Dispersive, Bsdf.Glossy, Bsdf.Specular]
    exampleCallees (by decide)]
  simp [hasAny, exampleCallees]

/-! ### Claims about the photon budget and the workers' sample indices -/

theorem adjustedPhotonCount_eq (n T : ℕ) (hn : n < 2 ^ 32) :
    adjustedPhotonCount n T = max T (n / T * T) := by
  unfold adjustedPhotonCount
  rw [Nat.mod_eq_of_lt (lt_of_le_of_lt (Nat.div_mul_le_self n T) hn)]

theorem adjustedPhotonCount_multiple (n T : ℕ) (hn : n < 2 ^ 32) :
    T ∣ adjustedPhotonCount n T ∧ T ≤ adjustedPhotonCount n T ∧
      adjustedPhotonCount n T ≤ max n T := by
  rw [adjustedPhotonCount_eq n T hn]
  have hq : n / T * T ≤ n := Nat.div_mul_le_self n T
  refine ⟨?_, le_max_left _ _, ?_⟩
  · rcases le_total T (n / T * T) with h | h
    · rw [max_eq_right h]; exact Dvd.intro_left _ rfl
    · rw [max_eq_left h]
  · exact max_le (le_max_right _ _) (le_trans hq (le_max_left _ _))

/-- C8 (amended): photon budget rounding. For every requested count `n`
(an unsigned 32-bit value) and worker-thread count `T ≥ 1`, the adjusted count
`n'` is the requested count rounded DOWN to a multiple of `T`, with at least
one photon per thread: `T` divides `n'`, `n' ≥ T`, `n' ≤ max n T`, and `n'` is
the greatest multiple of `T` that does not exceed `max n T`. -/
theorem adjustedPhotonCount_rounds_down (n T : ℕ) (hT : 1 ≤ T) (hn : n < 2 ^ 32) :
    T ∣ adjustedPhotonCount n T ∧ T ≤ adjustedPhotonCount n T ∧
      adjustedPhotonCount n T ≤ max n T ∧
      ∀ k : ℕ, T ∣ k → k ≤ max n T → k ≤ adjustedPhotonCount n T := by
  obtain ⟨h1, h2, h3⟩ := adjustedPhotonCount_multiple n T hn
  refine ⟨h1, h2, h3, ?_⟩
  rw [adjustedPhotonCount_eq n T hn]
  rintro k ⟨j, rfl⟩ hk
  rcases le_total T n with h | h
  · rw [max_eq_left h] at hk
    have hj : j ≤ n / T := by
      rw [Nat.le_div_iff_mul_le (by omega)]
      rw [Nat.mul_comm] at hk; exact hk
    calc T * j = j * T := Nat.mul_comm _ _
      _ ≤ n / T * T := Nat.mul_le_mul_right T hj
      _ ≤ max T (n / T * T) := le_max_right _ _
  · rw [max_eq_right h] at hk
    exact le_trans hk (le_max_left _ _)

/-- C8 at `n = 1000`, `T = 8`: the count stays 1000. -/
theorem adjustedPhotonCount_rounds_down_witness :
    adjustedPhotonCount 1000 8 = 1000 ∧
    (8 ∣ adjustedPhotonCount 1000 8 ∧ 8 ≤ adjustedPhotonCount 1000 8 ∧
      adjustedPhotonCount 1000 8 ≤ max 1000 8 ∧
      ∀ k : ℕ, 8 ∣ k → k ≤ max 1000 8 → k ≤ adjustedPhotonCount 1000 8) :=
  ⟨by decide, adjustedPhotonCount_rounds_down 1000 8 (by decide) (by decide)⟩

/-- C8 as stated fails: for `n = 5` requested photons and `T = 2` threads the
adjusted count is 4, which is less than the requested 5 (rounded down, not up),
while the least multiple of 2 that is at least 5 is 6. -/
theorem adjustedPhotonCount_below_request :
    adjustedPhotonCount 5 2 = 4 ∧ ¬ (adjustedPhotonCount 5 2 ≥ 5) := by
  decide

theorem photonsPerThread_mul (n T : ℕ) (hT : 1 ≤ T) (hdiv : T ∣ n) (hge : T ≤ n)
    (h32 : n < 2 ^ 32) : photonsPerThread n T * T = n ∧ 1 ≤ photonsPerThread n T := by
  obtain ⟨k, rfl⟩ := hdiv
  have hk : 1 ≤ k := by
    rcases Nat.eq_zero_or_pos k with h | h
    · subst h; omega
    · exact h
  have h1 : (T * k + 2 ^ 32 - 1) % 2 ^ 32 = T * k - 1 := by
    have : T * k + 2 ^ 32 - 1 = (T * k - 1) + 2 ^ 32 := by omega
    rw [this, Nat.add_mod_right, Nat.mod_eq_of_lt (by omega)]
  have h2 : (T * k - 1) / T = k - 1 := by
    have : T * k - 1 = (T - 1) + T * (k - 1) := by
      obtain ⟨k', rfl⟩ : ∃ k', k = k' + 1 := ⟨k - 1, by omega⟩
      simp only [Nat.add_sub_cancel]
      rw [Nat.mul_add]; omega
    rw [this, Nat.add_mul_div_left _ _ (by omega : 0 < T), Nat.div_eq_of_lt (by omega)]
    omega
  have hkT : k ≤ T * k := Nat.le_mul_of_pos_left k (by omega)
  have h3 : photonsPerThread (T * k) T = k := by
    unfold photonsPerThread
    rw [h1, h2, Nat.mod_eq_of_lt (by omega)]
    omega
  rw [h3]
  exact ⟨Nat.mul_comm _ _, hk⟩

theorem haltoncurr_eq (n T tid curr : ℕ) (hP : photonsPerThread n T * T = n)
    (h32 : n < 2 ^ 32) (htid : tid < T) (hcurr : curr < photonsPerThread n T) :
    haltoncurr curr (photonsPerThread n T) tid = curr + photonsPerThread n T * tid ∧
      curr + photonsPerThread n T * tid < n := by
  have h1 : photonsPerThread n T * (tid + 1) ≤ photonsPerThread n T * T :=
    Nat.mul_le_mul_left _ htid
  have h2 : curr + photonsPerThread n T * tid < n := by
    rw [Nat.mul_add, Nat.mul_one] at h1
    omega
  unfold haltoncurr
  rw [Nat.mod_eq_of_lt (a := photonsPerThread n T * tid) (by omega),
    Nat.mod_eq_of_lt (by omega)]
  exact ⟨rfl, h2⟩

/-- C9 (amended): disjoint sample indices in `causticWorker`. For an adjusted
budget `n'` (a multiple of `T`, `n' ≥ T ≥ 1`, `n' < 2^32`) and the per-thread
count `P = 1 + (n' - 1)/T`, the index `haltoncurr = curr + P*thread_id` lies in
`[0, n')` for every `thread_id < T` and `curr < P`, differs for every two
distinct such pairs, and the light-selection sample lies in `[0, 1]`: the
exact quotient `haltoncurr / n'` lies in `[0, 1)`, and the binary32 values
that the two sources compute, `float(haltoncurr) / float(n')` and
`float(haltoncurr) * (1.f / float(n'))`, lie in `[0, 1]`. -/
theorem haltoncurr_disjoint (n T : ℕ) (hT : 1 ≤ T) (hdiv : T ∣ n) (hge : T ≤ n)
    (h32 : n < 2 ^ 32) :
    (∀ tid curr : ℕ, tid < T → curr < photonsPerThread n T →
        haltoncurr curr (photonsPerThread n T) tid < n ∧
        0 ≤ lightSelectionSample (haltoncurr curr (photonsPerThread n T) tid) n ∧
        lightSelectionSample (haltoncurr curr (photonsPerThread n T) tid) n < 1 ∧
        0 ≤ lightSelectionSampleFloat (haltoncurr curr (photonsPerThread n T) tid) n ∧
        lightSelectionSampleFloat (haltoncurr curr (photonsPerThread n T) tid) n ≤ 1 ∧
        0 ≤ lightSelectionSampleInv (haltoncurr curr (photonsPerThread n T) tid) n ∧
        lightSelectionSampleInv (haltoncurr curr (photonsPerThread n T) tid) n ≤ 1) ∧
    (∀ tid1 curr1 tid2 curr2 : ℕ, tid1 < T → curr1 < photonsPerThread n T →
        tid2 < T → curr2 < photonsPerThread n T →
        haltoncurr curr1 (photonsPerThread n T) tid1 =
          haltoncurr curr2 (photonsPerThread n T) tid2 →
        tid1 = tid2 ∧ curr1 = curr2) := by
  obtain ⟨hP, hP1⟩ := photonsPerThread_mul n T hT hdiv hge h32
  constructor
  · intro tid curr htid hcurr
    obtain ⟨he, hlt⟩ := haltoncurr_eq n T tid curr hP h32 htid hcurr
    rw [he]
    have hn : (0 : ℚ) < (n : ℚ) := by
      have : 0 < n := by omega
      exact_mod_cast this
    refine ⟨hlt, ?_, ?_, (lightSelectionSampleFloat_unit _ n hlt).1,
      (lightSelectionSampleFloat_unit _ n hlt).2, (lightSelectionSampleInv_unit _ n hlt h32).1,
      (lightSelectionSampleInv_unit _ n hlt h32).2⟩
    · unfold lightSelectionSample; positivity
    · unfold lightSelectionSample
      rw [div_lt_one hn]
      exact_mod_cast hlt
  · intro tid1 curr1 tid2 curr2 ht1 hc1 ht2 hc2 heq
    rw [(haltoncurr_eq n T tid1 curr1 hP h32 ht1 hc1).1,
      (haltoncurr_eq n T tid2 curr2 hP h32 ht2 hc2).1] at heq
    have hpos : 0 < photonsPerThread n T := hP1
    have hd := congrArg (fun x => x / photonsPerThread n T) heq
    have hm := congrArg (fun x => x % photonsPerThread n T) heq
    simp only [Nat.add_mul_div_left _ _ hpos, Nat.div_eq_of_lt hc1, Nat.div_eq_of_lt hc2,
      Nat.zero_add] at hd
    simp only [Nat.add_mul_mod_self_left, Nat.mod_eq_of_lt hc1, Nat.mod_eq_of_lt hc2] at hm
    exact ⟨hd, hm⟩

/-- C9 (amended) at `n' = 12`, `T = 3` (so `P = 4`): thread 2 at `curr = 3`
uses index 11, the last one below 12. -/
theorem haltoncurr_disjoint_witness :
    photonsPerThread 12 3 = 4 ∧ haltoncurr 3 (photonsPerThread 12 3) 2 = 11 ∧
    ((∀ tid curr : ℕ, tid < 3 → curr < photonsPerThread 12 3 →
        haltoncurr curr (photonsPerThread 12 3) tid < 12 ∧
        0 ≤ lightSelectionSample (haltoncurr curr (photonsPerThread 12 3) tid) 12 ∧
        lightSelectionSample (haltoncurr curr (photonsPerThread 12 3) tid) 12 < 1 ∧
        0 ≤ lightSelectionSampleFloat (haltoncurr curr (photonsPerThread 12 3) tid) 12 ∧
        lightSelectionSampleFloat (haltoncurr curr (photonsPerThread 12 3) tid) 12 ≤ 1 ∧
        0 ≤ lightSelectionSampleInv (haltoncurr curr (photonsPerThread 12 3) tid) 12 ∧
        lightSelectionSampleInv (haltoncurr curr (photonsPerThread 12 3) tid) 12 ≤ 1) ∧
    (∀ tid1 curr1 tid2 curr2 : ℕ, tid1 < 3 → curr1 < photonsPerThread 12 3 →
        tid2 < 3 → curr2 < photonsPerThread 12 3 →
        haltoncurr curr1 (photonsPerThread 12 3) tid1 =
          haltoncurr curr2 (photonsPerThread 12 3) tid2 →
        tid1 = tid2 ∧ curr1 = curr2)) :=
  ⟨by decide, by decide,
    haltoncurr_disjoint 12 3 (by decide) (by decide) (by decide) (by decide)⟩

/-! ### Claims about the photons-shot accounting -/

theorem causticWorkerLoop_finishes (P tid pb_step : ℕ) (shoot : ℕ → PhotonOutcome)
    (canceled : ℕ → Bool)
    (hgood : ∀ c : ℕ, c < P → (shoot (haltoncurr c P tid)).processed = true)
    (hcan : ∀ c : ℕ, canceled c = false) :
    ∀ (fuel curr : ℕ) (buf : List Photon), curr < P → P - curr ≤ fuel →
      ∃ buf2 : List Photon,
        causticWorkerLoop P tid pb_step shoot canceled fuel curr buf =
          some (WorkerExit.finished buf2 P) := by
  intro fuel
  induction fuel with
  | zero => intro curr buf h1 h2; omega
  | succ fuel ih =>
    intro curr buf h1 h2
    have hg := hgood curr h1
    unfold causticWorkerLoop
    cases hs : shoot (haltoncurr curr P tid) with
    | lightError => rw [hs] at hg; exact absurd hg (by simp [PhotonOutcome.processed])
    | nan => rw [hs] at hg; exact absurd hg (by simp [PhotonOutcome.processed])
    | black =>
      simp only []
      by_cases hd : curr + 1 ≥ P
      · have : curr + 1 = P := by omega
        rw [if_pos hd, this]
        exact ⟨buf, rfl⟩
      · rw [if_neg hd]
        exact ih (curr + 1) buf (by omega) (by omega)
    | traced deposited =>
      simp only []
      have hc : ¬ ((curr + 1) % pb_step = 0 ∧ canceled (curr + 1) = true) := by
        rw [hcan]; simp
      rw [if_neg hc]
      by_cases hd : curr + 1 ≥ P
      · have : curr + 1 = P := by omega
        rw [if_pos hd, this]
        exact ⟨buf ++ deposited, rfl⟩
      · rw [if_neg hd]
        exact ih (curr + 1) (buf ++ deposited) (by omega) (by omega)

theorem joinWorkers_total (n T pb_step : ℕ) (shoot : ℕ → PhotonOutcome)
    (canceled : ℕ → ℕ → Bool) (fuel : ℕ)
    (hP : photonsPerThread n T * T = n) (h32 : n < 2 ^ 32)
    (hw : ∀ tid : ℕ, tid < T → ∃ buf : List Photon,
      causticWorker n T tid pb_step shoot (canceled tid) fuel =
        some (WorkerExit.finished buf (photonsPerThread n T))) :
    ∀ k : ℕ, k ≤ T → ∃ st : ShootState,
      joinWorkers n T pb_step shoot canceled fuel k = some st ∧
      st.total_photons_shot = k * photonsPerThread n T ∧
      st.append_calls.length = k ∧
      ∀ call ∈ st.append_calls, call.2 = photonsPerThread n T := by
  intro k
  induction k with
  | zero => intro _; exact ⟨⟨[], 0⟩, rfl, by simp, rfl, by simp⟩
  | succ k ih =>
    intro hk
    obtain ⟨st, h1, h2, h3, h4⟩ := ih (by omega)
    obtain ⟨buf, hb⟩ := hw k (by omega)
    have hle : (k + 1) * photonsPerThread n T ≤ photonsPerThread n T * T := by
      rw [Nat.mul_comm]; exact Nat.mul_le_mul_left _ hk
    refine ⟨st.join (WorkerExit.finished buf (photonsPerThread n T)), ?_, ?_, ?_, ?_⟩
    · simp only [joinWorkers, h1, hb]
    · simp only [ShootState.join, h2]
      rw [Nat.mod_eq_of_lt (by rw [Nat.add_mul, Nat.one_mul] at hle; omega)]
      rw [Nat.add_mul, Nat.one_mul]
    · simp [ShootState.join, h3]
    · intro call hcall
      simp only [ShootState.join, List.mem_append, List.mem_singleton] at hcall
      rcases hcall with h | h
      · exact h4 call h
      · rw [h]

/-- C10: photons-shot accounting. Let `n'` be the adjusted budget for a
requested count `n` and `T ≥ 1` threads, and `P = 1 + (n' - 1)/T`. When no
worker is cancelled, meets a light-index error or a NaN colour (every photon
is black or traced), every `causticWorker` given at least `P` iterations
leaves its loop with `curr = P` and passes `P` to `appendVector`; after the
join there were `T` calls of `appendVector`, each with path contribution `P`,
and `total_photons_shot = n' = T * P`. -/
theorem photons_shot_accounting (n T : ℕ) (shoot : ℕ → PhotonOutcome)
    (canceled : ℕ → ℕ → Bool) (fuel : ℕ)
    (hT : 1 ≤ T) (hT32 : T < 2 ^ 32) (hn : n < 2 ^ 32)
    (hgood : ∀ tid c : ℕ, tid < T →
      c < photonsPerThread (adjustedPhotonCount n T) T →
      (shoot (haltoncurr c (photonsPerThread (adjustedPhotonCount n T) T) tid)).processed
        = true)
    (hcan : ∀ tid c : ℕ, canceled tid c = false)
    (hfuel : photonsPerThread (adjustedPhotonCount n T) T ≤ fuel) :
    (∀ tid : ℕ, tid < T → ∃ buf : List Photon,
      causticWorker (adjustedPhotonCount n T) T tid (max 1 (n / 128)) shoot (canceled tid) fuel
        = some (WorkerExit.finished buf (photonsPerThread (adjustedPhotonCount n T) T))) ∧
    ∃ st : ShootState,
      shootCausticPhotons n T shoot canceled fuel = some (adjustedPhotonCount n T, st) ∧
      st.total_photons_shot = adjustedPhotonCount n T ∧
      adjustedPhotonCount n T = T * photonsPerThread (adjustedPhotonCount n T) T ∧
      st.append_calls.length = T ∧
      ∀ call ∈ st.append_calls, call.2 = photonsPerThread (adjustedPhotonCount n T) T := by
  obtain ⟨hdiv, hge, hle⟩ := adjustedPhotonCount_multiple n T hn
  have h32 : adjustedPhotonCount n T < 2 ^ 32 := lt_of_le_of_lt hle (max_lt hn hT32)
  obtain ⟨hP, hP1⟩ := photonsPerThread_mul (adjustedPhotonCount n T) T hT hdiv hge h32
  have hw : ∀ tid : ℕ, tid < T → ∃ buf : List Photon,
      causticWorker (adjustedPhotonCount n T) T tid (max 1 (n / 128)) shoot (canceled tid) fuel
        = some (WorkerExit.finished buf (photonsPerThread (adjustedPhotonCount n T) T)) := by
    intro tid htid
    unfold causticWorker
    exact causticWorkerLoop_finishes _ tid _ shoot (canceled tid)
      (fun c hc => hgood tid c htid hc) (hcan tid) fuel 0 [] (by omega) (by omega)
  refine ⟨hw, ?_⟩
  obtain ⟨st, h1, h2, h3, h4⟩ :=
    joinWorkers_total (adjustedPhotonCount n T) T (max 1 (n / 128)) shoot canceled fuel hP h32
      hw T (le_refl _)
  refine ⟨st, ?_, ?_, ?_, h3, h4⟩
  · simp only [shootCausticPhotons, h1]
  · rw [h2, Nat.mul_comm]; exact hP
  · rw [Nat.mul_comm]; exact hP.symm

/-- C10 at `n = 5` requested photons and `T = 2` threads (`n' = 4`, `P = 2`)
where every other photon is black: each worker still counts 2 photons, and
`total_photons_shot = 4`. -/
theorem photons_shot_accounting_witness :
    adjustedPhotonCount 5 2 = 4 ∧ photonsPerThread (adjustedPhotonCount 5 2) 2 = 2 ∧
    ((∀ tid : ℕ, tid < 2 → ∃ buf : List Photon,
      causticWorker (adjustedPhotonCount 5 2) 2 tid (max 1 (5 / 128)) exampleShoot
          ((fun _ _ => false) tid) 2
        = some (WorkerExit.finished buf (photonsPerThread (adjustedPhotonCount 5 2) 2))) ∧
    ∃ st : ShootState,
      shootCausticPhotons 5 2 exampleShoot (fun _ _ => false) 2 =
        some (adjustedPhotonCount 5 2, st) ∧
      st.total_photons_shot = adjustedPhotonCount 5 2 ∧
      adjustedPhotonCount 5 2 = 2 * photonsPerThread (adjustedPhotonCount 5 2) 2 ∧
      st.append_calls.length = 2 ∧
      ∀ call ∈ st.append_calls, call.2 = photonsPerThread (adjustedPhotonCount 5 2) 2) := by
  refine ⟨by decide, by decide,
    photons_shot_accounting 5 2 exampleShoot (fun _ _ => false) 2 (by decide) (by decide)
      (by decide) ?_ (fun _ _ => rfl) (by decide)⟩
  intro tid c _ _
  unfold exampleShoot
  split_ifs <;> rfl

/-- Without the `DiffuseNoShadow` layer the guard of `areaLightSampleLight`
does its work: one light sample adds to the divisor log only values above
`1e-6`. -/
theorem lightSampleStep_divisors_guarded (cfg : AreaLightSettings) (ptr : LightLayerPtrs)
    (acc : LightAccum) (inp : LightSampleInputs) (hd : ptr.diffuse_no_shadow = false)
    (hacc : ∀ d ∈ acc.pdf_divisors, d > pdfEpsilon) :
    ∀ d ∈ (lightSampleStep cfg ptr acc inp).pdf_divisors, d > pdfEpsilon := by
  unfold lightSampleStep
  by_cases hi : inp.illum_ok = true
  · simp only [hi, if_true]
    rw [(lightSampleIndexMask_logs _ _ _ _ _ _).2]
    unfold lightSampleShade
    by_cases hlit :
        (!(cfg.cast_shadows && inp.shadowed) && decide (inp.ls_pdf > pdfEpsilon)) = true
    · have hp : inp.ls_pdf > pdfEpsilon := by
        simp only [Bool.and_eq_true, decide_eq_true_eq] at hlit
        exact hlit.2
      simp only [hlit, Bool.true_or, if_true]
      intro d hmem
      have hor : d ∈ acc.pdf_divisors ∨ d = inp.ls_pdf := by
        split_ifs at hmem <;>
          simp only [List.mem_append, List.mem_singleton] at hmem <;> tauto
      rcases hor with h | h
      · exact hacc d h
      · rw [h]; exact hp
    · simp only [hlit, hd, Bool.or_false]
      exact hacc
  · simp only [hi]
    exact hacc

/-- Without the `DiffuseNoShadow` layer the guard of `areaLightSampleMaterial`
does its work: one BSDF sample adds to the divisor log only values above
`1e-6`. -/
theorem materialSampleStep_divisors_guarded (cfg : AreaLightSettings)
    (ptr : MaterialLayerPtrs) (acc : MaterialAccum) (inp : MaterialSampleInputs)
    (hd : ptr.diffuse_no_shadow = false)
    (hacc : ∀ d ∈ acc.pdf_divisors, d > pdfEpsilon) :
    ∀ d ∈ (materialSampleStep cfg ptr acc inp).pdf_divisors, d > pdfEpsilon := by
  unfold materialSampleStep
  by_cases hi : (decide (inp.s_pdf > pdfEpsilon) && inp.intersect_ok) = true
  · by_cases hlit :
        (!(cfg.cast_shadows && inp.shadowed) && decide (inp.light_pdf > pdfEpsilon)) = true
    · have hp : inp.light_pdf > pdfEpsilon := by
        simp only [Bool.and_eq_true, decide_eq_true_eq] at hlit
        exact hlit.2
      simp only [hi, hlit, Bool.true_or, if_true]
      intro d hmem
      simp only [List.mem_append, List.mem_singleton] at hmem
      rcases hmem with h | h
      · exact hacc d h
      · rw [h]; exact hp
    · simp only [hi, hlit, hd, Bool.or_false, if_true]
      exact hacc
  · simp only [hi]
    exact hacc

/-! ### Claims about failures, NaN photons and cancellation in the caustic map build -/

/-- The worker loop returns, one way or another, when no photon of its
partition has a NaN colour: every iteration then ends the loop or increments
`curr`. -/
theorem causticWorkerLoop_returns (P tid pb_step : ℕ) (shoot : ℕ → PhotonOutcome)
    (canceled : ℕ → Bool) (hnan : ∀ i : ℕ, shoot i ≠ PhotonOutcome.nan) :
    ∀ (fuel curr : ℕ) (buf : List Photon), P - curr ≤ fuel → 1 ≤ fuel →
      ∃ e : WorkerExit, causticWorkerLoop P tid pb_step shoot canceled fuel curr buf = some e := by
  intro fuel
  induction fuel with
  | zero => intro curr buf _ h2; omega
  | succ fuel ih =>
    intro curr buf h1 _
    unfold causticWorkerLoop
    cases hs : shoot (haltoncurr curr P tid) with
    | lightError => exact ⟨_, rfl⟩
    | nan => exact absurd hs (hnan _)
    | black =>
      simp only []
      by_cases hd : curr + 1 ≥ P
      · rw [if_pos hd]; exact ⟨_, rfl⟩
      · rw [if_neg hd]
        exact ih (curr + 1) buf (by omega) (by omega)
    | traced deposited =>
      simp only []
      by_cases hc : (curr + 1) % pb_step = 0 ∧ canceled (curr + 1) = true
      · rw [if_pos hc]; exact ⟨_, rfl⟩
      · rw [if_neg hc]
        by_cases hd : curr + 1 ≥ P
        · rw [if_pos hd]; exact ⟨_, rfl⟩
        · rw [if_neg hd]
          exact ih (curr + 1) (buf ++ deposited) (by omega) (by omega)

theorem joinWorkers_returns (n T pb_step : ℕ) (shoot : ℕ → PhotonOutcome)
    (canceled : ℕ → ℕ → Bool) (fuel : ℕ)
    (hw : ∀ tid : ℕ, ∃ e : WorkerExit,
      causticWorker n T tid pb_step shoot (canceled tid) fuel = some e) :
    ∀ k : ℕ, ∃ st : ShootState, joinWorkers n T pb_step shoot canceled fuel k = some st := by
  intro k
  induction k with
  | zero => exact ⟨_, rfl⟩
  | succ k ih =>
    obtain ⟨st, hst⟩ := ih
    obtain ⟨e, he⟩ := hw k
    exact ⟨st.join e, by simp only [joinWorkers, hst, he]⟩

/-- The generation part of `createCausticMap` returns, with success, the
requested mode, the map cleared and (when there is a caustic light) one worker
per thread, whenever no photon has a NaN colour and the workers get at least
one iteration per photon of their partition. -/
theorem generateCausticMap_returns (mode : PhotonMapProcessing) (caustic_map_ : PhotonMap)
    (n T num_lights : ℕ) (shoot : ℕ → PhotonOutcome) (canceled : ℕ → ℕ → Bool) (fuel : ℕ)
    (hnan : ∀ i : ℕ, shoot i ≠ PhotonOutcome.nan)
    (hfuel : photonsPerThread (adjustedPhotonCount n T) T ≤ fuel) (hfuel1 : 1 ≤ fuel) :
    ∃ run : CausticMapRun,
      generateCausticMap mode caustic_map_ n T num_lights shoot canceled fuel = some run ∧
      run.success = true ∧ run.photon_map_processing_ = mode ∧ run.cleared = true ∧
      run.workers_started = (if num_lights > 0 then T else 0) := by
  unfold generateCausticMap
  by_cases hl : num_lights > 0
  · have hw : ∀ tid : ℕ, ∃ e : WorkerExit,
        causticWorker (adjustedPhotonCount n T) T tid (max 1 (n / 128)) shoot (canceled tid) fuel
          = some e := by
      intro tid
      unfold causticWorker
      exact causticWorkerLoop_returns _ tid _ shoot (canceled tid) hnan fuel 0 [] (by omega)
        hfuel1
    obtain ⟨st, hst⟩ := joinWorkers_returns (adjustedPhotonCount n T) T (max 1 (n / 128)) shoot
      canceled fuel hw T
    simp only [hl, if_true, shootCausticPhotons, hst]
    exact ⟨_, rfl, rfl, rfl, rfl, rfl⟩
  · simp only [hl, if_false]
    exact ⟨_, rfl, rfl, rfl, rfl, rfl⟩

/-- The generation part of `createCausticMap` does not look at what the map
held before: it starts from the cleared map with path count 0. -/
theorem generateCausticMap_from_scratch (mode : PhotonMapProcessing) (caustic_map_ : PhotonMap)
    (n T num_lights : ℕ) (shoot : ℕ → PhotonOutcome) (canceled : ℕ → ℕ → Bool) (fuel : ℕ) :
    generateCausticMap mode caustic_map_ n T num_lights shoot canceled fuel =
      generateCausticMap mode emptyPhotonMap n T num_lights shoot canceled fuel := by
  rfl

/-- C11, the code at a failing input: 4 photons, 2 threads, one caustic light
and a light distribution that samples an out-of-range index for every photon.
Both workers return at their first photon, and `createCausticMap` still
returns `true`, with an empty map and no photon counted. -/
theorem light_index_error_reported_as_success :
    causticWorker 4 2 0 1 lightErrorShoot (fun _ => false) 2 = some WorkerExit.aborted ∧
    causticWorker 4 2 1 1 lightErrorShoot (fun _ => false) 2 = some WorkerExit.aborted ∧
    (createCausticMap PhotonMapProcessing.PhotonsGenerateOnly emptyPhotonMap 4 2 none 1
        lightErrorShoot (fun _ _ => false) 2).map
      (fun run => (run.success, run.caustic_map_, run.total_photons_shot)) =
      some (true, emptyPhotonMap, 0) := by
  refine ⟨rfl, rfl, ?_⟩
  decide

/-- C12, the code at a failing input: 4 photons on 2 threads, the photon of
sample index 0 has a NaN colour. Worker 0 takes the `continue` of the NaN
branch with `curr` still 0 and meets the same photon again: whatever the number
of iterations it is given, it has not left its loop. -/
theorem nan_photon_stalls_worker (fuel : ℕ) :
    causticWorker 4 2 0 1 nanFirstShoot (fun _ => false) fuel = none := by
  have hP : photonsPerThread 4 2 = 2 := by decide
  unfold causticWorker
  rw [hP]
  induction fuel with
  | zero => rfl
  | succ fuel ih =>
    unfold causticWorkerLoop
    have h0 : nanFirstShoot (haltoncurr 0 2 0) = PhotonOutcome.nan := rfl
    rw [h0]
    exact ih

/-- C13, the code at a failing input: 4 photons, 2 threads, every photon is
traced and `render_control_.canceled()` answers `true`. Both workers return at
their first progress check without merging, and `createCausticMap` still
returns `true`, with an empty map. -/
theorem cancellation_reported_as_success :
    causticWorker 4 2 0 1 tracedShoot (fun _ => true) 2 = some WorkerExit.aborted ∧
    causticWorker 4 2 1 1 tracedShoot (fun _ => true) 2 = some WorkerExit.aborted ∧
    (createCausticMap PhotonMapProcessing.PhotonsGenerateOnly emptyPhotonMap 4 2 none 1
        tracedShoot (fun _ _ => true) 2).map
      (fun run => (run.success, run.caustic_map_, run.total_photons_shot)) =
      some (true, emptyPhotonMap, 0) := by
  refine ⟨rfl, rfl, ?_⟩
  decide

/-! ### Claims about the load and reuse modes of `createCausticMap` -/

theorem exampleShoot_not_nan (i : ℕ) : exampleShoot i ≠ PhotonOutcome.nan := by
  unfold exampleShoot
  split_ifs <;> simp

/-- Load fallback without NaN photons. In mode `PhotonsLoad`: when
`caustic_map_->load` fails,
`createCausticMap` changes the mode to `PhotonsGenerateAndSave`, clears the map
and regenerates it (it does exactly what a call in mode
`PhotonsGenerateAndSave` on an empty map does: one worker per thread when
there is a caustic light); when `load` succeeds it returns `true` at once, the
mode still `PhotonsLoad`, the map the loaded one, nothing cleared and no worker
started. `photonIntegrator_t::preprocess` likewise switches to
`PHOTONS_GENERATE_AND_SAVE` when an enabled map fails to load. Termination of
the regeneration is shown for photons without NaN colour and workers given one
iteration per photon of their partition. -/
theorem load_fallback (caustic_map_ loaded : PhotonMap) (n T num_lights : ℕ)
    (shoot : ℕ → PhotonOutcome) (canceled : ℕ → ℕ → Bool) (fuel : ℕ)
    (hnan : ∀ i : ℕ, shoot i ≠ PhotonOutcome.nan)
    (hfuel : photonsPerThread (adjustedPhotonCount n T) T ≤ fuel) (hfuel1 : 1 ≤ fuel) :
    (∃ run : CausticMapRun,
      createCausticMap PhotonMapProcessing.PhotonsLoad caustic_map_ n T none num_lights shoot
        canceled fuel = some run ∧
      run.success = true ∧
      run.photon_map_processing_ = PhotonMapProcessing.PhotonsGenerateAndSave ∧
      run.cleared = true ∧
      run.workers_started = (if num_lights > 0 then T else 0) ∧
      createCausticMap PhotonMapProcessing.PhotonsGenerateAndSave emptyPhotonMap n T none
        num_lights shoot canceled fuel = some run) ∧
    createCausticMap PhotonMapProcessing.PhotonsLoad caustic_map_ n T (some loaded) num_lights
        shoot canceled fuel =
      some ⟨true, PhotonMapProcessing.PhotonsLoad, loaded, n, 0, false, 0, false⟩ ∧
    (∀ usePhotonCaustics usePhotonDiffuse finalGather caustic_loads diffuse_loads
        radiance_loads : Bool,
      ((usePhotonCaustics && !caustic_loads) || (usePhotonDiffuse && !diffuse_loads) ||
        ((usePhotonDiffuse && finalGather) && !radiance_loads)) = true →
      preprocessLoadMode usePhotonCaustics usePhotonDiffuse finalGather caustic_loads
        diffuse_loads radiance_loads = PhotonMapProcessing.PhotonsGenerateAndSave) := by
  refine ⟨?_, rfl, ?_⟩
  · obtain ⟨run, h1, h2, h3, h4, h5⟩ :=
      generateCausticMap_returns PhotonMapProcessing.PhotonsGenerateAndSave caustic_map_ n T
        num_lights shoot canceled fuel hnan hfuel hfuel1
    have e1 : createCausticMap PhotonMapProcessing.PhotonsLoad caustic_map_ n T none num_lights
        shoot canceled fuel =
        generateCausticMap PhotonMapProcessing.PhotonsGenerateAndSave caustic_map_ n T
          num_lights shoot canceled fuel := rfl
    have e2 : createCausticMap PhotonMapProcessing.PhotonsGenerateAndSave emptyPhotonMap n T
        none num_lights shoot canceled fuel =
        generateCausticMap PhotonMapProcessing.PhotonsGenerateAndSave emptyPhotonMap n T
          num_lights shoot canceled fuel := rfl
    refine ⟨run, ?_, h2, h3, h4, h5, ?_⟩
    · rw [e1]; exact h1
    · rw [e2, ← generateCausticMap_from_scratch]; exact h1
  · intro a b c d e f h
    unfold preprocessLoadMode
    simp only [h, if_true]

/-- Load fallback with 4 photons, 2 threads, one caustic light, no NaN photon
and a map that held one photon: after a failed load the run ends in mode `PhotonsGenerateAndSave` with
the map regenerated by 2 workers; after a successful load the loaded map is
returned untouched in mode `PhotonsLoad`. -/
theorem load_fallback_witness :
    (∃ run : CausticMapRun,
      createCausticMap PhotonMapProcessing.PhotonsLoad onePhotonMap 4 2 none 1 exampleShoot
        (fun _ _ => false) 2 = some run ∧
      run.success = true ∧
      run.photon_map_processing_ = PhotonMapProcessing.PhotonsGenerateAndSave ∧
      run.cleared = true ∧
      run.workers_started = (if 1 > 0 then 2 else 0) ∧
      createCausticMap PhotonMapProcessing.PhotonsGenerateAndSave emptyPhotonMap 4 2 none
        1 exampleShoot (fun _ _ => false) 2 = some run) ∧
    createCausticMap PhotonMapProcessing.PhotonsLoad onePhotonMap 4 2 (some onePhotonMap) 1
        exampleShoot (fun _ _ => false) 2 =
      some ⟨true, PhotonMapProcessing.PhotonsLoad, onePhotonMap, 4, 0, false, 0, false⟩ :=
  ⟨(load_fallback onePhotonMap onePhotonMap 4 2 1 exampleShoot (fun _ _ => false) 2
      exampleShoot_not_nan (by decide) (by decide)).1,
    (load_fallback onePhotonMap onePhotonMap 4 2 1 exampleShoot (fun _ _ => false) 2
      exampleShoot_not_nan (by decide) (by decide)).2.1⟩

/-- Reuse fallback without NaN photons. In mode `PhotonsReuse`: when the
caustic map holds 0 photons, `createCausticMap` changes the mode to `PhotonsGenerateOnly`, clears
the map and regenerates it (it does exactly what a call in mode
`PhotonsGenerateOnly` on an empty map does); when the map holds at least one
photon it returns `true` with the mode still `PhotonsReuse` and the map
(photons and path count) untouched, nothing cleared and no worker started.
Termination of the regeneration is shown for photons without NaN colour and
workers given one iteration per photon of their partition. -/
theorem reuse_fallback (caustic_map_ : PhotonMap) (load : Option PhotonMap)
    (n T num_lights : ℕ) (shoot : ℕ → PhotonOutcome) (canceled : ℕ → ℕ → Bool) (fuel : ℕ)
    (hnan : ∀ i : ℕ, shoot i ≠ PhotonOutcome.nan)
    (hfuel : photonsPerThread (adjustedPhotonCount n T) T ≤ fuel) (hfuel1 : 1 ≤ fuel) :
    (caustic_map_.nPhotons = 0 →
      ∃ run : CausticMapRun,
        createCausticMap PhotonMapProcessing.PhotonsReuse caustic_map_ n T load num_lights
          shoot canceled fuel = some run ∧
        run.success = true ∧
        run.photon_map_processing_ = PhotonMapProcessing.PhotonsGenerateOnly ∧
        run.cleared = true ∧
        run.workers_started = (if num_lights > 0 then T else 0) ∧
        createCausticMap PhotonMapProcessing.PhotonsGenerateOnly emptyPhotonMap n T none
          num_lights shoot canceled fuel = some run) ∧
    (1 ≤ caustic_map_.nPhotons →
      createCausticMap PhotonMapProcessing.PhotonsReuse caustic_map_ n T load num_lights
          shoot canceled fuel =
        some ⟨true, PhotonMapProcessing.PhotonsReuse, caustic_map_, n, 0, false, 0, false⟩) := by
  constructor
  · intro h0
    obtain ⟨run, h1, h2, h3, h4, h5⟩ :=
      generateCausticMap_returns PhotonMapProcessing.PhotonsGenerateOnly caustic_map_ n T
        num_lights shoot canceled fuel hnan hfuel hfuel1
    have e1 : createCausticMap PhotonMapProcessing.PhotonsReuse caustic_map_ n T load
        num_lights shoot canceled fuel =
        generateCausticMap PhotonMapProcessing.PhotonsGenerateOnly caustic_map_ n T
          num_lights shoot canceled fuel := by
      simp [createCausticMap, h0]
    have e2 : createCausticMap PhotonMapProcessing.PhotonsGenerateOnly emptyPhotonMap n T
        none num_lights shoot canceled fuel =
        generateCausticMap PhotonMapProcessing.PhotonsGenerateOnly emptyPhotonMap n T
          num_lights shoot canceled fuel := rfl
    refine ⟨run, ?_, h2, h3, h4, h5, ?_⟩
    · rw [e1]; exact h1
    · rw [e2, ← generateCausticMap_from_scratch]; exact h1
  · intro h1
    have hne : caustic_map_.nPhotons ≠ 0 := by omega
    simp [createCausticMap, hne]

/-- Reuse fallback with 4 photons, 2 threads, one caustic light and no NaN
photon: an empty map is
regenerated in mode `PhotonsGenerateOnly`, a map with one photon is returned
untouched in mode `PhotonsReuse`. -/
theorem reuse_fallback_witness :
    (∃ run : CausticMapRun,
        createCausticMap PhotonMapProcessing.PhotonsReuse emptyPhotonMap 4 2 none 1
          exampleShoot (fun _ _ => false) 2 = some run ∧
        run.success = true ∧
        run.photon_map_processing_ = PhotonMapProcessing.PhotonsGenerateOnly ∧
        run.cleared = true ∧
        run.workers_started = (if 1 > 0 then 2 else 0) ∧
        createCausticMap PhotonMapProcessing.PhotonsGenerateOnly emptyPhotonMap 4 2 none
          1 exampleShoot (fun _ _ => false) 2 = some run) ∧
    createCausticMap PhotonMapProcessing.PhotonsReuse onePhotonMap 4 2 none 1
        exampleShoot (fun _ _ => false) 2 =
      some ⟨true, PhotonMapProcessing.PhotonsReuse, onePhotonMap, 4, 0, false, 0, false⟩ :=
  ⟨(reuse_fallback emptyPhotonMap none 4 2 1 exampleShoot (fun _ _ => false) 2
      exampleShoot_not_nan (by decide) (by decide)).1 rfl,
    (reuse_fallback onePhotonMap none 4 2 1 exampleShoot (fun _ _ => false) 2
      exampleShoot_not_nan (by decide) (by decide)).2 (by decide)⟩

/-! ### Claims about the caustic flag of a photon path -/

theorem flagsAfter_snoc (bs : List BsdfFlags) (f : BsdfFlags) :
    flagsAfter (bs ++ [f]) = causticFlagUpdate f (flagsAfter bs).1 (flagsAfter bs).2 := by
  unfold flagsAfter
  rw [List.foldl_append]
  rfl

theorem getD_snoc_last (bs : List BsdfFlags) (f : BsdfFlags) :
    (bs ++ [f]).getD bs.length [] = f := by
  rw [List.getD_append_right _ _ _ _ (le_refl _)]
  simp

/-- The flag `direct_photon` is true exactly while every bounce so far sampled
a filter lobe. -/
theorem flagsAfter_direct_iff (bs : List BsdfFlags) :
    (flagsAfter bs).2 = true ↔
      ∀ i : ℕ, i < bs.length → hasAny (bs.getD i []) [Bsdf.Filter] = true := by
  induction bs using List.reverseRecOn with
  | nil => simp [flagsAfter]
  | append_singleton bs f ih =>
    rw [flagsAfter_snoc]
    simp only [causticFlagUpdate, Bool.and_eq_true, List.length_append, List.length_singleton]
    constructor
    · rintro ⟨hf, hd⟩ i hi
      rcases Nat.lt_or_ge i bs.length with h | h
      · rw [List.getD_append _ _ _ _ h]; exact ih.mp hd i h
      · have : i = bs.length := by omega
        rw [this, getD_snoc_last]; exact hf
    · intro h
      constructor
      · have := h bs.length (by omega)
        rw [getD_snoc_last] at this; exact this
      · refine ih.mpr (fun i hi => ?_)
        have := h i (by omega)
        rw [List.getD_append _ _ _ _ hi] at this; exact this

/-- The flag `caustic_photon` is true exactly on the caustic paths. -/
theorem flagsAfter_caustic_iff (bs : List BsdfFlags) :
    (flagsAfter bs).1 = true ↔ CausticPath bs := by
  induction bs using List.reverseRecOn with
  | nil =>
    simp only [flagsAfter, List.foldl_nil, CausticPath, List.length_nil]
    constructor
    · intro h; exact absurd h (by simp)
    · rintro ⟨j, hj, _⟩; omega
  | append_singleton bs f ih =>
    rw [flagsAfter_snoc]
    simp only [causticFlagUpdate, Bool.or_eq_true, Bool.and_eq_true]
    constructor
    · rintro (⟨hg, hd⟩ | ⟨hg, hc⟩)
      · refine ⟨bs.length, by simp, ?_, ?_, ?_⟩
        · intro i hi
          rw [List.getD_append _ _ _ _ hi]
          exact (flagsAfter_direct_iff bs).mp hd i hi
        · rw [getD_snoc_last]; exact hg
        · intro i hi hji
          simp only [List.length_append, List.length_singleton] at hi
          omega
      · obtain ⟨j, hj, h1, h2, h3⟩ := ih.mp hc
        refine ⟨j, by simp; omega, ?_, ?_, ?_⟩
        · intro i hi
          rw [List.getD_append _ _ _ _ (by omega)]
          exact h1 i hi
        · rw [List.getD_append _ _ _ _ hj]; exact h2
        · intro i hi hji
          simp only [List.length_append, List.length_singleton] at hi
          rcases Nat.lt_or_ge i bs.length with h | h
          · rw [List.getD_append _ _ _ _ h]; exact h3 i h hji
          · have : i = bs.length := by omega
            rw [this, getD_snoc_last]; exact hg
    · rintro ⟨j, hj, h1, h2, h3⟩
      simp only [List.length_append, List.length_singleton] at hj
      rcases Nat.lt_or_ge j bs.length with h | h
      · right
        constructor
        · have := h3 bs.length (by simp) h
          rw [getD_snoc_last] at this; exact this
        · refine ih.mpr ⟨j, h, ?_, ?_, ?_⟩
          · intro i hi
            have := h1 i hi
            rw [List.getD_append _ _ _ _ (by omega)] at this; exact this
          · rw [List.getD_append _ _ _ _ h] at h2; exact h2
          · intro i hi hji
            have := h3 i (by simp; omega) hji
            rw [List.getD_append _ _ _ _ hi] at this; exact this
      · have hjl : j = bs.length := by omega
        left
        constructor
        · rw [hjl, getD_snoc_last] at h2; exact h2
        · refine (flagsAfter_direct_iff bs).mpr (fun i hi => ?_)
          have := h1 i (by omega)
          rw [List.getD_append _ _ _ _ hi] at this; exact this

theorem depositStep_inv (h : PhotonHit) (st : TraceState) (hinv : TraceInv st) :
    TraceInv (depositStep h st) := by
  obtain ⟨h1, h2, h3, h4⟩ := hinv
  unfold depositStep
  by_cases hc : (hasAny h.mat_bsdfs [Bsdf.Diffuse, Bsdf.Glossy] && st.caustic_photon) = true
  · rw [if_pos hc]
    refine ⟨h1, h2, ?_, ?_⟩
    · intro d hd
      simp only [List.mem_append, List.mem_singleton] at hd
      rcases hd with hd | hd
      · exact h3 d hd
      · rw [hd, ← h1]
        simp only [Bool.and_eq_true] at hc
        exact hc.2
    · simp only [List.length_append, List.length_singleton, h4]
  · rw [if_neg hc]
    exact ⟨h1, h2, h3, h4⟩

theorem scatterStep_inv (h : PhotonHit) (st : TraceState) (hinv : TraceInv st) :
    TraceInv (scatterStep h st) := by
  obtain ⟨h1, h2, h3, h4⟩ := hinv
  unfold scatterStep
  refine ⟨?_, ?_, h3, h4⟩
  · simp only [flagsAfter_snoc, h1, h2]
  · simp only [flagsAfter_snoc, h1, h2]

theorem advanceStep_inv (wl_rgb : Rgb) (h : PhotonHit) (st : TraceState) (hinv : TraceInv st) :
    TraceInv (advanceStep wl_rgb h st) := by
  obtain ⟨h1, h2, h3, h4⟩ := hinv
  unfold advanceStep
  split_ifs
  · exact ⟨h1, h2, h3, h4⟩
  · exact ⟨h1, h2, h3, h4⟩

theorem tracePhoton_inv (caus_depth_ : ℤ) (wl_rgb : Rgb) (hits : List PhotonHit) :
    ∀ st : TraceState, TraceInv st → TraceInv (tracePhoton caus_depth_ wl_rgb hits st) := by
  induction hits with
  | nil => intro st hinv; exact hinv
  | cons h rest ih =>
    intro st hinv
    unfold tracePhoton
    simp only []
    have i1 := depositStep_inv h st hinv
    have i2 := scatterStep_inv h _ i1
    split_ifs
    · exact i1
    · exact i2
    · exact ih _ (advanceStep_inv wl_rgb h _ i2)

theorem causticPath_has_caustic_bounce (bs : List BsdfFlags) (h : CausticPath bs) :
    ∃ f ∈ bs, hasAny f [Bsdf.Glossy, Bsdf.Specular, Bsdf.Dispersive] = true := by
  obtain ⟨j, hj, _, h2, _⟩ := h
  rw [List.getD_eq_getElem _ _ hj] at h2
  exact ⟨bs[j], List.getElem_mem _, h2⟩

/-- C14: caustic flag characterisation in `causticWorker`. Along every photon
path, with `sampled` the lobes sampled at its scattered bounces so far,
`caustic_photon` is true iff some bounce `j` sampled a Glossy, Specular or
Dispersive lobe, every bounce before `j` a Filter lobe and every bounce after
`j` a Glossy, Specular, Filter or Dispersive lobe. In particular a path whose
bounces sampled none of Glossy, Specular, Dispersive (only diffuse lobes) is
not flagged caustic, and every photon is deposited after a caustic sequence of
at least one bounce, so none at the first hit of a path. -/
theorem caustic_flag_characterisation (caus_depth_ : ℤ) (wl_rgb pcol : Rgb)
    (hits : List PhotonHit) :
    ((tracePhoton caus_depth_ wl_rgb hits (TraceState.start pcol)).caustic_photon = true ↔
      CausticPath (tracePhoton caus_depth_ wl_rgb hits (TraceState.start pcol)).sampled) ∧
    ((∀ f ∈ (tracePhoton caus_depth_ wl_rgb hits (TraceState.start pcol)).sampled,
        hasAny f [Bsdf.Glossy, Bsdf.Specular, Bsdf.Dispersive] = false) →
      (tracePhoton caus_depth_ wl_rgb hits (TraceState.start pcol)).caustic_photon = false) ∧
    (∀ d ∈ (tracePhoton caus_depth_ wl_rgb hits (TraceState.start pcol)).deposit_log,
      CausticPath d ∧ 1 ≤ d.length) ∧
    (tracePhoton caus_depth_ wl_rgb hits (TraceState.start pcol)).local_caustic_photons.length =
      (tracePhoton caus_depth_ wl_rgb hits (TraceState.start pcol)).deposit_log.length := by
  have hstart : TraceInv (TraceState.start pcol) := by
    refine ⟨rfl, rfl, ?_, rfl⟩
    intro d hd
    simp [TraceState.start] at hd
  obtain ⟨h1, _, h3, h4⟩ := tracePhoton_inv caus_depth_ wl_rgb hits _ hstart
  have hiff : (tracePhoton caus_depth_ wl_rgb hits (TraceState.start pcol)).caustic_photon = true ↔
      CausticPath (tracePhoton caus_depth_ wl_rgb hits (TraceState.start pcol)).sampled := by
    rw [h1]; exact flagsAfter_caustic_iff _
  refine ⟨hiff, ?_, ?_, h4⟩
  · intro hall
    cases hc : (tracePhoton caus_depth_ wl_rgb hits (TraceState.start pcol)).caustic_photon
    · rfl
    · obtain ⟨f, hf, hg⟩ := causticPath_has_caustic_bounce _ (hiff.mp hc)
      rw [hall f hf] at hg
      exact absurd hg (by simp)
  · intro d hd
    have hcp := (flagsAfter_caustic_iff d).mp (h3 d hd)
    refine ⟨hcp, ?_⟩
    obtain ⟨j, hj, _⟩ := hcp
    omega

/-- C14 on the example path (a specular bounce, then a diffuse surface): the
flag is true after the bounce, the path is a caustic path, and its one photon
is deposited at the second hit. -/
theorem caustic_flag_characterisation_example :
    (tracePhoton 4 Rgb.white examplePhotonPath (TraceState.start Rgb.white)).caustic_photon
      = true ∧
    (tracePhoton 4 Rgb.white examplePhotonPath (TraceState.start Rgb.white)).deposit_log
      = [[[Bsdf.Specular]]] ∧
    CausticPath
      (tracePhoton 4 Rgb.white examplePhotonPath (TraceState.start Rgb.white)).sampled := by
  have h1 : (tracePhoton 4 Rgb.white examplePhotonPath
      (TraceState.start Rgb.white)).caustic_photon = true := by decide
  exact ⟨h1, by decide,
    (caustic_flag_characterisation 4 Rgb.white Rgb.white examplePhotonPath).1.mp h1⟩

/-! ### Claims about the caustic estimate and the light selection -/

theorem Rgb.scale_one_div (c : Rgb) (p : ℚ) : c.scale (1 / p) = c.divide p := by
  unfold Rgb.scale Rgb.divide
  simp only [mul_one_div]

theorem foldl_add_replicate (g : FoundPhoton → Rgb) (acc : Rgb) (a : FoundPhoton) (n : ℕ) :
    (List.replicate n a).foldl (fun sum fp => sum.add (g fp)) acc =
      acc.add ((g a).scale (n : ℚ)) := by
  induction n generalizing acc with
  | zero =>
    simp only [List.replicate, List.foldl_nil, Rgb.add, Rgb.scale, Nat.cast_zero, mul_zero,
      add_zero]
  | succ n ih =>
    simp only [List.replicate, List.foldl_cons]
    rw [ih]
    simp only [Rgb.add, Rgb.scale, Nat.cast_succ, Rgb.mk.injEq]
    refine ⟨?_, ?_, ?_⟩ <;> ring

/-- C17: density normalisation in `estimateCausticPhotons`. When the map is
ready and at least one photon is gathered, the result is the sum over the
gathered photons of `eval(sp, wo, dir_i) * kernel(dist_i^2, 1/r^2) * color_i`
divided by the map's path count `nPaths()` (`r^2` being the squared radius as
`gather` leaves it); the photon count of the map does not enter. The result is
black when the map is not ready or nothing is gathered. For `N ≥ 1` photons of
one colour `c` and direction at the query point the result is
`N * eval * kernel(0, 1/r^2) * c / nPaths`. -/
theorem caustic_estimate_divides_by_paths (caustic_map : PhotonMap) (caustic_radius : ℚ)
    (gather : ℚ → List FoundPhoton × ℚ) (eval : Point3 → Rgb) (kernel : ℚ → ℚ → ℚ) :
    (caustic_map.ready = true → (gather (caustic_radius * caustic_radius)).1 ≠ [] →
      estimateCausticPhotons caustic_map caustic_radius gather eval kernel =
        (photonSum eval kernel (1 / (gather (caustic_radius * caustic_radius)).2)
          (gather (caustic_radius * caustic_radius)).1).divide (caustic_map.nPaths : ℚ)) ∧
    (caustic_map.ready = false →
      estimateCausticPhotons caustic_map caustic_radius gather eval kernel = Rgb.black) ∧
    ((gather (caustic_radius * caustic_radius)).1 = [] →
      estimateCausticPhotons caustic_map caustic_radius gather eval kernel = Rgb.black) ∧
    (∀ (photons : List Photon),
      estimateCausticPhotons { caustic_map with photons_ := photons } caustic_radius gather eval
          kernel =
        estimateCausticPhotons caustic_map caustic_radius gather eval kernel) ∧
    (∀ (N : ℕ) (ph : Photon), 1 ≤ N → caustic_map.ready = true →
      estimateCausticPhotons caustic_map caustic_radius
          (fun g => (List.replicate N ⟨ph, 0⟩, g)) eval kernel =
        ((((eval ph.dir_).scale (kernel 0 (1 / (caustic_radius * caustic_radius)))).mul
          ph.c_).scale (N : ℚ)).divide (caustic_map.nPaths : ℚ)) := by
  refine ⟨?_, ?_, ?_, ?_, ?_⟩
  · intro hr hg
    have hlen : (gather (caustic_radius * caustic_radius)).1.length > 0 :=
      List.length_pos.mpr hg
    simp only [estimateCausticPhotons, hr, Bool.not_true, hlen, if_true]
    rw [Rgb.scale_one_div]
    rfl
  · intro hr
    simp only [estimateCausticPhotons, hr, Bool.not_false, if_true]
  · intro hg
    simp [estimateCausticPhotons, hg]
  · intro photons
    rfl
  · intro N ph hN hr
    have hlen : (List.replicate N (⟨ph, 0⟩ : FoundPhoton)).length > 0 := by
      rw [List.length_replicate]; omega
    simp only [estimateCausticPhotons, hr, Bool.not_true, hlen, if_true, Bool.false_eq_true,
      if_false]
    rw [Rgb.scale_one_div]
    unfold photonSum
    rw [foldl_add_replicate (fun fp => ((eval fp.photon_.dir_).scale
      (kernel fp.dist_square_ (1 / (caustic_radius * caustic_radius)))).mul fp.photon_.c_)]
    simp only [Rgb.add, Rgb.black, zero_add]

/-- C17 at the specification's example: 3 photons of colour white at the query
point in a map built from 2 paths, radius 1, white `eval`: every channel of the
estimate is `3 * kernel(0, 1) / 2 = 9/2`, not `3 * kernel(0, 1) / 3`. -/
theorem caustic_estimate_divides_by_paths_witness :
    estimateCausticPhotons threePhotonMap 1 (exampleGather 3) (fun _ => Rgb.white)
      exampleKernel = ⟨9 / 2, 9 / 2, 9 / 2⟩ := by
  have h := (caustic_estimate_divides_by_paths threePhotonMap 1 (exampleGather 3)
    (fun _ => Rgb.white) exampleKernel).2.2.2.2 3 examplePhoton (by decide) rfl
  have e : (fun g : ℚ => ((List.replicate 3 (⟨examplePhoton, 0⟩ : FoundPhoton)), g)) =
      exampleGather 3 := rfl
  rw [e] at h
  rw [h]
  norm_num [Rgb.scale, Rgb.mul, Rgb.divide, Rgb.white, exampleKernel, examplePhoton,
    threePhotonMap, PhotonMap.nPaths]

theorem drawPairs_spec (lds : ℕ → ℕ → ℚ) (n : ℕ) :
    ∀ hal_2 hal_3 : Halton,
      (drawPairs lds n hal_2 hal_3).1.length = n ∧
      (drawPairs lds n hal_2 hal_3).2.1.base_ = hal_2.base_ ∧
      (drawPairs lds n hal_2 hal_3).2.2.base_ = hal_3.base_ := by
  induction n with
  | zero => intro a b; exact ⟨rfl, rfl, rfl⟩
  | succ n ih =>
    intro a b
    obtain ⟨h1, h2, h3⟩ := ih (a.getNext lds).2 (b.getNext lds).2
    simp only [drawPairs, List.length_cons, h1, h2, h3]
    exact ⟨trivial, rfl, rfl⟩

theorem Halton.setStart_eq (h : Halton) (i : ℕ) : h.setStart i = ⟨h.base_, i⟩ := rfl

/-- C19: re-seeding in `doLightEstimation`. For an area light the base-2 and
base-3 cursors handed to `areaLightSampleLight` and those handed to
`areaLightSampleMaterial` all stand at the same index `offs - 1`, with
`offs = num_samples * pixel sample + sampling offset + light index *
loffs_delta_` (unsigned 32-bit); the light pass draws `num_samples` pairs, and
the pairs `(s_1, s_2)` drawn by the BSDF pass (which draws when the light can
be intersected) are, one by one, those drawn by the light pass. -/
theorem doLightEstimation_reseeds (lds : ℕ → ℕ → ℚ) (cfg : AreaLightSettings)
    (color_layers : Option ColorLayers) (p : LightEstimationParams)
    (illum : ℚ × ℚ → LightSampleInputs) (bsdf : ℚ × ℚ → MaterialSampleInputs) :
    (doLightEstimation lds cfg color_layers p illum bsdf).light_cursors =
      (⟨2, p.start⟩, ⟨3, p.start⟩) ∧
    (doLightEstimation lds cfg color_layers p illum bsdf).material_cursors =
      (⟨2, p.start⟩, ⟨3, p.start⟩) ∧
    p.start = (p.offs + 2 ^ 32 - 1) % 2 ^ 32 ∧
    p.offs = (p.numSamplesUnsigned * p.sample_ + p.offset_ +
      (p.loffs * p.loffs_delta_) % 2 ^ 32) % 2 ^ 32 ∧
    (doLightEstimation lds cfg color_layers p illum bsdf).light_draws.length =
      p.numSamplesUnsigned ∧
    (cfg.can_intersect = true →
      ∀ i : ℕ, i < p.numSamplesUnsigned →
        (doLightEstimation lds cfg color_layers p illum bsdf).material_draws[i]? =
          (doLightEstimation lds cfg color_layers p illum bsdf).light_draws[i]? ∧
        ((doLightEstimation lds cfg color_layers p illum bsdf).light_draws[i]?).isSome = true)
    := by
  obtain ⟨h1, h2, h3⟩ := drawPairs_spec lds p.numSamplesUnsigned ⟨2, p.start⟩ ⟨3, p.start⟩
  have hb2 : (drawPairs lds p.numSamplesUnsigned ⟨2, p.start⟩ ⟨3, p.start⟩).2.1.setStart p.start
      = ⟨2, p.start⟩ := by
    rw [Halton.setStart_eq, h2]
  have hb3 : (drawPairs lds p.numSamplesUnsigned ⟨2, p.start⟩ ⟨3, p.start⟩).2.2.setStart p.start
      = ⟨3, p.start⟩ := by
    rw [Halton.setStart_eq, h3]
  refine ⟨rfl, ?_, rfl, rfl, h1, ?_⟩
  · simp only [doLightEstimation, hb2, hb3]
  · intro hcan i hi
    simp only [doLightEstimation, hb2, hb3, hcan, if_true]
    refine ⟨trivial, ?_⟩
    rw [List.getElem?_eq_getElem (by rw [h1]; exact hi)]
    rfl

/-- C19 at the example parameters (4 samples, pixel sample 2, offset 10, light
number 1): `offs = 4*2 + 10 + 4567 = 4585`, all four cursors stand at index
4584, and both passes draw the same 4 pairs. -/
theorem doLightEstimation_reseeds_example :
    exampleEstimationParams.offs = 4585 ∧ exampleEstimationParams.start = 4584 ∧
    (doLightEstimation exampleLds exampleSettings none exampleEstimationParams
        (fun s => exampleLightInputs s.1 s.2) (fun s => exampleMaterialInputs s.1 s.2)).material_draws =
      (doLightEstimation exampleLds exampleSettings none exampleEstimationParams
        (fun s => exampleLightInputs s.1 s.2) (fun s => exampleMaterialInputs s.1 s.2)).light_draws
    := by
  have hn : exampleEstimationParams.numSamplesUnsigned = 4 := by
    norm_num [LightEstimationParams.numSamplesUnsigned, LightEstimationParams.numSamples,
      exampleEstimationParams]
    rfl
  have ho : exampleEstimationParams.offs = 4585 := by
    rw [LightEstimationParams.offs, hn]
    norm_num [exampleEstimationParams]
  have hs : exampleEstimationParams.start = 4584 := by
    rw [LightEstimationParams.start, ho]
    decide
  refine ⟨ho, hs, ?_⟩
  obtain ⟨_, h2, h3⟩ := drawPairs_spec exampleLds exampleEstimationParams.numSamplesUnsigned
    ⟨2, exampleEstimationParams.start⟩ ⟨3, exampleEstimationParams.start⟩
  simp only [doLightEstimation, Halton.setStart_eq, h2, h3, exampleSettings, if_true]

/-! ### Claims about the path end of final gathering -/

/-- When a radiance photon is found at the path end on a surface with diffuse
or glossy response, the amount added to `pathCol` is the throughput times the
photon's colour, plus the emission on an emissive surface. -/
theorem fgPathEnd_with_photon (h : FgHit) (st : FgState) (c : Rgb)
    (hhit : st.did_hit = true)
    (hsurf : hasAny h.init_bsdfs [Bsdf.Diffuse, Bsdf.Glossy] = true)
    (hnear : h.nearest = some c) :
    (fgPathEnd h st).end_added =
      some ((if hasAny h.init_bsdfs [Bsdf.Emit] then c.add h.emit else c).mul st.throughput) := by
  simp only [fgPathEnd, hhit, hsurf, hnear, Bool.and_self, if_true]

/-- C20, the code at a failing input: a path whose first hit is close and
diffuse (direct light estimate `(1/2,1/2,1/2)`), and whose second hit, beyond
the gather distance, is diffuse, non-emissive and has no radiance photon within
`lookupRad`. The path end adds `lcol * throughput = (1/4,1/4,1/4)` to `pathCol`
although there is neither photon nor emission, `lcol` still holding the direct
light estimate of the first hit; with a black estimate at the first hit the
same path end adds black. -/
theorem path_end_adds_stale_direct_light :
    (exampleFgHit Rgb.black).nearest = none ∧
    hasAny (exampleFgHit Rgb.black).init_bsdfs [Bsdf.Emit] = false ∧
    (fgPath exampleFgConfig exampleFgStart
        (fun k => if k = 0 then exampleFgHit ⟨1 / 2, 1 / 2, 1 / 2⟩
          else exampleFgHit Rgb.black)).end_added = some ⟨1 / 4, 1 / 4, 1 / 4⟩ ∧
    (fgPath exampleFgConfig exampleFgStart
        (fun k => if k = 0 then exampleFgHit ⟨1 / 2, 1 / 2, 1 / 2⟩
          else exampleFgHit Rgb.black)).throughput = ⟨1 / 2, 1 / 2, 1 / 2⟩ ∧
    (fgPath exampleFgConfig exampleFgStart
        (fun _ => exampleFgHit Rgb.black)).end_added = some Rgb.black := by
  have e1 : hasAny [Bsdf.Diffuse] [Bsdf.Volumetric] = false := by decide
  have e2 : hasAny [Bsdf.Diffuse] [Bsdf.Diffuse] = true := by decide
  have e3 : hasAny [Bsdf.Diffuse] [Bsdf.Emit] = false := by decide
  have e4 : hasAny [Bsdf.Diffuse] [Bsdf.Specular, Bsdf.Filter] = false := by decide
  have e5 : hasAny [Bsdf.Diffuse] [Bsdf.Specular] = false := by decide
  have e6 : hasAny [Bsdf.Diffuse] [Bsdf.Diffuse, Bsdf.Glossy] = true := by decide
  refine ⟨rfl, e3, ?_, ?_, ?_⟩
  · norm_num [fgPath, fgBounceLoop, fgBounce, fgPathEnd, exampleFgConfig, exampleFgStart,
      exampleFgHit, e1, e2, e3, e4, e5, e6, Rgb.isBlack, Rgb.scale, Rgb.mul, Rgb.add,
      Rgb.white, Rgb.black, pdfEpsilon]
  · norm_num [fgPath, fgBounceLoop, fgBounce, fgPathEnd, exampleFgConfig, exampleFgStart,
      exampleFgHit, e1, e2, e3, e4, e5, e6, Rgb.isBlack, Rgb.scale, Rgb.mul, Rgb.add,
      Rgb.white, Rgb.black, pdfEpsilon]
  · norm_num [fgPath, fgBounceLoop, fgBounce, fgPathEnd, exampleFgConfig, exampleFgStart,
      exampleFgHit, e1, e2, e3, e4, e5, e6, Rgb.isBlack, Rgb.scale, Rgb.mul, Rgb.add,
      Rgb.white, Rgb.black, pdfEpsilon]

/-! ### Claims about the Russian roulette of the path tracer -/

/-- At a depth above `russianRouletteMinBounces` and with a positive maximum
`p` of the throughput, the path survives exactly when the random value is at
most `p`. -/
theorem russianRoulette_survives_iff (maximum : Rgb → ℚ) (depth minBounces : ℤ) (u : ℚ)
    (throughput : Rgb) (hd : depth > minBounces) (hp : 0 < maximum throughput) :
    (russianRoulette maximum depth minBounces u throughput).isSome = true ↔
      u ≤ maximum throughput := by
  unfold russianRoulette
  rw [if_pos hd]
  by_cases hu : maximum throughput < u
  · rw [if_pos (Or.inr hu)]
    simp only [Option.isSome_none, Bool.false_eq_true, false_iff, not_le]
    exact hu
  · rw [if_neg (by rintro (h | h); exacts [absurd hp (not_lt.mpr h), hu h])]
    simp only [Option.isSome_some, true_iff]
    exact not_lt.mp hu

/-- A surviving path goes on with `throughput / p`. -/
theorem russianRoulette_survivor (maximum : Rgb → ℚ) (depth minBounces : ℤ) (u : ℚ)
    (throughput t : Rgb) (hd : depth > minBounces)
    (h : russianRoulette maximum depth minBounces u throughput = some t) :
    t = throughput.scale (1 / maximum throughput) := by
  unfold russianRoulette at h
  rw [if_pos hd] at h
  split_ifs at h
  exact (Option.some.inj h).symm

/-- With `0 < p ≤ 1` the random values in `[0,1)` that let the path survive are
those of `[0,p]`, of length `p`, and `p` times the surviving throughput is the
throughput before the step. -/
theorem russianRoulette_unbiased_up_to_one (throughput : Rgb) (p : ℚ) (hp : 0 < p) :
    (throughput.scale (1 / p)).scale p = throughput := by
  have h : p ≠ 0 := ne_of_gt hp
  cases throughput
  simp only [Rgb.scale, Rgb.mk.injEq]
  refine ⟨?_, ?_, ?_⟩ <;> field_simp

/-- C21, the code at a failing input: throughput `(2,1,1)`, whose maximum is
`p = 2`, at depth 1 above `russianRouletteMinBounces = 0`. Every random value
of `[0,1)` lets the path survive, so the survival probability is 1, and the
surviving throughput is `(1,1/2,1/2)`: the expected throughput after the step
is half the throughput before it. -/
theorem russianRoulette_biased_above_one :
    channelMaximum ⟨2, 1, 1⟩ = 2 ∧
    (∀ u : ℚ, 0 ≤ u → u < 1 →
      russianRoulette channelMaximum 1 0 u ⟨2, 1, 1⟩ = some ⟨1, 1 / 2, 1 / 2⟩) ∧
    (⟨1, 1 / 2, 1 / 2⟩ : Rgb) ≠ ⟨2, 1, 1⟩ := by
  have hm : channelMaximum ⟨2, 1, 1⟩ = 2 := by norm_num [channelMaximum]
  refine ⟨hm, ?_, by decide⟩
  intro u _ hu
  have h2 : ¬ ((2 : ℚ) ≤ 0 ∨ (2 : ℚ) < u) := by
    rintro (h | h)
    · norm_num at h
    · linarith
  unfold russianRoulette
  rw [if_pos (by decide), hm, if_neg h2]
  norm_num [Rgb.scale]

/-! ### Claims about the dispersive wavelength sub-samples -/

/-- C22 (amended): in exact arithmetic, with chromatic sampling,
`division_ <= 1`, `S >= 1` sub-samples and `ss_1` in `[0,1)`, the wavelength of
sub-sample `ns` is `(ns + ss_1) / S`, it lies in `[ns/S, (ns+1)/S)`, and it
lies in stratum `[k/S, (k+1)/S)` exactly when `k = ns`: each stratum holds
exactly one sub-sample. -/
theorem wavelengthDispersive_stratified (addMod1 : ℚ → ℚ → ℚ) (division_ : ℤ)
    (decorrelation_1_ : ℚ) (S : ℤ) (ss_1 : ℚ) (ns k : ℤ)
    (hdiv : division_ ≤ 1) (hS : 1 ≤ S) (h0 : 0 ≤ ss_1) (h1 : ss_1 < 1)
    (_hns0 : 0 ≤ ns) (_hns : ns < S) (_hk0 : 0 ≤ k) (_hk : k < S) :
    wavelengthDispersive addMod1 true division_ decorrelation_1_ S ss_1 ns
        = ((ns : ℚ) + ss_1) / (S : ℚ) ∧
    (ns : ℚ) / (S : ℚ)
        ≤ wavelengthDispersive addMod1 true division_ decorrelation_1_ S ss_1 ns ∧
    wavelengthDispersive addMod1 true division_ decorrelation_1_ S ss_1 ns
        < ((ns : ℚ) + 1) / (S : ℚ) ∧
    (((k : ℚ) / (S : ℚ)
        ≤ wavelengthDispersive addMod1 true division_ decorrelation_1_ S ss_1 ns ∧
      wavelengthDispersive addMod1 true division_ decorrelation_1_ S ss_1 ns
        < ((k : ℚ) + 1) / (S : ℚ)) ↔ k = ns) := by
  have hSq : (0 : ℚ) < (S : ℚ) := by exact_mod_cast (by omega : (0 : ℤ) < S)
  have hw : wavelengthDispersive addMod1 true division_ decorrelation_1_ S ss_1 ns
      = ((ns : ℚ) + ss_1) / (S : ℚ) := by
    simp only [wavelengthDispersive, raySamplesDispersive, if_neg (not_lt.mpr hdiv), if_true]
    rw [mul_one_div]
  rw [hw]
  refine ⟨rfl, ?_, ?_, ?_⟩
  · exact div_le_div_of_nonneg_right (by linarith) (le_of_lt hSq)
  · exact div_lt_div_of_pos_right (by linarith) hSq
  · rw [div_le_div_iff_of_pos_right hSq, div_lt_div_iff_of_pos_right hSq]
    constructor
    · rintro ⟨ha, hb⟩
      have h3 : (k : ℚ) < (ns : ℚ) + 1 := by linarith
      have h4 : (ns : ℚ) < (k : ℚ) + 1 := by linarith
      have h5 : k < ns + 1 := by exact_mod_cast h3
      have h6 : ns < k + 1 := by exact_mod_cast h4
      omega
    · rintro rfl
      constructor <;> linarith

/-- C22 (amended) at a concrete input: four sub-samples, `ss_1 = 1/2`,
sub-sample 2 has wavelength `5/8` in the third stratum `[2/4, 3/4)`. -/
theorem wavelengthDispersive_stratified_witness :
    wavelengthDispersive (fun a _ => a) true 1 0 4 (1 / 2) 2 = (((2 : ℤ) : ℚ) + 1 / 2) / ((4 : ℤ) : ℚ) ∧
    (((2 : ℤ) : ℚ)) / ((4 : ℤ) : ℚ) ≤ wavelengthDispersive (fun a _ => a) true 1 0 4 (1 / 2) 2 ∧
    wavelengthDispersive (fun a _ => a) true 1 0 4 (1 / 2) 2 < (((2 : ℤ) : ℚ) + 1) / ((4 : ℤ) : ℚ) ∧
    (((((2 : ℤ) : ℚ)) / ((4 : ℤ) : ℚ) ≤ wavelengthDispersive (fun a _ => a) true 1 0 4 (1 / 2) 2 ∧
      wavelengthDispersive (fun a _ => a) true 1 0 4 (1 / 2) 2
        < (((2 : ℤ) : ℚ) + 1) / ((4 : ℤ) : ℚ)) ↔ (2 : ℤ) = 2) :=
  wavelengthDispersive_stratified (fun a _ => a) 1 0 4 (1 / 2) 2 2 (by decide) (by decide)
    (by norm_num) (by norm_num) (by decide) (by decide) (by decide) (by decide)

/-! ### Claims about the random number generators -/

/-- The new `x_` of `RandomGenerator::operator()` is `(a * x + c) mod 2^32`. -/
theorem RandomGenerator.next_x (g : RandomGenerator) :
    g.next.x_ = (y_a_ * g.x_ + g.c_) % 2 ^ 32 := by
  simp only [RandomGenerator.next, Nat.mul_comm]

/-- C23, the code at a failing input: the generator constructed with seed 0
reaches state `(1741542611, 12889)` after one call; the next call leaves the
carry `726384132`, while `floor((a*x + c) / 2^32)` is `726384133`. The state
`x = 0, c = 0` gets carry 1 instead of 0. -/
theorem randomGenerator_carry_differs :
    (RandomGenerator.seeded 0).next = ⟨1741542611, 12889⟩ ∧
    (RandomGenerator.next ⟨1741542611, 12889⟩).x_ = (y_a_ * 1741542611 + 12889) % 2 ^ 32 ∧
    (RandomGenerator.next ⟨1741542611, 12889⟩).c_ = 726384132 ∧
    (y_a_ * 1741542611 + 12889) / 2 ^ 32 = 726384133 ∧
    RandomGenerator.next ⟨0, 0⟩ = ⟨0, 1⟩ ∧
    (y_a_ * 0 + 0) / 2 ^ 32 = 0 := by
  refine ⟨by decide, by decide, by decide, by decide, by decide, by decide⟩

/-- For a non-negative seed the truncating `/` and `%` of the update are the
Euclidean ones. -/
theorem lehmerUpdate_nonneg (s : ℤ) (h : 0 ≤ s) :
    lehmerUpdate s = 16807 * (s % 127773) - 2836 * (s / 127773) := by
  unfold lehmerUpdate a_ r_ q_
  rw [Int.tdiv_eq_ediv h (by norm_num), Int.tmod_eq_emod h (by norm_num)]

/-- C25: for a global seed `s` with `1 <= s <= 2^31 - 2`, `getNextInt()`
yields `(16807 * s) mod (2^31 - 1)`, a value of `[1, 2^31 - 2]`, and every
value computed on the way fits a signed 32-bit `int`. -/
theorem getNextInt_schrage (s : ℤ) (h1 : 1 ≤ s) (h2 : s ≤ 2 ^ 31 - 2) :
    getNextInt s = (16807 * s) % (2 ^ 31 - 1) ∧
    1 ≤ getNextInt s ∧ getNextInt s ≤ 2 ^ 31 - 2 ∧
    ∀ v ∈ getNextIntIntermediates s, inInt32 v := by
  have h2' : s ≤ 2147483646 := by norm_num at h2; exact h2
  have hu := lehmerUpdate_nonneg s (by omega)
  have hd : Int.tdiv s q_ = s / 127773 := by
    unfold q_; exact Int.tdiv_eq_ediv (by omega) (by norm_num)
  have hm : Int.tmod s q_ = s % 127773 := by
    unfold q_; exact Int.tmod_eq_emod (by omega) (by norm_num)
  have hv : getNextInt s = (16807 * s) % 2147483647 := by
    unfold getNextInt m_
    rw [hu]
    split_ifs <;> omega
  refine ⟨by rw [hv]; norm_num, by rw [hv]; omega, by rw [hv]; norm_num; omega, ?_⟩
  intro v hv
  unfold getNextIntIntermediates at hv
  rw [hu, hd, hm] at hv
  unfold inInt32
  unfold a_ r_ m_ at hv
  split_ifs at hv with hneg
  · simp only [List.cons_append, List.nil_append, List.mem_cons, List.mem_singleton,
      List.not_mem_nil, or_false] at hv
    rcases hv with h | h | h | h | h | h <;> omega
  · simp only [List.append_nil, List.mem_cons, List.mem_singleton, List.not_mem_nil,
      or_false] at hv
    rcases hv with h | h | h | h | h <;> omega

/-- C25 at a concrete input: seed 127773. -/
theorem getNextInt_schrage_witness :
    getNextInt 127773 = (16807 * 127773) % (2 ^ 31 - 1) ∧
    1 ≤ getNextInt 127773 ∧ getNextInt 127773 ≤ 2 ^ 31 - 2 ∧
    ∀ v ∈ getNextIntIntermediates 127773, inInt32 v :=
  getNextInt_schrage 127773 (by decide) (by decide)

/-- C26, the code at a failing input: caller's seed `127773`, any global
`myseed_`. The seeded variant leaves `-2836` in the seed and returns it, where
the unseeded variant and `(16807 * s) mod (2^31 - 1)` give `2147480811`; the
test that would add `m_` looks at the global `myseed_`. The normalised float is
negative. -/
theorem getNextIntSeeded_negative :
    (∀ myseed_ : ℤ, (getNextIntSeeded 127773 myseed_).seed = -2836) ∧
    getNextInt 127773 = 2147480811 ∧
    (16807 * 127773 : ℤ) % (2 ^ 31 - 1) = 2147480811 ∧
    (∀ myseed_ : ℤ, getNextFloatNormalizedSeeded 127773 myseed_ < 0) := by
  have hs : ∀ myseed_ : ℤ, (getNextIntSeeded 127773 myseed_).seed = -2836 := by
    intro _; simp only [getNextIntSeeded]; decide
  refine ⟨hs, by decide, by decide, ?_⟩
  intro k
  unfold getNextFloatNormalizedSeeded
  rw [hs k]
  norm_num [m_]

/-! ### Claims about the image layers -/

/-- The function `ImageLayers::getHeight` computes what `ImageLayers::getWidth`
computes. -/
theorem ImageLayers.getHeight_eq_getWidth (items_ : List ImageLayer) :
    ImageLayers.getHeight items_ = ImageLayers.getWidth items_ := rfl

/-- C24, the code at a failing input: one layer with an image 4 wide and 3
high. `getHeight` returns 4, the width, where the maximum height is 3. -/
theorem getHeight_returns_width :
    ImageLayers.getHeight [⟨some ⟨4, 3⟩⟩] = 4 ∧
    ImageLayers.getWidth [⟨some ⟨4, 3⟩⟩] = 4 ∧
    ImageLayer.getHeight ⟨some ⟨4, 3⟩⟩ = 3 := by
  refine ⟨by decide, by decide, by decide⟩

/-! ### Claims about the density lookup of the grid volume -/

/-- One axis of the density lookup: for a coordinate inside the box both
clamped indices lie in `[0, size - 1]`, and either they coincide or the offset
from the lower index lies in `[0, 1]`. -/
theorem gridAxis_indices (p a g : ℚ) (size : ℤ) (hag : a < g) (hs : 1 ≤ size)
    (hpa : a ≤ p) (hpg : p ≤ g) :
    0 ≤ max 0 ⌊(p - a) / (g - a) * (size : ℚ) - 1 / 2⌋ ∧
    max 0 ⌊(p - a) / (g - a) * (size : ℚ) - 1 / 2⌋ ≤ size - 1 ∧
    0 ≤ min (size - 1) ⌈(p - a) / (g - a) * (size : ℚ) - 1 / 2⌉ ∧
    min (size - 1) ⌈(p - a) / (g - a) * (size : ℚ) - 1 / 2⌉ ≤ size - 1 ∧
    (max 0 ⌊(p - a) / (g - a) * (size : ℚ) - 1 / 2⌋
        = min (size - 1) ⌈(p - a) / (g - a) * (size : ℚ) - 1 / 2⌉ ∨
      (0 ≤ (p - a) / (g - a) * (size : ℚ) - 1 / 2
            - ((max 0 ⌊(p - a) / (g - a) * (size : ℚ) - 1 / 2⌋ : ℤ) : ℚ) ∧
        (p - a) / (g - a) * (size : ℚ) - 1 / 2
            - ((max 0 ⌊(p - a) / (g - a) * (size : ℚ) - 1 / 2⌋ : ℤ) : ℚ) ≤ 1)) := by
  have hga : 0 < g - a := by linarith
  have hsq : (1 : ℚ) ≤ (size : ℚ) := by exact_mod_cast hs
  have ht0 : 0 ≤ (p - a) / (g - a) := div_nonneg (by linarith) (le_of_lt hga)
  have ht1 : (p - a) / (g - a) ≤ 1 := by
    rw [div_le_one hga]; linarith
  generalize (p - a) / (g - a) = t at ht0 ht1
  have hlo : -(1 / 2 : ℚ) ≤ t * (size : ℚ) - 1 / 2 := by
    have := mul_nonneg ht0 (by linarith : (0 : ℚ) ≤ (size : ℚ))
    linarith
  have hhi : t * (size : ℚ) - 1 / 2 ≤ (size : ℚ) - 1 / 2 := by
    have : t * (size : ℚ) ≤ 1 * (size : ℚ) :=
      mul_le_mul_of_nonneg_right ht1 (by linarith)
    linarith
  generalize t * (size : ℚ) - 1 / 2 = x at hlo hhi
  have hf1 : ⌊x⌋ ≤ size - 1 := by
    have h : ⌊x⌋ < size := by
      rw [Int.floor_lt]; linarith
    omega
  have hc0 : 0 ≤ ⌈x⌉ := by
    have h : (-1 : ℤ) < ⌈x⌉ := by
      rw [Int.lt_ceil]; push_cast; linarith
    omega
  refine ⟨le_max_left _ _, max_le (by omega) hf1, le_min (by omega) hc0, min_le_left _ _, ?_⟩
  by_cases hx : x < 0
  · left
    have hfl : ⌊x⌋ < 0 := by
      rw [Int.floor_lt]; exact_mod_cast hx
    have hcl : ⌈x⌉ ≤ 0 := by
      rw [Int.ceil_le]; exact_mod_cast le_of_lt hx
    rw [max_eq_left (le_of_lt hfl), min_eq_right (by omega)]
    omega
  · right
    have hx0 : 0 ≤ x := not_lt.mp hx
    have hfl : 0 ≤ ⌊x⌋ := by
      rw [Int.le_floor]; exact_mod_cast hx0
    rw [max_eq_right hfl]
    have h1 := Int.floor_le x
    have h2 := Int.lt_floor_add_one x
    constructor <;> linarith

/-- One interpolation step `u * (1 - t) + w * t` stays between bounds of its two
operands when these coincide or the weight `t` lies in `[0, 1]`. -/
theorem interpolation_step_bounds (u w t lo hi : ℚ) (hu : lo ≤ u ∧ u ≤ hi)
    (hw : lo ≤ w ∧ w ≤ hi) (h : u = w ∨ (0 ≤ t ∧ t ≤ 1)) :
    lo ≤ u * (1 - t) + w * t ∧ u * (1 - t) + w * t ≤ hi := by
  rcases h with h | ⟨h0, h1⟩
  · subst h
    have e : u * (1 - t) + u * t = u := by ring
    rw [e]; exact hu
  · constructor
    · nlinarith [mul_nonneg h0 (sub_nonneg.mpr hw.1), mul_nonneg (sub_nonneg.mpr h1) (sub_nonneg.mpr hu.1)]
    · nlinarith [mul_nonneg h0 (sub_nonneg.mpr hw.2), mul_nonneg (sub_nonneg.mpr h1) (sub_nonneg.mpr hu.2)]

/-- The seven interpolations of `density` stay between bounds of the eight
values read when, on each axis, the two indices coincide or the offset lies in
`[0, 1]`. -/
theorem interpolateDensity_bounds (g : ℤ → ℤ → ℤ → ℚ) (l : DensityLocals) (lo hi : ℚ)
    (hx : l.x_0 = l.x_1 ∨ (0 ≤ l.xd ∧ l.xd ≤ 1))
    (hy : l.y_0 = l.y_1 ∨ (0 ≤ l.yd ∧ l.yd ≤ 1))
    (hz : l.z_0 = l.z_1 ∨ (0 ≤ l.zd ∧ l.zd ≤ 1))
    (hb : ∀ i ∈ [l.x_0, l.x_1], ∀ j ∈ [l.y_0, l.y_1], ∀ k ∈ [l.z_0, l.z_1],
      lo ≤ g i j k ∧ g i j k ≤ hi) :
    lo ≤ interpolateDensity g l ∧ interpolateDensity g l ≤ hi := by
  have hzz : ∀ i j, g i j l.z_0 = g i j l.z_1 ∨ (0 ≤ l.zd ∧ l.zd ≤ 1) := fun i j =>
    hz.imp (fun h => by rw [h]) id
  have hi1 : ∀ i ∈ [l.x_0, l.x_1], ∀ j ∈ [l.y_0, l.y_1],
      lo ≤ g i j l.z_0 * (1 - l.zd) + g i j l.z_1 * l.zd ∧
      g i j l.z_0 * (1 - l.zd) + g i j l.z_1 * l.zd ≤ hi := fun i hi' j hj =>
    interpolation_step_bounds _ _ _ lo hi (hb i hi' j hj _ (by simp)) (hb i hi' j hj _ (by simp))
      (hzz i j)
  have hw : ∀ i ∈ [l.x_0, l.x_1],
      lo ≤ (g i l.y_0 l.z_0 * (1 - l.zd) + g i l.y_0 l.z_1 * l.zd) * (1 - l.yd)
          + (g i l.y_1 l.z_0 * (1 - l.zd) + g i l.y_1 l.z_1 * l.zd) * l.yd ∧
      (g i l.y_0 l.z_0 * (1 - l.zd) + g i l.y_0 l.z_1 * l.zd) * (1 - l.yd)
          + (g i l.y_1 l.z_0 * (1 - l.zd) + g i l.y_1 l.z_1 * l.zd) * l.yd ≤ hi := fun i hi' =>
    interpolation_step_bounds _ _ _ lo hi (hi1 i hi' _ (by simp)) (hi1 i hi' _ (by simp))
      (hy.imp (fun h => by rw [h]) id)
  exact interpolation_step_bounds _ _ _ lo hi (hw _ (by simp)) (hw _ (by simp))
    (hx.imp (fun h => by rw [h]) id)

/-- C30: for a point inside a box of positive extent and grid sizes of at least
one, the six indices of `density` lie in `[0, size - 1]` on their axis, and the
density lies between every lower and every upper bound of the eight grid values
read, so between the smallest and the largest of them. -/
theorem density_interpolates (v : GridVolumeRegion) (p : Point3)
    (hbx : v.b_box_.a_.x < v.b_box_.g_.x) (hby : v.b_box_.a_.y < v.b_box_.g_.y)
    (hbz : v.b_box_.a_.z < v.b_box_.g_.z)
    (hsx : 1 ≤ v.size_x_) (hsy : 1 ≤ v.size_y_) (hsz : 1 ≤ v.size_z_)
    (hpx : v.b_box_.a_.x ≤ p.x ∧ p.x ≤ v.b_box_.g_.x)
    (hpy : v.b_box_.a_.y ≤ p.y ∧ p.y ≤ v.b_box_.g_.y)
    (hpz : v.b_box_.a_.z ≤ p.z ∧ p.z ≤ v.b_box_.g_.z) :
    (0 ≤ (v.locals p).x_0 ∧ (v.locals p).x_0 ≤ v.size_x_ - 1 ∧
      0 ≤ (v.locals p).x_1 ∧ (v.locals p).x_1 ≤ v.size_x_ - 1) ∧
    (0 ≤ (v.locals p).y_0 ∧ (v.locals p).y_0 ≤ v.size_y_ - 1 ∧
      0 ≤ (v.locals p).y_1 ∧ (v.locals p).y_1 ≤ v.size_y_ - 1) ∧
    (0 ≤ (v.locals p).z_0 ∧ (v.locals p).z_0 ≤ v.size_z_ - 1 ∧
      0 ≤ (v.locals p).z_1 ∧ (v.locals p).z_1 ≤ v.size_z_ - 1) ∧
    (∀ lo hi : ℚ, (∀ d ∈ v.valuesRead p, lo ≤ d ∧ d ≤ hi) →
      lo ≤ v.density p ∧ v.density p ≤ hi) ∧
    (∃ d ∈ v.valuesRead p, d ≤ v.density p) ∧ (∃ d ∈ v.valuesRead p, v.density p ≤ d) := by
  obtain ⟨x1, x2, x3, x4, x5⟩ :=
    gridAxis_indices p.x v.b_box_.a_.x v.b_box_.g_.x v.size_x_ hbx hsx hpx.1 hpx.2
  obtain ⟨y1, y2, y3, y4, y5⟩ :=
    gridAxis_indices p.y v.b_box_.a_.y v.b_box_.g_.y v.size_y_ hby hsy hpy.1 hpy.2
  obtain ⟨z1, z2, z3, z4, z5⟩ :=
    gridAxis_indices p.z v.b_box_.a_.z v.b_box_.g_.z v.size_z_ hbz hsz hpz.1 hpz.2
  have hgen : ∀ lo hi : ℚ, (∀ d ∈ v.valuesRead p, lo ≤ d ∧ d ≤ hi) →
      lo ≤ v.density p ∧ v.density p ≤ hi := by
    intro lo hi hb
    refine interpolateDensity_bounds v.grid_ (v.locals p) lo hi x5 y5 z5 ?_
    intro i hi' j hj k hk
    apply hb
    simp only [List.mem_cons, List.mem_singleton, List.not_mem_nil, or_false] at hi' hj hk
    simp only [GridVolumeRegion.valuesRead, List.mem_cons, List.mem_singleton,
      List.not_mem_nil, or_false]
    rcases hi' with rfl | rfl <;> rcases hj with rfl | rfl <;> rcases hk with rfl | rfl <;> simp
  obtain ⟨m, hm, hmin⟩ := Finset.exists_min_image (v.valuesRead p).toFinset id
    ⟨_, List.mem_toFinset.mpr (List.mem_cons_self _ _)⟩
  obtain ⟨M, hM, hmax⟩ := Finset.exists_max_image (v.valuesRead p).toFinset id
    ⟨_, List.mem_toFinset.mpr (List.mem_cons_self _ _)⟩
  have hmM := hgen m M (fun d hd =>
    ⟨hmin d (List.mem_toFinset.mpr hd), hmax d (List.mem_toFinset.mpr hd)⟩)
  exact ⟨⟨x1, x2, x3, x4⟩, ⟨y1, y2, y3, y4⟩, ⟨z1, z2, z3, z4⟩, hgen,
    ⟨m, List.mem_toFinset.mp hm, hmM.1⟩, ⟨M, List.mem_toFinset.mp hM, hmM.2⟩⟩

/-- C30 at a concrete input: the centre of the unit cube in a grid of two cells
per axis. -/
theorem density_interpolates_witness :
    (0 ≤ (exampleGrid.locals ⟨1 / 2, 1 / 2, 1 / 2⟩).x_0 ∧
      (exampleGrid.locals ⟨1 / 2, 1 / 2, 1 / 2⟩).x_0 ≤ exampleGrid.size_x_ - 1 ∧
      0 ≤ (exampleGrid.locals ⟨1 / 2, 1 / 2, 1 / 2⟩).x_1 ∧
      (exampleGrid.locals ⟨1 / 2, 1 / 2, 1 / 2⟩).x_1 ≤ exampleGrid.size_x_ - 1) ∧
    (∃ d ∈ exampleGrid.valuesRead ⟨1 / 2, 1 / 2, 1 / 2⟩,
      d ≤ exampleGrid.density ⟨1 / 2, 1 / 2, 1 / 2⟩) ∧
    (∃ d ∈ exampleGrid.valuesRead ⟨1 / 2, 1 / 2, 1 / 2⟩,
      exampleGrid.density ⟨1 / 2, 1 / 2, 1 / 2⟩ ≤ d) :=
  have h := density_interpolates exampleGrid ⟨1 / 2, 1 / 2, 1 / 2⟩
    (by norm_num [exampleGrid]) (by norm_num [exampleGrid]) (by norm_num [exampleGrid])
    (by norm_num [exampleGrid]) (by norm_num [exampleGrid]) (by norm_num [exampleGrid])
    (by norm_num [exampleGrid]) (by norm_num [exampleGrid]) (by norm_num [exampleGrid])
  ⟨h.1, h.2.2.2.2.1, h.2.2.2.2.2⟩

/-! ### Claims about reading an HDR scanline with the old run-length encoding -/

/-- The header `readHeader` leaves for a file with the Y size first, columns
from the left and rows from the top has `min[1] = 0`, `max[1] = m_width` and
`step[1] = 1`. -/
theorem readHeaderOrder_left_to_right (m_width m_height : ℤ) :
    (readHeaderOrder true true true m_width m_height).min 1 = 0 ∧
    (readHeaderOrder true true true m_width m_height).max 1 = m_width ∧
    (readHeaderOrder true true true m_width m_height).step 1 = 1 := by
  simp [readHeaderOrder]

/-- C29, the code at a failing input: a scanline of width 2 with the two
uncompressed pixels `10` and `20` in row 0, under the left-to-right header.
The call returns true, pixel `10` is stored at column 0 and nothing is stored
at column 1: the store loop advances by `header.max[1]`. -/
theorem readORLE_stores_first_column_only :
    readORLE (fun _ : ℕ => false) (fun _ _ => 0) id (readHeaderOrder true true true 2 1) 2
        [10, 20] 0 2 (fun _ => 0) (fun _ _ => none)
      = ReadOutcome.done (fun a b => if a = 0 ∧ b = 0 then some 10 else none) ∧
    (fun a b : ℤ => if a = 0 ∧ b = 0 then some (10 : ℕ) else none) 1 0 = none := by
  constructor
  · simp [readORLE, orleFill, orleStore, readHeaderOrder]
  · simp

/-! ### Claims about the adaptive run-length encoding of HDR scanlines -/

/-- One iteration of the reading loop. -/
theorem readARLELoop_succ (W n j : ℕ) (file : List ℕ) :
    readARLELoop W (n + 1) j file =
      if j < W then
        match file with
        | [] => ReadOutcome.failed
        | count :: rest =>
          if count > 128 then
            if count % 128 + j > W then ReadOutcome.failed
            else
              match rest with
              | [] => ReadOutcome.failed
              | col :: rest2 =>
                (readARLELoop W n (j + count % 128) rest2).map
                  (fun r => (List.replicate (count % 128) col ++ r.1, r.2))
          else
            if count + j > W then ReadOutcome.failed
            else if rest.length < count then ReadOutcome.failed
            else
              (readARLELoop W n (j + count) (rest.drop count)).map
                (fun r => (rest.take count ++ r.1, r.2))
      else ReadOutcome.done ([], file) := rfl

/-- More fuel does not change a finished reading loop. -/
theorem readARLELoop_mono (W : ℕ) (n j : ℕ) (file : List ℕ) (x : List ℕ × List ℕ)
    (h : readARLELoop W n j file = ReadOutcome.done x) :
    readARLELoop W (n + 1) j file = ReadOutcome.done x := by
  induction n generalizing j file x with
  | zero => simp [readARLELoop] at h
  | succ n ih =>
    rw [readARLELoop_succ] at h
    rw [readARLELoop_succ]
    by_cases hj : j < W
    · rw [if_pos hj] at h ⊢
      cases file with
      | nil => simp at h
      | cons count rest =>
        simp only at h ⊢
        by_cases hc : count > 128
        · rw [if_pos hc] at h ⊢
          by_cases hr : count % 128 + j > W
          · rw [if_pos hr] at h; simp at h
          · rw [if_neg hr] at h ⊢
            cases rest with
            | nil => simp at h
            | cons col rest2 =>
              simp only at h ⊢
              cases hrec : readARLELoop W n (j + count % 128) rest2 with
              | done y =>
                rw [hrec] at h
                rw [ih _ _ _ hrec]
                exact h
              | failed => rw [hrec] at h; simp [ReadOutcome.map] at h
              | outOfFuel => rw [hrec] at h; simp [ReadOutcome.map] at h
        · rw [if_neg hc] at h ⊢
          by_cases hr : count + j > W
          · rw [if_pos hr] at h; simp at h
          · rw [if_neg hr] at h ⊢
            by_cases hl : rest.length < count
            · rw [if_pos hl] at h; simp at h
            · rw [if_neg hl] at h ⊢
              cases hrec : readARLELoop W n (j + count) (rest.drop count) with
              | done y =>
                rw [hrec] at h
                rw [ih _ _ _ hrec]
                exact h
              | failed => rw [hrec] at h; simp [ReadOutcome.map] at h
              | outOfFuel => rw [hrec] at h; simp [ReadOutcome.map] at h
    · rw [if_neg hj] at h ⊢
      exact h

/-- Any larger fuel does not change a finished reading loop. -/
theorem readARLELoop_mono_le (W : ℕ) (n m j : ℕ) (file : List ℕ) (x : List ℕ × List ℕ)
    (hnm : n ≤ m) (h : readARLELoop W n j file = ReadOutcome.done x) :
    readARLELoop W m j file = ReadOutcome.done x := by
  induction hnm with
  | refl => exact h
  | step _ ih => exact readARLELoop_mono W _ j file x ih

/-- Adjacent segments of a channel join. -/
theorem channelSegment_append (s : ℕ → ℕ) (j j1 j2 : ℕ) (h1 : j ≤ j1) (h2 : j1 ≤ j2) :
    channelSegment s j j1 ++ channelSegment s j1 j2 = channelSegment s j j2 := by
  unfold channelSegment
  have e : j2 - j = (j1 - j) + (j2 - j1) := by omega
  rw [e, List.range_add, List.map_append, List.map_map]
  congr 1
  apply List.map_congr_left
  intro i _
  simp only [Function.comp]
  congr 1
  omega

/-- The length of a segment. -/
theorem channelSegment_length (s : ℕ → ℕ) (j j' : ℕ) :
    (channelSegment s j j').length = j' - j := by
  simp [channelSegment]

/-- Nothing written reads back as nothing. -/
theorem decodes_refl (s : ℕ → ℕ) (W j : ℕ) : Decodes s W j [] j := by
  intro n rest vals file' h
  simpa [channelSegment] using h

/-- Bytes read back in sequence. -/
theorem decodes_trans (s : ℕ → ℕ) (W j j1 j2 : ℕ) (o1 o2 : List ℕ) (h1 : j ≤ j1)
    (h2 : j1 ≤ j2) (d1 : Decodes s W j o1 j1) (d2 : Decodes s W j1 o2 j2) :
    Decodes s W j (o1 ++ o2) j2 := by
  intro n rest vals file' h
  have a := d1 _ _ _ _ (d2 n rest vals file' h)
  have e : n + (j2 - j1) + (j1 - j) = n + (j2 - j) := by omega
  rw [e, ← List.append_assoc, ← List.append_assoc, channelSegment_append s j j1 j2 h1 h2] at a
  exact a

/-- A run packet `128 + k`, `v` reads back as `k` copies of `v`. -/
theorem decodes_run (s : ℕ → ℕ) (W j k v : ℕ) (hk1 : 1 ≤ k) (hk : k ≤ 127)
    (hW : j + k ≤ W) (hs : ∀ i, i < k → s (j + i) = v) :
    Decodes s W j [(128 + k) % 256, v] (j + k) := by
  intro n rest vals file' h
  have hseg : channelSegment s j (j + k) = List.replicate k v := by
    unfold channelSegment
    rw [Nat.add_sub_cancel_left]
    apply List.ext_getElem
    · simp
    · intro i h1 h2
      simp only [List.length_map, List.length_range] at h1
      simp [hs i h1]
  have e1 : (128 + k) % 256 = 128 + k := Nat.mod_eq_of_lt (by omega)
  have e2 : (128 + k) % 128 = k := by omega
  have hstep : readARLELoop W (n + 1) j ([(128 + k) % 256, v] ++ rest)
      = ReadOutcome.done (channelSegment s j (j + k) ++ vals, file') := by
    rw [readARLELoop_succ, if_pos (by omega : j < W)]
    simp only [List.cons_append, List.nil_append, e1, e2]
    rw [if_pos (by omega : 128 + k > 128), if_neg (by omega : ¬ k + j > W), h, hseg]
    rfl
  exact readARLELoop_mono_le W _ _ _ _ _ (by omega) hstep

/-- A non-run packet `k` followed by `k` values reads back as these values. -/
theorem decodes_nonrun (s : ℕ → ℕ) (W j k : ℕ) (hk1 : 1 ≤ k) (hk : k ≤ 128)
    (hW : j + k ≤ W) :
    Decodes s W j (k % 256 :: channelSegment s j (j + k)) (j + k) := by
  intro n rest vals file' h
  have e1 : k % 256 = k := Nat.mod_eq_of_lt (by omega)
  have hlen : (channelSegment s j (j + k)).length = k := by
    rw [channelSegment_length]; omega
  have hstep : readARLELoop W (n + 1) j ((k % 256 :: channelSegment s j (j + k)) ++ rest)
      = ReadOutcome.done (channelSegment s j (j + k) ++ vals, file') := by
    rw [readARLELoop_succ, if_pos (by omega : j < W)]
    simp only [List.cons_append, e1]
    rw [if_neg (by omega : ¬ k > 128), if_neg (by omega : ¬ k + j > W),
      if_neg (by rw [List.length_append, hlen]; omega)]
    have hd : List.drop k (channelSegment s j (j + k) ++ rest) = rest := by
      rw [List.drop_append_eq_append_drop, hlen, Nat.sub_self, List.drop_zero,
        List.drop_eq_nil_of_le (by omega), List.nil_append]
    have ht : List.take k (channelSegment s j (j + k) ++ rest)
        = channelSegment s j (j + k) := by
      rw [List.take_append_eq_append_take, hlen, Nat.sub_self, List.take_zero,
        List.take_of_length_le (by omega), List.append_nil]
    rw [hd, ht, h]
    rfl
  exact readARLELoop_mono_le W _ _ _ _ _ (by omega) hstep

/-- Bytes that read back from position 0 up to the width are decoded by the
reading loop of one channel with any fuel above the width. -/
theorem decodes_channel (s : ℕ → ℕ) (W : ℕ) (out : List ℕ) (d : Decodes s W 0 out W)
    (fuel2 : ℕ) (hf : W < fuel2) (rest : List ℕ) :
    readARLELoop W fuel2 0 (out ++ rest) = ReadOutcome.done (channelSegment s 0 W, rest) := by
  have h0 : readARLELoop W 1 W rest = ReadOutcome.done ([], rest) := by
    rw [readARLELoop_succ, if_neg (lt_irrefl W)]
  have h1 := d 1 rest [] rest h0
  rw [List.append_nil] at h1
  exact readARLELoop_mono_le W _ _ _ _ _ (by omega) h1
/-- The innermost loop ends within 127 iterations, leaves `beg_run` and
`old_run_count` alone, and counts only values inside the scanline that equal
`s[beg_run]`. -/
theorem runCountLoop_spec (s : ℕ → ℕ) (W : ℕ) (n : ℕ) (st : RunSearch)
    (hn : 128 ≤ n + st.run_count) (h127 : st.run_count ≤ 127) :
    ∃ r, runCountLoop s W n st = some r ∧ r.beg_run = st.beg_run ∧
      r.old_run_count = st.old_run_count ∧ st.run_count ≤ r.run_count ∧ r.run_count ≤ 127 ∧
      ∀ i, st.run_count ≤ i → i < r.run_count →
        s (st.beg_run + i) = s st.beg_run ∧ st.beg_run + i < W := by
  induction n generalizing st with
  | zero => omega
  | succ n ih =>
    rw [runCountLoop]
    by_cases hc : s st.beg_run = s (st.beg_run + st.run_count) ∧
        st.beg_run + st.run_count < W ∧ st.run_count < 127
    · rw [if_pos hc]
      obtain ⟨r, hr, hb, ho, hle, hr127, hrun⟩ := ih
        ⟨st.beg_run, st.run_count + 1, st.old_run_count,
          st.accesses ++ [st.beg_run, st.beg_run + st.run_count]⟩
        (by simp only; omega) (by simp only; omega)
      simp only at hb ho hle hrun
      refine ⟨r, hr, hb, ho, by omega, hr127, ?_⟩
      intro i hi1 hi2
      by_cases hi : i = st.run_count
      · subst hi
        exact ⟨hc.1.symm, hc.2.1⟩
      · exact hrun i (by omega) hi2
    · rw [if_neg hc]
      refine ⟨_, rfl, rfl, rfl, le_refl _, h127, ?_⟩
      intro i hi1 hi2
      simp only at hi2
      omega

/-- The run search ends, keeps its invariant, and ends with a run of at least
four or at the end of the scanline. -/
theorem runSearchLoop_spec (s : ℕ → ℕ) (W fuel cur : ℕ) (hf : 128 ≤ fuel) (n : ℕ)
    (st : RunSearch) (hinv : SearchInv s W cur st)
    (hn : (W - st.beg_run) + (if st.run_count = 0 then 1 else 0) < n) :
    ∃ r, runSearchLoop s W fuel n st = some r ∧ SearchInv s W cur r ∧
      ¬ (r.run_count < 4 ∧ r.beg_run < W) := by
  induction n generalizing st with
  | zero => omega
  | succ n ih =>
    rw [runSearchLoop]
    by_cases hc : st.run_count < 4 ∧ st.beg_run < W
    · rw [if_pos hc]
      obtain ⟨h1, h2, h3, h4, h5, h6, h7, h8⟩ := hinv
      obtain ⟨r1, hr1, hb, ho, hle, hr127, hrun⟩ := runCountLoop_spec s W fuel
        ⟨st.beg_run + st.run_count, 1, st.run_count, st.accesses⟩
        (by simp only; omega) (by simp only; omega)
      simp only at hb ho hle hrun
      rw [hr1, Option.some_bind]
      have hbw : st.beg_run + st.run_count ≤ W := by
        by_cases h2' : 2 ≤ st.run_count
        · exact h5 h2'
        · omega
      apply ih r1
      · refine ⟨by omega, by omega, hr127, by omega, ?_, ?_, ?_, by omega⟩
        · intro h2r
          have := (hrun (r1.run_count - 1) (by omega) (by omega)).2
          omega
        · intro i hi
          by_cases hi0 : i = 0
          · subst hi0; rfl
          · rw [hb]
            exact (hrun i (by omega) hi).1
        · intro i hi
          rw [hb, ho, Nat.add_sub_cancel]
          exact h6 i (by omega)
      · rw [hb, if_neg (by omega)]
        split_ifs at hn <;> omega
    · rw [if_neg hc]
      exact ⟨st, rfl, hinv, hc⟩

/-- The bytes before the run are written in chunks that read back. -/
theorem nonRunLoop_spec (s : ℕ → ℕ) (W beg : ℕ) (hbeg : beg ≤ W) (n cur : ℕ)
    (hcur : cur ≤ beg) (hn : beg - cur < n) :
    ∃ out, nonRunLoop s beg n cur = some (beg, out) ∧ Decodes s W cur out beg := by
  induction n generalizing cur with
  | zero => omega
  | succ n ih =>
    rw [nonRunLoop]
    by_cases hc : cur < beg
    · rw [if_pos hc]
      generalize hk : (if beg - cur > 128 then 128 else beg - cur) = k
      have hk1 : 1 ≤ k := by rw [← hk]; split_ifs <;> omega
      have hk2 : k ≤ 128 := by rw [← hk]; split_ifs <;> omega
      have hk3 : cur + k ≤ beg := by rw [← hk]; split_ifs <;> omega
      obtain ⟨out, ho, hd⟩ := ih (cur + k) hk3 (by omega)
      rw [ho]
      refine ⟨_, rfl, ?_⟩
      have hseg : (List.range k).map (fun i => s (cur + i)) = channelSegment s cur (cur + k) := by
        unfold channelSegment
        rw [Nat.add_sub_cancel_left]
      rw [hseg]
      exact decodes_trans s W cur (cur + k) beg _ _ (by omega) hk3
        (decodes_nonrun s W cur k hk1 hk2 (by omega)) hd
    · rw [if_neg hc]
      have : cur = beg := by omega
      subst this
      exact ⟨[], rfl, decodes_refl s W cur⟩

/-- The loop of one channel ends with `true`, and the bytes it has written read
back as the values of the channel from `cur` to the width. -/
theorem channelLoop_spec (s : ℕ → ℕ) (W fuel : ℕ) (hf : W + 128 ≤ fuel) (n cur : ℕ)
    (hcur : cur ≤ W) (hn : W - cur < n) :
    ∃ w, channelLoop s W fuel n cur = some w ∧ w.ok = true ∧ Decodes s W cur w.bytes W := by
  induction n generalizing cur with
  | zero => omega
  | succ n ih =>
    rw [channelLoop]
    by_cases hc : cur < W
    · rw [if_pos hc]
      obtain ⟨r, hr, ⟨h1, h2, h3, h4, h5, h6, h7, h8⟩, hexit⟩ :=
        runSearchLoop_spec s W fuel cur (by omega) fuel ⟨cur, 0, 0, []⟩
          ⟨by simp, by simpa using hcur, by simp, by simp, by simp, by simp, by simp, by simp⟩
          (by simp; omega)
      rw [hr, Option.some_bind]
      have hrc : 1 ≤ r.run_count := by
        by_contra h0
        have h00 : r.run_count = 0 := by omega
        exact hexit ⟨by omega, by rw [h8 h00]; exact hc⟩
      -- the short run and the bytes before the run
      have hfirst : ∃ out2, nonRunLoop s r.beg_run fuel (shortRunCur r cur)
            = some (r.beg_run, out2) ∧
          Decodes s W cur (shortRunBytes s r cur ++ out2) r.beg_run := by
        by_cases hs : isShortRun r cur = true
        · have hs' := hs
          simp only [isShortRun, decide_eq_true_eq] at hs'
          have hcb : cur + r.old_run_count = r.beg_run := by omega
          obtain ⟨out2, ho2, hd2⟩ := nonRunLoop_spec s W r.beg_run h2 fuel r.beg_run
            (le_refl _) (by omega)
          refine ⟨out2, by simp only [shortRunCur, hs, if_true]; exact ho2, ?_⟩
          simp only [shortRunBytes, hs, if_true]
          have hrun := decodes_run s W cur r.old_run_count (s cur) (by omega) h4 (by omega)
            (fun i hi => by
              have := h7 i hi
              rw [show r.beg_run - r.old_run_count = cur by omega] at this
              exact this)
          rw [hcb] at hrun
          exact decodes_trans s W cur r.beg_run r.beg_run _ _ (by omega) (le_refl _) hrun hd2
        · have hs' : isShortRun r cur = false := by simpa using hs
          obtain ⟨out2, ho2, hd2⟩ := nonRunLoop_spec s W r.beg_run h2 fuel cur
            (by omega) (by omega)
          refine ⟨out2, by simp only [shortRunCur, hs', Bool.false_eq_true, if_false]; exact ho2, ?_⟩
          simp only [shortRunBytes, hs', Bool.false_eq_true, if_false, List.nil_append]
          exact hd2
      obtain ⟨out2, ho2, hd2⟩ := hfirst
      rw [ho2, Option.some_bind]
      simp only
      -- the long run
      have hlong : longRunCur r r.beg_run ≤ W ∧ cur < longRunCur r r.beg_run ∧
          r.beg_run ≤ longRunCur r r.beg_run ∧
          Decodes s W r.beg_run (longRunBytes s r) (longRunCur r r.beg_run) := by
        by_cases hl : r.run_count ≥ 4
        · simp only [longRunCur, longRunBytes, hl, if_true]
          refine ⟨h5 (by omega), by omega, by omega, ?_⟩
          exact decodes_run s W r.beg_run r.run_count (s r.beg_run) hrc h3 (h5 (by omega))
            (fun i hi => h6 i hi)
        · simp only [longRunCur, longRunBytes, hl, if_false]
          have hbw : r.beg_run = W := by
            by_contra hne
            exact hexit ⟨by omega, by omega⟩
          exact ⟨h2, by omega, le_refl _, decodes_refl s W r.beg_run⟩
      obtain ⟨hl1, hl2, hl3, hl4⟩ := hlong
      rw [if_neg (by omega)]
      obtain ⟨w, hw, hok, hdw⟩ := ih (longRunCur r r.beg_run) hl1 (by omega)
      rw [hw]
      refine ⟨_, rfl, hok, ?_⟩
      simp only
      exact decodes_trans s W cur (longRunCur r r.beg_run) W _ _ (by omega) hl1
        (decodes_trans s W cur r.beg_run (longRunCur r r.beg_run) _ _ (by omega) hl3 hd2 hl4) hdw
    · rw [if_neg hc]
      have hcw : cur = W := by omega
      rw [hcw]
      exact ⟨_, rfl, rfl, decodes_refl s W W⟩

/-- All channels are written with result `true`, and the bytes written are read
back channel by channel as the values of the channels. -/
theorem writeChannels_spec (scanline : ℕ → ℕ → ℕ) (W fuel fuel2 : ℕ) (hf : W + 128 ≤ fuel)
    (hf2 : W < fuel2) (chans : List ℕ) :
    ∃ w, writeChannels scanline W fuel chans = some w ∧ w.ok = true ∧
      ∀ rest, readARLEChannels W fuel2 chans.length (w.bytes ++ rest)
        = ReadOutcome.done
            (chans.map (fun chan => (List.range W).map (fun i => scanline i chan)), rest) := by
  induction chans with
  | nil => exact ⟨_, rfl, rfl, fun rest => rfl⟩
  | cons chan chans ih =>
    obtain ⟨w, hw, hok, hd⟩ := channelLoop_spec (fun i => scanline i chan) W fuel hf fuel 0
      (Nat.zero_le _) (by omega)
    obtain ⟨w2, hw2, hok2, hd2⟩ := ih
    rw [writeChannels, hw, Option.some_bind, if_pos hok, hw2]
    refine ⟨_, rfl, hok2, ?_⟩
    intro rest
    simp only [List.length_cons, List.map_cons]
    rw [readARLEChannels, List.append_assoc,
      decodes_channel (fun i => scanline i chan) W w.bytes hd fuel2 hf2 (w2.bytes ++ rest)]
    simp only
    rw [hd2 rest]
    simp [ReadOutcome.map, channelSegment]

/-- C27: with fuel `W + 128` or more `writeScanline` returns true for every
width `W` and every scanline, whatever the values behind the buffer, and the
bytes it has written are decoded by the four channel loops of `readARLE` with
`scanWidth = W` (with fuel above `W`) into the four channel sequences of the
scanline, with nothing left over. -/
theorem arle_round_trip (scanline : ℕ → ℕ → ℕ) (W fuel fuel2 : ℕ) (hf : W + 128 ≤ fuel)
    (hf2 : W < fuel2) :
    ∃ w, writeScanline scanline W fuel = some w ∧ w.ok = true ∧
      readARLEChannels W fuel2 4 w.bytes
        = ReadOutcome.done
            ([0, 1, 2, 3].map (fun chan => (List.range W).map (fun i => scanline i chan)), []) := by
  obtain ⟨w, hw, hok, hd⟩ := writeChannels_spec scanline W fuel fuel2 hf hf2 [0, 1, 2, 3]
  refine ⟨w, hw, hok, ?_⟩
  have := hd []
  rw [List.append_nil] at this
  exact this

/-- C27 at a concrete input: width 3, every byte of the scanline and behind it
equal to 7. -/
theorem arle_round_trip_witness :
    ∃ w, writeScanline (fun _ _ => 7) 3 131 = some w ∧ w.ok = true ∧
      readARLEChannels 3 4 4 w.bytes
        = ReadOutcome.done
            ([0, 1, 2, 3].map (fun _ => (List.range 3).map (fun _ => 7)), []) :=
  arle_round_trip (fun _ _ => 7) 3 131 4 (by decide) (by decide)

/-- C28, the code at a failing input: width 1 and a scanline of one pixel with
all bytes 0 (the bytes behind it are taken as 0 too). `writeScanline` returns
true after its run searches have read `scanline[1]` and `scanline[2]`, which
lie behind the buffer: the comparison of `scanline[beg_run]` with
`scanline[beg_run + run_count]` comes before the test
`beg_run + run_count < m_width`. -/
theorem writeScanline_reads_past_the_end :
    writeScanline (fun _ _ => 0) 1 200
      = some ⟨true, [1, 0, 1, 0, 1, 0, 1, 0], [0, 1, 1, 2, 0, 1, 1, 2, 0, 1, 1, 2, 0, 1, 1, 2]⟩ ∧
    (runSearchLoop (fun _ => 0) 1 200 200 ⟨0, 0, 0, []⟩).map (fun r => r.accesses)
      = some [0, 1, 1, 2] := by
  refine ⟨by decide, by decide⟩

/-! ### The binary32 computations of the source at the inputs where rounding decides -/

/-- With exact arithmetic in the place of the rounding, `Bound.crossRounded` is
`Bound.cross`. -/
theorem Bound.crossRounded_id (b : Bound) (ray : Ray) (t_max : ℚ) :
    Bound.crossRounded id b ray t_max = Bound.cross b ray t_max := rfl

/-- C4, the code at a failing input, the specification's own example of a miss:
box `[(0,0,0),(1,1,1)]`, origin `(-1,0.5,0.5)`, direction `(0,1,0)`,
`t_max = 1`. No `t` puts the ray inside the box (its x coordinate stays `-1`),
yet `cross` skips the x axis and returns `crossed_ = true` with
`enter_ = -0.5` and `leave_ = 0.5`, in binary32 as in exact arithmetic. -/
theorem cross_reports_spec_miss :
    (∀ t : ℚ, unitBox.includes (specMissRay.pointAt t) = false) ∧
    Bound.crossRounded toFloat32 unitBox specMissRay 1 = ⟨true, -(1 / 2), 1 / 2⟩ ∧
    unitBox.cross specMissRay 1 = ⟨true, -(1 / 2), 1 / 2⟩ := by
  have e0 : toFloat32 0 = 0 := toFloat32_zero
  have e1 : toFloat32 1 = 1 :=
    toFloat32_exact _ 1 0 (by norm_num) (by norm_num) (by norm_num)
  have eh : toFloat32 (1 / 2) = 1 / 2 :=
    toFloat32_exact _ 1 (-1) (by norm_num) (by norm_num) (by norm_num)
  have emh : toFloat32 (-(1 / 2)) = -(1 / 2) :=
    toFloat32_exact _ (-1) (-1) (by norm_num) (by norm_num) (by norm_num)
  have em1 : toFloat32 (-1) = -1 :=
    toFloat32_exact _ (-1) 0 (by norm_num) (by norm_num) (by norm_num)
  have einf : toFloat32 100000000000000000000000000000000000000 = 9860761 * 2 ^ 103 := by
    rw [toFloat32_eq _ 126 (by norm_num) (by norm_num [abs_of_pos])
      (by norm_num [abs_of_pos])]
    have h : (100000000000000000000000000000000000000 : ℚ) / 2 ^ ((126 : ℤ) - 23)
        = ((9860761 : ℤ) : ℚ)
          + ((100000000000000000000000000000000000000 : ℚ) / 2 ^ 103 - 9860761) := by
      norm_num
    rw [h, roundNearestEven_add_small _ _ (by norm_num) (by norm_num)]
    norm_num
  refine ⟨?_, ?_, ?_⟩
  · intro t
    cases h : unitBox.includes (specMissRay.pointAt t)
    · rfl
    · simp only [Bound.includes, unitBox, specMissRay, Ray.pointAt, Bool.and_eq_true,
        decide_eq_true_eq] at h
      linarith [h.1.1.1.1.1]
  · simp only [Bound.crossRounded, unitBox, specMissRay, infinityCheck]
    norm_num [e0, e1, eh, emh, em1, einf]
  · simp only [Bound.cross, unitBox, specMissRay, infinityCheck, Point3.sub]
    norm_num

/-- C5 as stated fails for the binary32 computation of the source: the box
`[(0,2^-30,0),(1,1,1)]` (with `a_ ≤ g_`) and the ray from `(0,-1,0.5)` in
direction `(1,1,1/1024)` (no component zero), all coordinates binary32 numbers.
The differences `from.y - a_.y = -1 - 2^-30` and `g_.y - a_.y = 1 - 2^-30`
round to `-1` and `1`, and `cross` returns `crossed_ = true` with
`enter_ = leave_ = 1`, although no `t` puts the ray inside the box. -/
theorem cross_interval_fails_in_binary32 :
    toFloat32 (1 / 1073741824) = 1 / 1073741824 ∧ toFloat32 (1 / 1024) = 1 / 1024 ∧
    (thinGapBox.a_.x ≤ thinGapBox.g_.x ∧ thinGapBox.a_.y ≤ thinGapBox.g_.y ∧
      thinGapBox.a_.z ≤ thinGapBox.g_.z) ∧
    (grazingRay.dir_.x ≠ 0 ∧ grazingRay.dir_.y ≠ 0 ∧ grazingRay.dir_.z ≠ 0) ∧
    Bound.crossRounded toFloat32 thinGapBox grazingRay 10 = ⟨true, 1, 1⟩ ∧
    (∀ t : ℚ, thinGapBox.includes (grazingRay.pointAt t) = false) := by
  have e0 : toFloat32 0 = 0 := toFloat32_zero
  have e1 : toFloat32 1 = 1 :=
    toFloat32_exact _ 1 0 (by norm_num) (by norm_num) (by norm_num)
  have e2 : toFloat32 2 = 2 :=
    toFloat32_exact _ 1 1 (by norm_num) (by norm_num) (by norm_num)
  have eh : toFloat32 (1 / 2) = 1 / 2 :=
    toFloat32_exact _ 1 (-1) (by norm_num) (by norm_num) (by norm_num)
  have e1024 : toFloat32 1024 = 1024 :=
    toFloat32_exact _ 1 10 (by norm_num) (by norm_num) (by norm_num)
  have e512 : toFloat32 512 = 512 :=
    toFloat32_exact _ 1 9 (by norm_num) (by norm_num) (by norm_num)
  have em512 : toFloat32 (-512) = -512 :=
    toFloat32_exact _ (-1) 9 (by norm_num) (by norm_num) (by norm_num)
  have ey : toFloat32 (-(1073741825 / 1073741824)) = -1 := by
    rw [toFloat32_eq _ 0 (by norm_num) (by norm_num [abs_of_neg])
      (by norm_num [abs_of_neg])]
    have h : (-(1073741825 / 1073741824) : ℚ) / 2 ^ ((0 : ℤ) - 23)
        = ((-8388608 : ℤ) : ℚ) + (-(1 / 128)) := by norm_num
    rw [h, roundNearestEven_add_small _ _ (by norm_num) (by norm_num)]
    norm_num
  have eg : toFloat32 (1073741823 / 1073741824) = 1 := by
    rw [toFloat32_eq _ (-1) (by norm_num) (by norm_num [abs_of_pos])
      (by norm_num [abs_of_pos])]
    have h : (1073741823 / 1073741824 : ℚ) / 2 ^ ((-1 : ℤ) - 23)
        = ((16777216 : ℤ) : ℚ) + (-(1 / 64)) := by norm_num
    rw [h, roundNearestEven_add_small _ _ (by norm_num) (by norm_num)]
    norm_num
  refine ⟨toFloat32_exact _ 1 (-30) (by norm_num) (by norm_num) (by norm_num),
    toFloat32_exact _ 1 (-10) (by norm_num) (by norm_num) (by norm_num),
    by norm_num [thinGapBox], by norm_num [grazingRay], ?_, ?_⟩
  · simp only [Bound.crossRounded, thinGapBox, grazingRay]
    norm_num [e0, e1, e2, eh, e1024, e512, em512, ey, eg]
  · intro t
    cases h : thinGapBox.includes (grazingRay.pointAt t)
    · rfl
    · simp only [Bound.includes, thinGapBox, grazingRay, Ray.pointAt, Bool.and_eq_true,
        decide_eq_true_eq] at h
      obtain ⟨⟨⟨⟨⟨_, hx⟩, hy⟩, _⟩, _⟩, _⟩ := h
      linarith

/-- C9 as stated fails for the binary32 computation of both sources: with the
adjusted budget `n' = 16777220` and `T = 4` threads (`P = 4194305`), thread 3
at `curr = P - 1` has `haltoncurr = 16777219 < n'`. The conversion to `float`
rounds `16777219` to `16777220`, and the light-selection sample is `1`, for
the quotient of `MonteCarloIntegrator::causticWorker` as for the product with
the rounded reciprocal of `photonIntegrator_t::causticWorker`. -/
theorem lightSelectionSample_rounds_to_one :
    4 ∣ 16777220 ∧ photonsPerThread 16777220 4 = 4194305 ∧
    haltoncurr 4194304 (photonsPerThread 16777220 4) 3 = 16777219 ∧
    toFloat32 16777219 = 16777220 ∧
    lightSelectionSampleFloat 16777219 16777220 = 1 ∧
    lightSelectionSampleInv 16777219 16777220 = 1 := by
  have e1 : toFloat32 1 = 1 :=
    toFloat32_exact _ 1 0 (by norm_num) (by norm_num) (by norm_num)
  have en : toFloat32 16777220 = 16777220 :=
    toFloat32_exact _ 8388610 1 (by norm_num) (by norm_num) (by norm_num)
  have eh : toFloat32 16777219 = 16777220 := by
    rw [toFloat32_eq _ 24 (by norm_num) (by norm_num) (by norm_num)]
    have h : (16777219 : ℚ) / 2 ^ ((24 : ℤ) - 23) = ((8388609 : ℤ) : ℚ) + 1 / 2 := by
      norm_num
    rw [h, roundNearestEven_add_half]
    norm_num
  have einv : toFloat32 (1 / 16777220) = 16777212 / 2 ^ 48 := by
    rw [toFloat32_eq _ (-25) (by norm_num) (by norm_num [abs_of_pos])
      (by norm_num [abs_of_pos])]
    have h : (1 / 16777220 : ℚ) / 2 ^ ((-25 : ℤ) - 23)
        = ((16777212 : ℤ) : ℚ) + ((2 : ℚ) ^ 48 / 16777220 - 16777212) := by norm_num
    rw [h, roundNearestEven_add_small _ _ (by norm_num) (by norm_num)]
    norm_num
  have eprod : toFloat32 (16777220 * (16777212 / 2 ^ 48)) = 1 := by
    rw [toFloat32_eq _ (-1) (by norm_num) (by norm_num [abs_of_pos])
      (by norm_num [abs_of_pos])]
    have h : (16777220 * (16777212 / 2 ^ 48) : ℚ) / 2 ^ ((-1 : ℤ) - 23)
        = ((16777216 : ℤ) : ℚ) + (-(1 / 1048576)) := by norm_num
    rw [h, roundNearestEven_add_small _ _ (by norm_num) (by norm_num)]
    norm_num
  refine ⟨by decide, by decide, by decide, eh, ?_, ?_⟩
  · unfold lightSelectionSampleFloat
    push_cast
    rw [eh, en, div_self (by norm_num), e1]
  · unfold lightSelectionSampleInv
    push_cast
    rw [eh, en, einv, eprod]

/-- C22 as stated fails for the binary32 computation of the source. With
`S = 2`, `ns = 1` and `ss_1 = 1 - 2^-24` (a binary32 number of `[0,1)`) the sum
`ns + ss_1` rounds to `2` and the wavelength is `1`, outside
`[ns/S, (ns+1)/S) = [1/2, 1)` and outside `[0,1)`. With `S = 10`, `ns = 7` and
`ss_1 = 0` the factor `d_1` is the rounded `1/10` and the wavelength is
`11744051 / 2^24`, below `ns/S = 7/10`. -/
theorem wavelengthDispersive_leaves_stratum_in_binary32 :
    toFloat32 (16777215 / 16777216) = 16777215 / 16777216 ∧
    ((0 : ℚ) ≤ 16777215 / 16777216 ∧ (16777215 / 16777216 : ℚ) < 1) ∧
    wavelengthDispersiveFloat (fun a _ => a) true 1 0 2 (16777215 / 16777216) 1 = 1 ∧
    ¬ ((1 : ℚ) < (((1 : ℤ) : ℚ) + 1) / ((2 : ℤ) : ℚ)) ∧
    wavelengthDispersiveFloat (fun a _ => a) true 1 0 10 0 7 = 11744051 / 16777216 ∧
    (11744051 / 16777216 : ℚ) < ((7 : ℤ) : ℚ) / ((10 : ℤ) : ℚ) := by
  have e1 : toFloat32 1 = 1 :=
    toFloat32_exact _ 1 0 (by norm_num) (by norm_num) (by norm_num)
  have e2 : toFloat32 2 = 2 :=
    toFloat32_exact _ 1 1 (by norm_num) (by norm_num) (by norm_num)
  have e7 : toFloat32 7 = 7 :=
    toFloat32_exact _ 7 0 (by norm_num) (by norm_num) (by norm_num)
  have e10 : toFloat32 10 = 10 :=
    toFloat32_exact _ 10 0 (by norm_num) (by norm_num) (by norm_num)
  have eh : toFloat32 (1 / 2) = 1 / 2 :=
    toFloat32_exact _ 1 (-1) (by norm_num) (by norm_num) (by norm_num)
  have es : toFloat32 (16777215 / 16777216) = 16777215 / 16777216 :=
    toFloat32_exact _ 16777215 (-24) (by norm_num) (by norm_num) (by norm_num)
  have esum : toFloat32 (33554431 / 16777216) = 2 := by
    rw [toFloat32_eq _ 0 (by norm_num) (by norm_num [abs_of_pos])
      (by norm_num [abs_of_pos])]
    have h : (33554431 / 16777216 : ℚ) / 2 ^ ((0 : ℤ) - 23)
        = ((16777215 : ℤ) : ℚ) + 1 / 2 := by norm_num
    rw [h, roundNearestEven_add_half]
    norm_num
  have etenth : toFloat32 (1 / 10) = 13421773 / 134217728 := by
    rw [toFloat32_eq _ (-4) (by norm_num) (by norm_num [abs_of_pos])
      (by norm_num [abs_of_pos])]
    have h : (1 / 10 : ℚ) / 2 ^ ((-4 : ℤ) - 23)
        = ((13421773 : ℤ) : ℚ) + (-(1 / 5)) := by norm_num
    rw [h, roundNearestEven_add_small _ _ (by norm_num) (by norm_num)]
    norm_num
  have eprod : toFloat32 (93952411 / 134217728) = 11744051 / 16777216 := by
    rw [toFloat32_eq _ (-1) (by norm_num) (by norm_num [abs_of_pos])
      (by norm_num [abs_of_pos])]
    have h : (93952411 / 134217728 : ℚ) / 2 ^ ((-1 : ℤ) - 23)
        = ((11744051 : ℤ) : ℚ) + 3 / 8 := by norm_num
    rw [h, roundNearestEven_add_small _ _ (by norm_num) (by norm_num)]
    norm_num
  refine ⟨es, by norm_num, ?_, by norm_num, ?_, by norm_num⟩
  · simp only [wavelengthDispersiveFloat, raySamplesDispersive]
    norm_num [e1, e2, eh, esum]
  · simp only [wavelengthDispersiveFloat, raySamplesDispersive]
    norm_num [e7, e10, etenth, eprod]

/-! ### The load and reuse fallbacks with a NaN photon -/

/-- With 4 photons on 2 threads and a NaN colour at sample index 0, the worker
of thread 0 has not left its loop after any number of iterations, whatever the
answers of `canceled()`. -/
theorem nanFirstShoot_stalls_worker (canceled : ℕ → Bool) (fuel : ℕ) :
    causticWorker 4 2 0 1 nanFirstShoot canceled fuel = none := by
  have hP : photonsPerThread 4 2 = 2 := by decide
  unfold causticWorker
  rw [hP]
  induction fuel with
  | zero => rfl
  | succ fuel ih =>
    unfold causticWorkerLoop
    have h0 : nanFirstShoot (haltoncurr 0 2 0) = PhotonOutcome.nan := rfl
    rw [h0]
    exact ih

/-- With 4 photons on 2 threads and a NaN colour at sample index 0 the
generation part of `createCausticMap` does not return. -/
theorem generateCausticMap_stalls_on_nan (mode : PhotonMapProcessing) (caustic_map_ : PhotonMap)
    (fuel : ℕ) :
    generateCausticMap mode caustic_map_ 4 2 1 nanFirstShoot (fun _ _ => false) fuel = none := by
  have ha : adjustedPhotonCount 4 2 = 4 := by decide
  have hs : max 1 (4 / 128) = 1 := by decide
  have hw := nanFirstShoot_stalls_worker (fun _ => false) fuel
  simp only [generateCausticMap, shootCausticPhotons, joinWorkers, ha, hs, hw]
  rfl

/-- C15, the code at a failing input: mode `PhotonsLoad`, `load` fails, 4
photons on 2 threads, one caustic light, and the photon of sample index 0 has
a NaN colour. After the switch to `PhotonsGenerateAndSave` and the clearing of
the map, worker 0 never leaves its loop (the NaN branch does not advance
`curr`), so `createCausticMap` does not return and the map is not regenerated,
whatever the number of iterations. With photons free of NaN the same call
returns `true` in mode `PhotonsGenerateAndSave` with the map regenerated: the
two photons deposited by the 4 paths of the 2 workers, tree built, map saved. -/
theorem load_fallback_stalls_on_nan :
    (∀ fuel : ℕ,
      createCausticMap PhotonMapProcessing.PhotonsLoad onePhotonMap 4 2 none 1 nanFirstShoot
        (fun _ _ => false) fuel = none) ∧
    createCausticMap PhotonMapProcessing.PhotonsLoad onePhotonMap 4 2 none 1 exampleShoot
        (fun _ _ => false) 2 =
      some ⟨true, PhotonMapProcessing.PhotonsGenerateAndSave,
        ⟨[examplePhoton, examplePhoton], 4, true⟩, 4, 4, true, 2, true⟩ := by
  refine ⟨fun fuel => ?_, rfl⟩
  exact generateCausticMap_stalls_on_nan PhotonMapProcessing.PhotonsGenerateAndSave
    onePhotonMap fuel

/-- C16, the code at a failing input: mode `PhotonsReuse`, an empty caustic
map, 4 photons on 2 threads, one caustic light, and the photon of sample index
0 has a NaN colour. After the switch to `PhotonsGenerateOnly` and the clearing
of the map, worker 0 never leaves its loop (the NaN branch does not advance
`curr`), so `createCausticMap` does not return and the map is not regenerated,
whatever the number of iterations. With photons free of NaN the same call
returns `true` in mode `PhotonsGenerateOnly` with the map regenerated: the two
photons deposited by the 4 paths of the 2 workers, tree built, nothing saved. -/
theorem reuse_fallback_stalls_on_nan :
    (∀ fuel : ℕ,
      createCausticMap PhotonMapProcessing.PhotonsReuse emptyPhotonMap 4 2 none 1 nanFirstShoot
        (fun _ _ => false) fuel = none) ∧
    createCausticMap PhotonMapProcessing.PhotonsReuse emptyPhotonMap 4 2 none 1 exampleShoot
        (fun _ _ => false) 2 =
      some ⟨true, PhotonMapProcessing.PhotonsGenerateOnly,
        ⟨[examplePhoton, examplePhoton], 4, true⟩, 4, 4, true, 2, false⟩ := by
  refine ⟨fun fuel => ?_, rfl⟩
  exact generateCausticMap_stalls_on_nan PhotonMapProcessing.PhotonsGenerateOnly
    emptyPhotonMap fuel

end YafaRay
